import Mathlib

/-!
# MiniOS `vm/vmspace.c`: a shallow embedding of the vmspace allocator

The translation follows `src/MiniOS/src/vm/vmspace.c` function by function.

* Descriptors (`struct vmspace`) live in a descriptor memory `mem : Ref → vmspace`;
  the addresses `0 .. MAX_VMSPACE_POOL - 1` are the slots of the static array
  `vmspace_pool`, every other address is a descriptor owned by somebody else
  (the code that populated the zone).
* The bucket list `node_vmspace` of a node is a Lean list of descriptor addresses,
  head first.  The buddy chain (`vm_buddy`) is kept as the two link fields of every
  descriptor, as in C.
* Integers are unbounded (`Nat` for sizes and addresses, `Int` for the C `int`s
  whose sign matters).  The one subtraction on an unsigned field, line 180, wraps
  modulo `2 ^ 64` as in C (`vm_size_sub`); sums and products are not reduced.
* A call either returns (`Except.ok`) or stops with a `Stop` value.
-/

namespace MiniOS

/-- Build-time constants of the headers `vm/zone.h`, `vm/node.h`, `vm/vmspace.h`
(not part of the sources at hand): they are parameters of the development. -/
structure Config where
  PAGE_SIZE : Nat
  MAX_ORDER : Nat
  MAX_VMSPACE_POOL : Nat
deriving DecidableEq, Repr

/-- Address of a descriptor (`vmspace_t`). -/
abbrev Ref := Nat

/-- The fields of `struct vmspace` used by `vmspace.c`.  `vm_buddy_next` and
`vm_buddy_prev` are the two links of the `vm_buddy` list entry (`none` is `NULL`). -/
structure vmspace where
  vm_start : Nat
  vm_present_size : Nat
  vm_initial_size : Nat
  vm_owner : Nat
  vm_used : Nat
  vm_buddy_next : Option Ref
  vm_buddy_prev : Option Ref
deriving DecidableEq, Repr

/-- A zeroed descriptor. -/
def vmspace.zero : vmspace := ⟨0, 0, 0, 0, 0, none, none⟩

instance : Inhabited vmspace := ⟨vmspace.zero⟩

/-- The fields of `struct node`: the free count and the list of free blocks. -/
structure node where
  node_nr_nodes : Int
  node_vmspace : List Ref
deriving DecidableEq, Repr

/-- The zone together with the static storage of `vmspace.c`. -/
structure State where
  zone_lock : Bool
  zone_nodes : Nat → node
  mem : Ref → vmspace
  index : Nat

/-- How a call can fail to return normally. -/
inductive Stop where
  | panic_order
  | panic_exhausted
  | hang
  | fault
deriving DecidableEq, Repr

/-! ## Helper macros of the missing headers -/

/-- Floor of the binary logarithm, by repeated halving (`fuel` bounds the halvings). -/
def log2_aux : Nat → Nat → Nat
  | 0, _ => 0
  | fuel + 1, n => if 2 ≤ n then log2_aux fuel (n / 2) + 1 else 0

/-- Modelled from the spec: the macro `round_base2` is declared in a header that is not
among the sources; where its value indexes `zone_nodes` (lines 147 and 182) it is the
order of a power-of-two page count, `log2 x`. -/
def round_base2 (x : Int) : Nat := log2_aux x.toNat x.toNat

/-- Modelled from the spec: the macro `is_round_base2` is declared in a header that is
not among the sources; the spec reads it as "is an exact power of two" (false for 0
and for negative values). -/
def is_round_base2 (x : Int) : Bool := decide (0 < x) && decide (((2 : Int) ^ round_base2 x) = x)

/-- Modelled from the spec: `get_order_base2` is declared in a header that is not among
the sources; the spec gives `order = ceil(log2(size_in_pages))`, the pages being those
needed to hold `size` bytes. -/
def get_order_base2 (cfg : Config) (size : Nat) : Nat :=
  let pages := (size + cfg.PAGE_SIZE - 1) / cfg.PAGE_SIZE
  if pages ≤ 1 then 0 else round_base2 ((pages - 1 : Nat) : Int) + 1

/-- Modelled from the spec: line 132 computes
`(powerof2(order) - round_base2(total)) / PAGE_SIZE` with macros of a missing header;
step 5 of the Splitting Engine gives its value,
`reserve_pages = block_size_at(order) - pages_needed`, in pages. -/
def reserve_pages_at (order : Int) (total : Int) : Int := (2 : Int) ^ order.toNat - total

/-! ## State access -/

/-- Overwrite one descriptor. -/
def State.setMem (s : State) (r : Ref) (v : vmspace) : State :=
  { s with mem := Function.update s.mem r v }

/-- Overwrite one node of `zone_nodes`. -/
def State.setNode (s : State) (k : Nat) (n : node) : State :=
  { s with zone_nodes := Function.update s.zone_nodes k n }

/-- Statement `zone->zone_nodes[k]->node_nr_nodes++`. -/
def State.incr_nr (s : State) (k : Nat) : State :=
  s.setNode k { s.zone_nodes k with node_nr_nodes := (s.zone_nodes k).node_nr_nodes + 1 }

/-- Macro `LIST_INSERT_HEAD(&zone->zone_nodes[k]->node_vmspace, x, vm_entry)`. -/
def State.LIST_INSERT_HEAD (s : State) (k : Nat) (x : Ref) : State :=
  s.setNode k { s.zone_nodes k with node_vmspace := x :: (s.zone_nodes k).node_vmspace }

/-- Macro `LIST_INSERT_BEFORE(listelm, elm, vm_buddy)`: link `elm` into the buddy chain
right before `listelm`. -/
def State.LIST_INSERT_BEFORE (s : State) (listelm elm : Ref) : State :=
  let p := (s.mem listelm).vm_buddy_prev
  let s := s.setMem elm { s.mem elm with vm_buddy_prev := p, vm_buddy_next := some listelm }
  let s := match p with
    | some q => s.setMem q { s.mem q with vm_buddy_next := some elm }
    | none => s
  s.setMem listelm { s.mem listelm with vm_buddy_prev := some elm }

/-- Macro `LIST_INSERT_AFTER(listelm, elm, vm_buddy)`: link `elm` into the buddy chain
right after `listelm`. -/
def State.LIST_INSERT_AFTER (s : State) (listelm elm : Ref) : State :=
  let n := (s.mem listelm).vm_buddy_next
  let s := s.setMem elm { s.mem elm with vm_buddy_next := n, vm_buddy_prev := some listelm }
  let s := match n with
    | some q => s.setMem q { s.mem q with vm_buddy_prev := some elm }
    | none => s
  s.setMem listelm { s.mem listelm with vm_buddy_next := some elm }

/-! ## `find_a_vaild_vmspace` (lines 25-44) -/

/-- The `for(;;)` loop of `find_a_vaild_vmspace`; `index` is the function's static
variable.  One unit of fuel is one iteration; running out of fuel is `hang`. -/
def find_a_vaild_vmspace_loop (cfg : Config) (mem : Ref → vmspace) :
    Nat → Nat → Except Stop (Ref × Nat)
  | 0, _ => .error .hang
  | fuel + 1, index =>
    if index < cfg.MAX_VMSPACE_POOL then
      if (mem index).vm_present_size = 0 ∧ (mem index).vm_initial_size = 0 then
        .ok (index, index)
      else
        find_a_vaild_vmspace_loop cfg mem fuel 0
    else
      find_a_vaild_vmspace_loop cfg mem fuel index

/-- Function `find_a_vaild_vmspace`.  The loop changes nothing but `index`, and only
to 0, so two iterations decide it: it returns within two iterations or never
(`find_a_vaild_vmspace_loop_stable`). -/
def find_a_vaild_vmspace (cfg : Config) (s : State) : Except Stop (Ref × State) :=
  match find_a_vaild_vmspace_loop cfg s.mem 2 s.index with
  | .ok (res, index) => .ok (res, { s with index := index })
  | .error e => .error e

/-! ## `vmspace_divide` (lines 161-197) -/

/-- The C operation `a -= b` on a `vm_size_t` field.  The sizes are unsigned 64-bit
values (lines 202-225 hold them in `uint64_t` locals), so the difference wraps
modulo `2 ^ 64` when `b` exceeds `a`. -/
def vm_size_sub (a b : Nat) : Nat :=
  (a + 2 ^ 64 - b % 2 ^ 64) % 2 ^ 64

/-- Lines 172-187 of `vmspace_divide`: fill in the new descriptor, shrink the source
(line 180, wrapping), enqueue the new descriptor in bucket
`round_base2(reserve_pages)` and link it into the buddy chain after the source. -/
def divide_chunk (cfg : Config) (s : State) (source_space new_node : Ref)
    (reserve_pages page_counter : Int) : State :=
  let s := s.setMem new_node { s.mem new_node with
    vm_start := (s.mem source_space).vm_start + cfg.PAGE_SIZE * page_counter.toNat }
  let s := s.setMem new_node { s.mem new_node with
    vm_present_size := reserve_pages.toNat * cfg.PAGE_SIZE }
  let s := s.setMem new_node { s.mem new_node with
    vm_initial_size := (s.mem source_space).vm_initial_size }
  let s := s.setMem new_node { s.mem new_node with
    vm_owner := (s.mem source_space).vm_owner }
  let s := s.setMem source_space { s.mem source_space with
    vm_present_size :=
      vm_size_sub (s.mem source_space).vm_present_size
        (reserve_pages.toNat * cfg.PAGE_SIZE) }
  let k := round_base2 reserve_pages
  let s := s.incr_nr k
  let s := s.LIST_INSERT_HEAD k new_node
  s.LIST_INSERT_AFTER source_space new_node

/-- Lines 191-192 of `vmspace_divide`: the source, now a single page, goes to bucket 0. -/
def divide_last (s : State) (source_space : Ref) : State :=
  (s.incr_nr 0).LIST_INSERT_HEAD 0 source_space

/-- The `while(reserve_pages)` loop of `vmspace_divide`.  `find` is the descriptor
supply called at line 171.  One unit of fuel is one iteration.  Indexing `zone_nodes`
at or beyond `MAX_ORDER` is a `fault`. -/
def vmspace_divide_loop (find : State → Except Stop (Ref × State)) (cfg : Config)
    (source_space : Ref) : Nat → State → Int → Int → Except Stop State
  | 0, _, _, _ => .error .hang
  | fuel + 1, s, reserve_pages, page_counter =>
    if reserve_pages = 0 then .ok s
    else
      let reserve_pages := reserve_pages - 1
      let page_counter := page_counter + 1
      if is_round_base2 reserve_pages then
        match find s with
        | .error e => .error e
        | .ok (new_node, s) =>
          if cfg.MAX_ORDER ≤ round_base2 reserve_pages then .error .fault
          else
            vmspace_divide_loop find cfg source_space fuel
              (divide_chunk cfg s source_space new_node reserve_pages page_counter)
              page_counter 0
      else if reserve_pages = 0 then
        if cfg.MAX_ORDER ≤ 0 then .error .fault
        else
          vmspace_divide_loop find cfg source_space fuel (divide_last s source_space)
            reserve_pages page_counter
      else
        vmspace_divide_loop find cfg source_space fuel s reserve_pages page_counter

/-- Fuel that lets the loop of `vmspace_divide` run to its end from `reserve_pages`
(`vmspace_divide_loop_fuel`): the loop makes at most `reserve_pages` iterations. -/
def divide_fuel (reserve_pages : Int) : Nat := reserve_pages.toNat + 1

/-- Function `vmspace_divide`, with the descriptor supply `find` left open. -/
def vmspace_divide_with (find : State → Except Stop (Ref × State)) (cfg : Config)
    (s : State) (source_space : Ref) (reserve_pages : Int) : Except Stop State :=
  vmspace_divide_loop find cfg source_space (divide_fuel reserve_pages) s reserve_pages 0

/-- Function `vmspace_divide` as compiled: the supply is `find_a_vaild_vmspace`. -/
def vmspace_divide (cfg : Config) (s : State) (source_space : Ref) (reserve_pages : Int) :
    Except Stop State :=
  vmspace_divide_with (find_a_vaild_vmspace cfg) cfg s source_space reserve_pages

/-! ## `vmspace_node_select_and_divide` (lines 107-159) -/

/-- Lines 123-124: detach the head of the node's list and decrement its count. -/
def State.LIST_REMOVE_HEAD (s : State) (node : Nat) (rest : List Ref) : State :=
  let s := s.setNode node { s.zone_nodes node with node_vmspace := rest }
  s.setNode node { s.zone_nodes node with
    node_nr_nodes := (s.zone_nodes node).node_nr_nodes - 1 }

/-- Lines 126-138: fill in the granted descriptor `res`, link it into the buddy chain
before the source and advance the start of the source.  The build has `MEM_GROUW_DOWN`
undefined, so the start address moves upwards. -/
def grant_block (cfg : Config) (s : State) (res source_space : Ref) (size : Nat) : State :=
  let total : Nat := size / cfg.PAGE_SIZE + 1
  let s := s.setMem res { s.mem res with vm_present_size := total * cfg.PAGE_SIZE }
  let s := s.setMem res { s.mem res with vm_start := (s.mem source_space).vm_start }
  let s := s.setMem res { s.mem res with vm_owner := (s.mem source_space).vm_owner }
  let s := s.setMem res { s.mem res with vm_used := 1 }
  let s := s.LIST_INSERT_BEFORE source_space res
  s.setMem source_space { s.mem source_space with
    vm_start := (s.mem source_space).vm_start + total * cfg.PAGE_SIZE }

/-- Function `vmspace_node_select_and_divide`, with the descriptor supply left open.
`node` is the index in `zone_nodes` of the node passed by the caller.  An empty list
makes `source_space` `NULL`, whose use is a `fault`. -/
def vmspace_node_select_and_divide_with (find : State → Except Stop (Ref × State))
    (cfg : Config) (s : State) (node : Nat) (order : Int) (size : Nat) :
    Except Stop (Ref × State) :=
  match find s with
  | .error e => .error e
  | .ok (res, s) =>
    match (s.zone_nodes node).node_vmspace with
    | [] => .error .fault
    | source_space :: rest =>
      let s := s.LIST_REMOVE_HEAD node rest
      let total : Nat := size / cfg.PAGE_SIZE + 1
      let s := grant_block cfg s res source_space size
      let reserve_pages : Int := reserve_pages_at order total
      if is_round_base2 reserve_pages then
        let k := round_base2 reserve_pages
        if cfg.MAX_ORDER ≤ k then .error .fault
        else .ok (res, s.LIST_INSERT_HEAD k source_space)
      else
        match vmspace_divide_with find cfg s source_space reserve_pages with
        | .error e => .error e
        | .ok s => .ok (res, s)

/-- Function `vmspace_node_select_and_divide` as compiled. -/
def vmspace_node_select_and_divide (cfg : Config) (s : State) (node : Nat) (order : Int)
    (size : Nat) : Except Stop (Ref × State) :=
  vmspace_node_select_and_divide_with (find_a_vaild_vmspace cfg) cfg s node order size

/-! ## `_vmspace_alloc` (lines 47-71) and `vmspace_alloc` (lines 12-23) -/

/-- The scan loop of lines 59-62: `present_node` is the index of the node the pointer
designates, `order` the loop counter.  It returns both at loop exit. -/
def vmspace_alloc_scan (cfg : Config) (s : State) : Nat → Nat → Nat → Nat × Nat
  | 0, order, present_node => (order, present_node)
  | fuel + 1, order, present_node =>
    if order < cfg.MAX_ORDER ∧ (s.zone_nodes present_node).node_nr_nodes = 0 then
      vmspace_alloc_scan cfg s fuel (order + 1) order
    else (order, present_node)

/-- Function `_vmspace_alloc`, with the descriptor supply left open. -/
def _vmspace_alloc_with (find : State → Except Stop (Ref × State)) (cfg : Config)
    (s : State) (order : Int) (size : Nat) : Except Stop (Ref × State) :=
  if order ≥ cfg.MAX_ORDER ∨ order < 0 then .error .panic_order
  else
    let r := vmspace_alloc_scan cfg s (cfg.MAX_ORDER + 1) order.toNat order.toNat
    if r.1 = cfg.MAX_ORDER then .error .panic_exhausted
    else vmspace_node_select_and_divide_with find cfg s r.2 r.1 size

/-- Function `_vmspace_alloc` as compiled. -/
def _vmspace_alloc (cfg : Config) (s : State) (order : Int) (size : Nat) :
    Except Stop (Ref × State) :=
  _vmspace_alloc_with (find_a_vaild_vmspace cfg) cfg s order size

/-- Function `vmspace_alloc`: the zone lock is taken around `_vmspace_alloc`. -/
def vmspace_alloc (cfg : Config) (s : State) (size : Nat) : Except Stop (Ref × State) :=
  let order : Int := get_order_base2 cfg size
  let s := { s with zone_lock := true }
  match _vmspace_alloc cfg s order size with
  | .error e => .error e
  | .ok (res, s) => .ok (res, { s with zone_lock := false })

/-- Function `vmspace_alloc`, with the descriptor supply left open
(`vmspace_alloc_eq_with`). -/
def vmspace_alloc_with (find : State → Except Stop (Ref × State)) (cfg : Config) (s : State)
    (size : Nat) : Except Stop (Ref × State) :=
  let order : Int := get_order_base2 cfg size
  let s := { s with zone_lock := true }
  match _vmspace_alloc_with find cfg s order size with
  | .error e => .error e
  | .ok (res, s) => .ok (res, { s with zone_lock := false })

/-! ## `vmspace_merge` (lines 199-218) and `vmspace_free` (lines 220-255) -/

/-- Function `vmspace_merge`: its loop runs `vmspace_counter` times and each round only
calls `vmspace_combined`, which reads an uninitialised local; the zone is never
touched. -/
def vmspace_merge (s : State) (_vmspace : Ref) (vmspace_counter : Nat) : Except Stop State :=
  if vmspace_counter = 0 then .ok s else .error .fault

/-- The walk of lines 243-249 along the buddy chain; `vmspace_counter` stays 0.
One unit of fuel is one iteration. -/
def vmspace_free_walk (s : State) (vmspace : Ref) : Nat → Ref → Nat → Except Stop State
  | 0, _, _ => .error .hang
  | fuel + 1, vm, total =>
    match (s.mem vm).vm_buddy_next with
    | none => .ok s
    | some nxt =>
      if (s.mem nxt).vm_used = 0 then
        let total := total + (s.mem vm).vm_present_size
        if is_round_base2 total then
          match vmspace_merge s vmspace 0 with
          | .error e => .error e
          | .ok _ => vmspace_free_walk s vmspace fuel nxt total
        else vmspace_free_walk s vmspace fuel nxt total
      else .ok s

/-- Function `vmspace_free`, with the descriptor supply of `vmspace_divide` left open.
`fuel` bounds the iterations of the walk of lines 243-249. -/
def vmspace_free_with (find : State → Except Stop (Ref × State)) (cfg : Config) (fuel : Nat)
    (s : State) (vmspace : Ref) : Except Stop State :=
  let size := (s.mem vmspace).vm_present_size
  let reserve_pages := size / cfg.PAGE_SIZE
  let total := size
  let s := s.setMem vmspace { s.mem vmspace with vm_used := 0 }
  let succ_blocked : Bool :=
    match (s.mem vmspace).vm_buddy_next with
    | none => true
    | some nxt => decide ((s.mem nxt).vm_used ≠ 0)
  if succ_blocked then
    if is_round_base2 size then
      let order := get_order_base2 cfg size
      if cfg.MAX_ORDER ≤ order then .error .fault
      else
        let s := s.incr_nr order
        .ok (s.LIST_INSERT_HEAD order vmspace)
    else
      vmspace_divide_with find cfg s vmspace reserve_pages
  else
    vmspace_free_walk s vmspace fuel vmspace total

/-- Function `vmspace_free` as compiled. -/
def vmspace_free (cfg : Config) (fuel : Nat) (s : State) (vmspace : Ref) : Except Stop State :=
  vmspace_free_with (find_a_vaild_vmspace cfg) cfg fuel s vmspace

/-! ## Predicates of the specification -/

/-- A descriptor is free for reuse: the test of lines 33-34. -/
def vmspace.is_free (v : vmspace) : Prop := v.vm_present_size = 0 ∧ v.vm_initial_size = 0

instance (v : vmspace) : Decidable v.is_free := by unfold vmspace.is_free; infer_instance

/-- Slot 0 of the pool cannot be claimed: there is no slot 0 or it is in use. -/
def PoolBlocked (cfg : Config) (s : State) : Prop :=
  cfg.MAX_VMSPACE_POOL = 0 ∨ ¬ (s.mem 0).is_free

/-- An example build: 4096-byte pages, 11 orders, 64 pool slots. -/
def cfg4096 : Config := ⟨4096, 11, 64⟩

/-- A descriptor of `pages` pages of 4096 bytes at `start`, outside every buddy chain. -/
def blk4096 (start pages used : Nat) : vmspace :=
  ⟨start, pages * 4096, pages * 4096, 0, used, none, none⟩

/-- A pool whose slot 0 is in use (one page at address 0) while every other slot is
free; all buckets are empty. -/
def pool_slot0_used : State :=
  ⟨false, fun _ => ⟨0, []⟩, fun r => if r = 0 then blk4096 0 1 1 else vmspace.zero, 0⟩

/-- A zone whose only free block is one block of 1024 pages (descriptor 100, at address
0) in the top bucket, bucket 10; the pool is free. -/
def zone_top_only : State :=
  ⟨false, fun k => if k = 10 then ⟨1, [100]⟩ else ⟨0, []⟩,
    fun r => if r = 100 then blk4096 0 1024 0 else vmspace.zero, 0⟩

/-- Bucket power-of-two invariant: every block enqueued in bucket `k` has
`vm_present_size == 2^k * PAGE_SIZE`. -/
def BucketInv (cfg : Config) (s : State) : Prop :=
  ∀ k, k < cfg.MAX_ORDER → ∀ x ∈ (s.zone_nodes k).node_vmspace,
    (s.mem x).vm_present_size = 2 ^ k * cfg.PAGE_SIZE

instance (cfg : Config) (s : State) : Decidable (BucketInv cfg s) := by
  unfold BucketInv; infer_instance

/-- Total free byte count: the sum of `vm_present_size` over all enqueued blocks. -/
def total_free_bytes (cfg : Config) (s : State) : Nat :=
  ((List.range cfg.MAX_ORDER).map fun k =>
    ((s.zone_nodes k).node_vmspace.map fun x => (s.mem x).vm_present_size).sum).sum

/-- Bucket occupancy: the count and the list length of every bucket. -/
def occupancy (cfg : Config) (s : State) : List (Int × Nat) :=
  (List.range cfg.MAX_ORDER).map fun k =>
    ((s.zone_nodes k).node_nr_nodes, (s.zone_nodes k).node_vmspace.length)

/-- A zone whose only free block is one block of `2^order` pages (descriptor 100, at
address 0) in bucket `order`; the pool is free. -/
def zone_single (order : Nat) : State :=
  ⟨false, fun k => if k = order then ⟨1, [100]⟩ else ⟨0, []⟩,
    fun r => if r = 100 then blk4096 0 (2 ^ order) 0 else vmspace.zero, 0⟩

/-- A state with no free block, a free pool, and one used block of `pages` pages
(descriptor 100, at address 0) outside every buddy chain. -/
def zone_used_block (pages : Nat) : State :=
  ⟨false, fun _ => ⟨0, []⟩, fun r => if r = 100 then blk4096 0 pages 1 else vmspace.zero, 0⟩

/-- Modelled from the spec: a descriptor pool that supplies a descriptor on every claim
(the bounded claim operation the design notes ask for in place of the scan of
`find_a_vaild_vmspace`).  Claim number `i` yields the descriptor `slots i`; `index`
counts the claims. -/
def pool_supply (slots : Nat → Ref) (s : State) : Except Stop (Ref × State) :=
  .ok (slots s.index, { s with index := s.index + 1 })

/-- The descriptors `base`, `base + 1`, ... as the slots a supplying pool hands out. -/
def slots_from (base : Nat) : Nat → Ref := fun i => base + i

/-- The free block `vmspace_alloc(zone, size)` takes: the head of the list of the node
its scan stops at (`LIST_FIRST` at line 122). -/
def chosen_block (cfg : Config) (s : State) (size : Nat) : Option Ref :=
  let k := get_order_base2 cfg size
  ((s.zone_nodes (vmspace_alloc_scan cfg s (cfg.MAX_ORDER + 1) k k).2).node_vmspace).head?

/-- The outcome of `vmspace_alloc` when it returns (the state is left as it is
otherwise). -/
def alloc_result (cfg : Config) (s : State) (size : Nat) : Ref × State :=
  match vmspace_alloc cfg s size with
  | .ok p => p
  | .error _ => (0, s)

/-- Two descriptors have overlapping address ranges: the ranges
`[vm_start, vm_start + vm_present_size)` of both are not empty and share an address
(`overlaps_iff_common_address`). -/
def vmspace.overlaps (a b : vmspace) : Prop :=
  a.vm_start < b.vm_start + b.vm_present_size ∧ b.vm_start < a.vm_start + a.vm_present_size ∧
    0 < a.vm_present_size ∧ 0 < b.vm_present_size

instance (a b : vmspace) : Decidable (a.overlaps b) := by
  unfold vmspace.overlaps; infer_instance

/-- No double allocation: no two descriptors that both have `vm_used` set overlap. -/
def UsedDisjoint (s : State) : Prop :=
  ∀ x y, x ≠ y → (s.mem x).vm_used ≠ 0 → (s.mem y).vm_used ≠ 0 →
    ¬ (s.mem x).overlaps (s.mem y)

/-- The descriptors cover pairwise disjoint address ranges. -/
def AllDisjoint (s : State) : Prop :=
  ∀ x y, x ≠ y → ¬ (s.mem x).overlaps (s.mem y)

/-- A well-formed zone: the static `index` has its initial value, the descriptors cover
pairwise disjoint ranges of whole pages, and every enqueued block is free and has the
size of its bucket. -/
structure WellFormed (cfg : Config) (s : State) : Prop where
  index_zero : s.index = 0
  disjoint : AllDisjoint s
  bucket_size : BucketInv cfg s
  bucket_free : ∀ k, k < cfg.MAX_ORDER → ∀ x ∈ (s.zone_nodes k).node_vmspace,
    (s.mem x).vm_used = 0
  whole_pages : ∀ x, cfg.PAGE_SIZE ∣ (s.mem x).vm_present_size

/-- The states reached from `s0` by calls of `vmspace_alloc` and `vmspace_free` that
return. -/
inductive Reachable (cfg : Config) (s0 : State) : State → Prop
  | init : Reachable cfg s0 s0
  | alloc (s s' : State) (size : Nat) (res : Ref) :
      Reachable cfg s0 s → vmspace_alloc cfg s size = .ok (res, s') → Reachable cfg s0 s'
  | free (s s' : State) (fuel : Nat) (vmspace : Ref) :
      Reachable cfg s0 s → vmspace_free cfg fuel s vmspace = .ok s' → Reachable cfg s0 s'

/-- A zone with one free page (descriptor 100, at address 0) wrongly enqueued in
bucket 1, next to a used page (descriptor 101, at address 4096); the pool is free. -/
def zone_misfiled : State :=
  ⟨false, fun k => if k = 1 then ⟨1, [100]⟩ else ⟨0, []⟩,
    fun r => if r = 100 then blk4096 0 1 0 else if r = 101 then blk4096 4096 1 1
      else vmspace.zero, 0⟩

/-- A well-formed zone: one free block of 4 pages (descriptor 100, at address 0) in
bucket 2, next to a used page (descriptor 101, at address 16384); the pool is free. -/
def zone_with_neighbour : State :=
  ⟨false, fun k => if k = 2 then ⟨1, [100]⟩ else ⟨0, []⟩,
    fun r => if r = 100 then blk4096 0 4 0 else if r = 101 then blk4096 16384 1 1
      else vmspace.zero, 0⟩

/-! ## The zone invariant kept by grants and releases -/

/-- Two address ranges `[a, a + m)` and `[b, b + n)` have no address in common. -/
def ranges_apart (a m b n : Nat) : Prop := a + m ≤ b ∨ b + n ≤ a

instance (a m b n : Nat) : Decidable (ranges_apart a m b n) := by
  unfold ranges_apart; infer_instance

/-- The bytes a descriptor stands for in the zone: a used block stands for its
`vm_present_size`, a block enqueued in bucket `k` for the `2 ^ k` pages
`vmspace_node_select_and_divide` takes a block of that bucket for (line 132). -/
def Holds (cfg : Config) (s : State) (x : Ref) (m : Nat) : Prop :=
  ((s.mem x).vm_used ≠ 0 ∧ m = (s.mem x).vm_present_size) ∨
  ∃ k, k < cfg.MAX_ORDER ∧ x ∈ (s.zone_nodes k).node_vmspace ∧ m = 2 ^ k * cfg.PAGE_SIZE

/-- The zone invariant: every enqueued block is free, enqueued once, and at least as
long as the `2 ^ k` pages of its bucket; every used block is a non-empty run of whole
pages; sizes are 64-bit values; and the ranges the used and the enqueued blocks stand
for (`Holds`) are pairwise disjoint. -/
structure ZoneInv (cfg : Config) (s : State) : Prop where
  nodup : ∀ k, k < cfg.MAX_ORDER → (s.zone_nodes k).node_vmspace.Nodup
  one_bucket : ∀ k j x, k < cfg.MAX_ORDER → j < cfg.MAX_ORDER →
    x ∈ (s.zone_nodes k).node_vmspace → x ∈ (s.zone_nodes j).node_vmspace → k = j
  enq_free : ∀ k x, k < cfg.MAX_ORDER → x ∈ (s.zone_nodes k).node_vmspace →
    (s.mem x).vm_used = 0
  enq_size : ∀ k x, k < cfg.MAX_ORDER → x ∈ (s.zone_nodes k).node_vmspace →
    2 ^ k * cfg.PAGE_SIZE ≤ (s.mem x).vm_present_size ∧ (s.mem x).vm_present_size < 2 ^ 64
  used_size : ∀ x, (s.mem x).vm_used ≠ 0 →
    cfg.PAGE_SIZE ∣ (s.mem x).vm_present_size ∧ (s.mem x).vm_present_size ≠ 0 ∧
      (s.mem x).vm_present_size < 2 ^ 64
  apart : ∀ x y m n, x ≠ y → Holds cfg s x m → Holds cfg s y n →
    ranges_apart (s.mem x).vm_start m (s.mem y).vm_start n

/-- A block in transit: `src` has been taken out of the zone (it is neither enqueued
nor used) and still stands for the `n` pages from its `vm_start` on, which no other
block stands for. -/
structure InTransit (cfg : Config) (s : State) (src : Ref) (n : Nat) : Prop where
  zone : ZoneInv cfg s
  not_enq : ∀ k, k < cfg.MAX_ORDER → src ∉ (s.zone_nodes k).node_vmspace
  not_used : (s.mem src).vm_used = 0
  size : n * cfg.PAGE_SIZE ≤ (s.mem src).vm_present_size ∧
    (s.mem src).vm_present_size < 2 ^ 64
  apart : ∀ y m, Holds cfg s y m →
    ranges_apart (s.mem src).vm_start (n * cfg.PAGE_SIZE) (s.mem y).vm_start m

/-- What the callers rely on when they claim a descriptor (lines 33-35): the descriptor
handed out is a free slot, both sizes 0, and the claim changes neither a descriptor nor
a bucket. -/
def FreshSupply (find : State → Except Stop (Ref × State)) : Prop :=
  ∀ s r s', find s = .ok (r, s') →
    (s.mem r).is_free ∧ s'.mem = s.mem ∧ s'.zone_nodes = s.zone_nodes

/-- The states reached from `s0` by calls of `vmspace_alloc` and `vmspace_free` that
return, on the descriptor supply `find`, every allocation finding the bucket of its
order non-empty (so that the scan of lines 59-62 stops at once) and every release
being that of a used block. -/
inductive ReachableWith (find : State → Except Stop (Ref × State)) (cfg : Config)
    (s0 : State) : State → Prop
  | init : ReachableWith find cfg s0 s0
  | alloc (s s' : State) (size : Nat) (res : Ref) :
      ReachableWith find cfg s0 s →
      (s.zone_nodes (get_order_base2 cfg size)).node_nr_nodes ≠ 0 →
      vmspace_alloc_with find cfg s size = .ok (res, s') → ReachableWith find cfg s0 s'
  | free (s s' : State) (fuel : Nat) (vmspace : Ref) :
      ReachableWith find cfg s0 s → (s.mem vmspace).vm_used ≠ 0 →
      vmspace_free_with find cfg fuel s vmspace = .ok s' → ReachableWith find cfg s0 s'

/-- Modelled from the spec: the scan of the pool array by `claim_free_slot`, from slot
`index` over `fuel` slots. -/
def claim_free_slot_loop (mem : Ref → vmspace) : Nat → Nat → Except Stop Ref
  | 0, _ => .error .hang
  | fuel + 1, index =>
    if (mem index).vm_present_size = 0 ∧ (mem index).vm_initial_size = 0 then .ok index
    else claim_free_slot_loop mem fuel (index + 1)

/-- Modelled from the spec: the descriptor pool as the spec describes it, a claim that
yields the first slot of the pool array whose two sizes are 0 and fails to return only
when no slot is free (what `find_a_vaild_vmspace` would do if its `index` advanced). -/
def claim_free_slot (cfg : Config) (s : State) : Except Stop (Ref × State) :=
  match claim_free_slot_loop s.mem cfg.MAX_VMSPACE_POOL 0 with
  | .ok r => .ok (r, s)
  | .error e => .error e

/-- The outcome of `vmspace_alloc_with` when it returns (the state is left as it is
otherwise). -/
def alloc_result_with (find : State → Except Stop (Ref × State)) (cfg : Config) (s : State)
    (size : Nat) : Ref × State :=
  match vmspace_alloc_with find cfg s size with
  | .ok p => p
  | .error _ => (0, s)

/-- A zone that meets the zone invariant: one free block of 8 pages (descriptor 100, at
address 0) in bucket 3, next to a used page (descriptor 101, at address 32768); the
pool is free. -/
def zone_eight_pages : State :=
  ⟨false, fun k => if k = 3 then ⟨1, [100]⟩ else ⟨0, []⟩,
    fun r => if r = 100 then blk4096 0 8 0 else if r = 101 then blk4096 32768 1 1
      else vmspace.zero, 0⟩

/-- Bucket count matches its list: every bucket's `node_nr_nodes` equals the number of
blocks in its `node_vmspace` list. -/
def CountInv (cfg : Config) (s : State) : Prop :=
  ∀ k, k < cfg.MAX_ORDER →
    (s.zone_nodes k).node_nr_nodes = ((s.zone_nodes k).node_vmspace.length : Int)

instance (cfg : Config) (s : State) : Decidable (CountInv cfg s) := by
  unfold CountInv; infer_instance

/-- The descriptor `x` is in the list of some bucket. -/
def enqueued (cfg : Config) (s : State) (x : Ref) : Prop :=
  ∃ k, k < cfg.MAX_ORDER ∧ x ∈ (s.zone_nodes k).node_vmspace

instance (cfg : Config) (s : State) (x : Ref) : Decidable (enqueued cfg s x) := by
  unfold enqueued; infer_instance

/-! ## The growth direction (lines 134-138 and 172-176) -/

/-- The two preprocessor symbols tested by `vmspace.c`: `vmspace_divide` tests
`MEM_GROW_DOWN`, `vmspace_node_select_and_divide` tests `MEM_GROUW_DOWN`.  The functions
above are those of the build that defines neither. -/
structure Build where
  MEM_GROW_DOWN : Bool
  MEM_GROUW_DOWN : Bool
deriving DecidableEq, Repr

/-- Lines 134-138 of `vmspace_node_select_and_divide`: the start of the source after
the grant of `total` pages. -/
def source_start_after_grant (b : Build) (vm_start total PAGE_SIZE : Int) : Int :=
  if b.MEM_GROUW_DOWN then vm_start - total * PAGE_SIZE else vm_start + total * PAGE_SIZE

/-- Lines 172-176 of `vmspace_divide`: the start of the new chunk. -/
def chunk_start (b : Build) (vm_start PAGE_SIZE page_counter : Int) : Int :=
  if b.MEM_GROW_DOWN then vm_start - PAGE_SIZE * page_counter
  else vm_start + PAGE_SIZE * page_counter

/-- A build with the downward-growth flag `MEM_GROW_DOWN` defined (and nothing else). -/
def build_grow_down : Build := ⟨true, false⟩

/-- The build with no flag defined: the one of the functions above. -/
def build_default : Build := ⟨false, false⟩

/-! ## `_vmspace_alloc_wait` (lines 73-103) and the zone at a `panic` -/

/-- A stop of `_vmspace_alloc` or `_vmspace_alloc_wait`: a call of `panic`, with the
zone as it is at that call, or a stop inside `vmspace_node_select_and_divide`. -/
inductive Abort where
  | panic (kind : Stop) (zone : State)
  | other (e : Stop)

/-- Forget the zone of a `panic`. -/
def Abort.erase : Abort → Stop
  | .panic kind _ => kind
  | .other e => e

/-- Function `_vmspace_alloc` (lines 47-71) once more, each `panic` recording the zone
it is called in; `_vmspace_alloc_abort_erase` relates it to `_vmspace_alloc`. -/
def _vmspace_alloc_abort (cfg : Config) (s : State) (order : Int) (size : Nat) :
    Except Abort (Ref × State) :=
  if order ≥ cfg.MAX_ORDER ∨ order < 0 then .error (.panic .panic_order s)
  else
    let r := vmspace_alloc_scan cfg s (cfg.MAX_ORDER + 1) order.toNat order.toNat
    if r.1 = cfg.MAX_ORDER then .error (.panic .panic_exhausted s)
    else
      match vmspace_node_select_and_divide cfg s r.2 r.1 size with
      | .error e => .error (.other e)
      | .ok p => .ok p

/-- The `while(1)` loop of `_vmspace_alloc_wait` (lines 85-98).  Each round runs the
scan of lines 86-89 from the current `order` and `present_node`; when the scan ends with
`order == MAX_ORDER` the lock is released and `order` is reset to `old_order`, while
`present_node` keeps its value.  `env` is what the rest of the system does to the zone
while this call spins with the lock released (the identity when nothing else runs).
One unit of fuel is one round; the loop returns `order`, `present_node` and the zone. -/
def vmspace_alloc_wait_loop (cfg : Config) (env : State → State) (old_order : Nat) :
    Nat → State → Nat → Nat → Except Stop (Nat × Nat × State)
  | 0, _, _, _ => .error .hang
  | fuel + 1, s, order, present_node =>
    let r := vmspace_alloc_scan cfg s (cfg.MAX_ORDER + 1) order present_node
    if r.1 = cfg.MAX_ORDER then
      vmspace_alloc_wait_loop cfg env old_order fuel (env { s with zone_lock := false })
        old_order r.2
    else .ok (r.1, r.2, s)

/-- Function `_vmspace_alloc_wait`, its `panic` recording the zone it is called in.
`fuel` bounds the rounds of the `while(1)` loop. -/
def _vmspace_alloc_wait_abort (cfg : Config) (env : State → State) (fuel : Nat) (s : State)
    (order : Int) (size : Nat) : Except Abort (Ref × State) :=
  if order ≥ cfg.MAX_ORDER ∨ order < 0 then .error (.panic .panic_order s)
  else
    match vmspace_alloc_wait_loop cfg env order.toNat fuel s order.toNat order.toNat with
    | .error e => .error (.other e)
    | .ok (order', present_node, s') =>
      match vmspace_node_select_and_divide cfg s' present_node order' size with
      | .error e => .error (.other e)
      | .ok p => .ok p

/-- Function `_vmspace_alloc_wait`. -/
def _vmspace_alloc_wait (cfg : Config) (env : State → State) (fuel : Nat) (s : State)
    (order : Int) (size : Nat) : Except Stop (Ref × State) :=
  match _vmspace_alloc_wait_abort cfg env fuel s order size with
  | .error a => .error a.erase
  | .ok p => .ok p

/-- An empty zone with a free pool, the lock held by the caller. -/
def zone_empty_locked : State :=
  ⟨true, fun _ => ⟨0, []⟩, fun _ => vmspace.zero, 0⟩

/-- Another thread frees two blocks: one of 8 pages (descriptor 103, at address 0) into
bucket 3 and one of 1024 pages (descriptor 110, at address 4194304) into bucket 10. -/
def env_two_frees (s : State) : State :=
  (((s.setMem 103 (blk4096 0 8 0)).setMem 110 (blk4096 4194304 1024 0)).setNode 3
    ⟨1, [103]⟩).setNode 10 ⟨1, [110]⟩

/-! # Theorems -/

/-! ## Descriptor memory and nodes after an update -/

@[simp] theorem setMem_mem (s : State) (r : Ref) (v : vmspace) (x : Ref) :
    (s.setMem r v).mem x = if x = r then v else s.mem x := by
  simp [State.setMem, Function.update_apply]

@[simp] theorem setMem_zone_nodes (s : State) (r : Ref) (v : vmspace) :
    (s.setMem r v).zone_nodes = s.zone_nodes := rfl

@[simp] theorem setMem_index (s : State) (r : Ref) (v : vmspace) :
    (s.setMem r v).index = s.index := rfl

@[simp] theorem setMem_zone_lock (s : State) (r : Ref) (v : vmspace) :
    (s.setMem r v).zone_lock = s.zone_lock := rfl

@[simp] theorem setNode_zone_nodes (s : State) (k : Nat) (n : node) (j : Nat) :
    (s.setNode k n).zone_nodes j = if j = k then n else s.zone_nodes j := by
  simp [State.setNode, Function.update_apply]

@[simp] theorem setNode_mem (s : State) (k : Nat) (n : node) :
    (s.setNode k n).mem = s.mem := rfl

@[simp] theorem setNode_index (s : State) (k : Nat) (n : node) :
    (s.setNode k n).index = s.index := rfl

@[simp] theorem setNode_zone_lock (s : State) (k : Nat) (n : node) :
    (s.setNode k n).zone_lock = s.zone_lock := rfl

@[simp] theorem incr_nr_mem (s : State) (k : Nat) : (s.incr_nr k).mem = s.mem := rfl
@[simp] theorem incr_nr_index (s : State) (k : Nat) : (s.incr_nr k).index = s.index := rfl
@[simp] theorem insert_head_mem (s : State) (k : Nat) (x : Ref) :
    (s.LIST_INSERT_HEAD k x).mem = s.mem := rfl
@[simp] theorem insert_head_index (s : State) (k : Nat) (x : Ref) :
    (s.LIST_INSERT_HEAD k x).index = s.index := rfl

theorem incr_nr_zone_nodes (s : State) (k j : Nat) :
    (s.incr_nr k).zone_nodes j =
      if j = k then ⟨(s.zone_nodes k).node_nr_nodes + 1, (s.zone_nodes k).node_vmspace⟩
      else s.zone_nodes j := by
  simp [State.incr_nr]

theorem insert_head_zone_nodes (s : State) (k : Nat) (x : Ref) (j : Nat) :
    (s.LIST_INSERT_HEAD k x).zone_nodes j =
      if j = k then ⟨(s.zone_nodes k).node_nr_nodes, x :: (s.zone_nodes k).node_vmspace⟩
      else s.zone_nodes j := by
  simp [State.LIST_INSERT_HEAD]

/-- What `vmspace.c` reads of a descriptor besides its list links. -/
theorem insert_before_fields (s : State) (a b x : Ref) :
    ((s.LIST_INSERT_BEFORE a b).mem x).vm_start = (s.mem x).vm_start ∧
    ((s.LIST_INSERT_BEFORE a b).mem x).vm_present_size = (s.mem x).vm_present_size ∧
    ((s.LIST_INSERT_BEFORE a b).mem x).vm_initial_size = (s.mem x).vm_initial_size ∧
    ((s.LIST_INSERT_BEFORE a b).mem x).vm_owner = (s.mem x).vm_owner ∧
    ((s.LIST_INSERT_BEFORE a b).mem x).vm_used = (s.mem x).vm_used := by
  unfold State.LIST_INSERT_BEFORE
  cases h : (s.mem a).vm_buddy_prev <;> simp <;> split_ifs <;> simp_all

theorem insert_after_fields (s : State) (a b x : Ref) :
    ((s.LIST_INSERT_AFTER a b).mem x).vm_start = (s.mem x).vm_start ∧
    ((s.LIST_INSERT_AFTER a b).mem x).vm_present_size = (s.mem x).vm_present_size ∧
    ((s.LIST_INSERT_AFTER a b).mem x).vm_initial_size = (s.mem x).vm_initial_size ∧
    ((s.LIST_INSERT_AFTER a b).mem x).vm_owner = (s.mem x).vm_owner ∧
    ((s.LIST_INSERT_AFTER a b).mem x).vm_used = (s.mem x).vm_used := by
  unfold State.LIST_INSERT_AFTER
  cases h : (s.mem a).vm_buddy_next <;> simp <;> split_ifs <;> simp_all

@[simp] theorem insert_before_zone_nodes (s : State) (a b : Ref) :
    (s.LIST_INSERT_BEFORE a b).zone_nodes = s.zone_nodes := by
  unfold State.LIST_INSERT_BEFORE
  cases (s.mem a).vm_buddy_prev <;> rfl

@[simp] theorem insert_before_index (s : State) (a b : Ref) :
    (s.LIST_INSERT_BEFORE a b).index = s.index := by
  unfold State.LIST_INSERT_BEFORE
  cases (s.mem a).vm_buddy_prev <;> rfl

@[simp] theorem insert_after_zone_nodes (s : State) (a b : Ref) :
    (s.LIST_INSERT_AFTER a b).zone_nodes = s.zone_nodes := by
  unfold State.LIST_INSERT_AFTER
  cases (s.mem a).vm_buddy_next <;> rfl

@[simp] theorem insert_after_index (s : State) (a b : Ref) :
    (s.LIST_INSERT_AFTER a b).index = s.index := by
  unfold State.LIST_INSERT_AFTER
  cases (s.mem a).vm_buddy_next <;> rfl

/-! ## The logarithm macros -/

theorem log2_aux_eq_log (fuel n : Nat) (h : n ≤ fuel) : log2_aux fuel n = Nat.log 2 n := by
  induction fuel generalizing n with
  | zero =>
    have : n = 0 := by omega
    subst this
    simp [log2_aux]
  | succ f ih =>
    unfold log2_aux
    split_ifs with h2
    · rw [ih (n / 2) (by omega)]
      rw [Nat.log_of_one_lt_of_le (by norm_num) h2]
    · rw [Nat.log_of_lt (by omega)]

theorem round_base2_natCast (n : Nat) : round_base2 (n : Int) = Nat.log 2 n := by
  simp [round_base2, log2_aux_eq_log]

theorem round_base2_pow (k : Nat) : round_base2 ((2 : Int) ^ k) = k := by
  have : ((2 : Int) ^ k) = ((2 ^ k : Nat) : Int) := by push_cast; rfl
  rw [this, round_base2_natCast, Nat.log_pow (by norm_num)]

theorem is_round_base2_iff (x : Int) : is_round_base2 x = true ↔ ∃ k : Nat, x = 2 ^ k := by
  constructor
  · intro h
    simp [is_round_base2] at h
    exact ⟨_, h.2.symm⟩
  · rintro ⟨k, rfl⟩
    simp [is_round_base2, round_base2_pow]

theorem is_round_base2_natCast (n : Nat) : is_round_base2 (n : Int) = true ↔ ∃ k : Nat, n = 2 ^ k := by
  rw [is_round_base2_iff]
  constructor
  · rintro ⟨k, h⟩; exact ⟨k, by exact_mod_cast h⟩
  · rintro ⟨k, h⟩; exact ⟨k, by exact_mod_cast h⟩

theorem is_round_base2_neg (x : Int) (h : x ≤ 0) : is_round_base2 x = false := by
  simp [is_round_base2]; intro h'; omega

/-! ## `find_a_vaild_vmspace` -/

/-- Once `index` is 0 and slot 0 cannot be claimed, no number of iterations ends the
loop. -/
theorem find_loop_blocked (cfg : Config) (mem : Ref → vmspace)
    (h : cfg.MAX_VMSPACE_POOL = 0 ∨ ¬ (mem 0).is_free) (fuel : Nat) :
    find_a_vaild_vmspace_loop cfg mem fuel 0 = .error .hang := by
  induction fuel with
  | zero => rfl
  | succ n ih =>
    unfold find_a_vaild_vmspace_loop
    rcases h with h | h
    · simp [h, ih]
    · have h' : ¬ ((mem 0).vm_present_size = 0 ∧ (mem 0).vm_initial_size = 0) := h
      simp only [h', if_false, ih, ite_self]

/-- An `index` beyond the pool is never changed, so the loop never ends. -/
theorem find_loop_outside (cfg : Config) (mem : Ref → vmspace) (index : Nat)
    (h : cfg.MAX_VMSPACE_POOL ≤ index) (fuel : Nat) :
    find_a_vaild_vmspace_loop cfg mem fuel index = .error .hang := by
  induction fuel with
  | zero => rfl
  | succ n ih =>
    unfold find_a_vaild_vmspace_loop
    simp [Nat.not_lt.mpr h, ih]

/-- Two iterations decide the loop: more fuel never changes its outcome. -/
theorem find_a_vaild_vmspace_loop_stable (cfg : Config) (mem : Ref → vmspace) (index : Nat)
    (fuel : Nat) (hf : 2 ≤ fuel) :
    find_a_vaild_vmspace_loop cfg mem fuel index =
      find_a_vaild_vmspace_loop cfg mem 2 index := by
  obtain ⟨f, rfl⟩ : ∃ f, fuel = f + 2 := ⟨fuel - 2, by omega⟩
  by_cases hi : index < cfg.MAX_VMSPACE_POOL
  · by_cases hfree : (mem index).vm_present_size = 0 ∧ (mem index).vm_initial_size = 0
    · simp [find_a_vaild_vmspace_loop, hi, hfree]
    · by_cases h0 : (mem 0).vm_present_size = 0 ∧ (mem 0).vm_initial_size = 0
      · have hpos : 0 < cfg.MAX_VMSPACE_POOL := by omega
        simp [find_a_vaild_vmspace_loop, hi, hfree, h0, hpos]
      · have hb := find_loop_blocked cfg mem (Or.inr h0)
        rw [find_a_vaild_vmspace_loop, if_pos hi, if_neg hfree, hb]
        rw [find_a_vaild_vmspace_loop, if_pos hi, if_neg hfree, hb]
  · have hb := find_loop_outside cfg mem index (Nat.not_lt.mp hi)
    rw [hb, hb]

/-- When `find_a_vaild_vmspace` returns, it returns a free pool slot and has changed
nothing but the static `index`. -/
theorem find_ok (cfg : Config) (s s' : State) (r : Ref)
    (h : find_a_vaild_vmspace cfg s = .ok (r, s')) :
    r < cfg.MAX_VMSPACE_POOL ∧ (s.mem r).is_free ∧ s'.mem = s.mem ∧
      s'.zone_nodes = s.zone_nodes ∧ s'.zone_lock = s.zone_lock ∧
      (s.index = 0 → s'.index = 0) := by
  unfold find_a_vaild_vmspace at h
  simp only [find_a_vaild_vmspace_loop] at h
  by_cases hi : s.index < cfg.MAX_VMSPACE_POOL
  · by_cases hfree : (s.mem s.index).vm_present_size = 0 ∧ (s.mem s.index).vm_initial_size = 0
    · simp only [hi, hfree, if_true, and_self] at h
      injection h with h
      injection h with h1 h2
      subst h1 h2
      exact ⟨hi, hfree, rfl, rfl, rfl, fun h => h⟩
    · by_cases hz : 0 < cfg.MAX_VMSPACE_POOL
      · by_cases h0 : (s.mem 0).vm_present_size = 0 ∧ (s.mem 0).vm_initial_size = 0
        · simp only [hi, hfree, hz, h0, if_true, if_false, and_self] at h
          injection h with h
          injection h with h1 h2
          subst h1 h2
          exact ⟨hz, h0, rfl, rfl, rfl, fun _ => rfl⟩
        · simp [hi, hfree, hz, h0] at h
      · simp [hi, hfree, hz] at h
  · simp [hi] at h

/-- With `index` at 0 and slot 0 not claimable, `find_a_vaild_vmspace` does not
return. -/
theorem find_blocked (cfg : Config) (s : State) (hidx : s.index = 0)
    (h : PoolBlocked cfg s) : find_a_vaild_vmspace cfg s = .error .hang := by
  unfold find_a_vaild_vmspace
  rw [hidx, find_loop_blocked cfg s.mem h]

/-- With `index` at 0 and slot 0 free, `find_a_vaild_vmspace` returns slot 0. -/
theorem find_slot0 (cfg : Config) (s : State) (hidx : s.index = 0)
    (hpool : 0 < cfg.MAX_VMSPACE_POOL) (hfree : (s.mem 0).is_free) :
    find_a_vaild_vmspace cfg s = .ok (0, s) := by
  have hfree' : (s.mem 0).vm_present_size = 0 ∧ (s.mem 0).vm_initial_size = 0 := hfree
  unfold find_a_vaild_vmspace
  rw [hidx]
  simp only [find_a_vaild_vmspace_loop, hpool, hfree', if_true, and_self]
  cases s
  simp_all

/-- C9 (code defect): the pool `pool_slot0_used` has free slots (slot 1 is one), yet the loop of
`find_a_vaild_vmspace` never ends on it, whatever the number of iterations: `index` is
never advanced, so only slot 0 is ever examined. -/
theorem C9_find_never_returns_with_free_slots :
    1 < cfg4096.MAX_VMSPACE_POOL ∧ (pool_slot0_used.mem 1).is_free ∧
    ∀ fuel, find_a_vaild_vmspace_loop cfg4096 pool_slot0_used.mem fuel pool_slot0_used.index
      = .error .hang := by
  refine ⟨by decide, ?_, ?_⟩
  · simp [pool_slot0_used, vmspace.is_free, vmspace.zero]
  · intro fuel
    exact find_loop_blocked cfg4096 pool_slot0_used.mem
      (Or.inr (by simp [pool_slot0_used, vmspace.is_free, blk4096])) fuel

/-! ## The scan of `_vmspace_alloc` -/

/-- What the scan loop of lines 59-62 returns: either it made no iteration, or
`present_node` is one behind `order`, every bucket passed over is empty, and the scan
stopped because `order` reached `MAX_ORDER` or because bucket `present_node` is not
empty. -/
theorem vmspace_alloc_scan_spec (cfg : Config) (s : State) (fuel order present_node : Nat)
    (hf : cfg.MAX_ORDER - order < fuel) :
    (vmspace_alloc_scan cfg s fuel order present_node = (order, present_node) ∧
      ¬ (order < cfg.MAX_ORDER ∧ (s.zone_nodes present_node).node_nr_nodes = 0)) ∨
    (order < cfg.MAX_ORDER ∧ (s.zone_nodes present_node).node_nr_nodes = 0 ∧
      (vmspace_alloc_scan cfg s fuel order present_node).1 =
        (vmspace_alloc_scan cfg s fuel order present_node).2 + 1 ∧
      order ≤ (vmspace_alloc_scan cfg s fuel order present_node).2 ∧
      (vmspace_alloc_scan cfg s fuel order present_node).1 ≤ cfg.MAX_ORDER ∧
      (∀ j, order ≤ j → j < (vmspace_alloc_scan cfg s fuel order present_node).2 →
        (s.zone_nodes j).node_nr_nodes = 0) ∧
      ((vmspace_alloc_scan cfg s fuel order present_node).1 < cfg.MAX_ORDER →
        (s.zone_nodes (vmspace_alloc_scan cfg s fuel order present_node).2).node_nr_nodes ≠ 0)) := by
  induction fuel generalizing order present_node with
  | zero => omega
  | succ f ih =>
    by_cases hc : order < cfg.MAX_ORDER ∧ (s.zone_nodes present_node).node_nr_nodes = 0
    · right
      have hstep : vmspace_alloc_scan cfg s (f + 1) order present_node =
          vmspace_alloc_scan cfg s f (order + 1) order := by
        rw [vmspace_alloc_scan, if_pos hc]
      rw [hstep]
      rcases ih (order + 1) order (by omega) with ⟨heq, hstop⟩ | ⟨h1, h2, h3, h4, h5, h6, h7⟩
      · rw [heq]
        refine ⟨hc.1, hc.2, rfl, le_refl _, by omega, ?_, ?_⟩
        · intro j hj1 hj2; simp at hj2; omega
        · intro hlt
          simp only at hlt ⊢
          intro h0
          exact hstop ⟨hlt, h0⟩
      · refine ⟨hc.1, hc.2, h3, by omega, h5, ?_, h7⟩
        intro j hj1 hj2
        by_cases hjo : j = order
        · subst hjo; exact h2
        · exact h6 j (by omega) hj2
    · left
      refine ⟨?_, hc⟩
      rw [vmspace_alloc_scan, if_neg hc]

/-- The scan run by `_vmspace_alloc` from a valid order `k`. -/
theorem vmspace_alloc_scan_from (cfg : Config) (s : State) (k : Nat) (hk : k < cfg.MAX_ORDER) :
    ((s.zone_nodes k).node_nr_nodes ≠ 0 ∧
      vmspace_alloc_scan cfg s (cfg.MAX_ORDER + 1) k k = (k, k)) ∨
    ((s.zone_nodes k).node_nr_nodes = 0 ∧
      (vmspace_alloc_scan cfg s (cfg.MAX_ORDER + 1) k k).1 =
        (vmspace_alloc_scan cfg s (cfg.MAX_ORDER + 1) k k).2 + 1 ∧
      k ≤ (vmspace_alloc_scan cfg s (cfg.MAX_ORDER + 1) k k).2 ∧
      (vmspace_alloc_scan cfg s (cfg.MAX_ORDER + 1) k k).1 ≤ cfg.MAX_ORDER ∧
      (∀ j, k ≤ j → j < (vmspace_alloc_scan cfg s (cfg.MAX_ORDER + 1) k k).2 →
        (s.zone_nodes j).node_nr_nodes = 0) ∧
      ((vmspace_alloc_scan cfg s (cfg.MAX_ORDER + 1) k k).1 < cfg.MAX_ORDER →
        (s.zone_nodes (vmspace_alloc_scan cfg s (cfg.MAX_ORDER + 1) k k).2).node_nr_nodes ≠ 0)) := by
  rcases vmspace_alloc_scan_spec cfg s (cfg.MAX_ORDER + 1) k k (by omega) with
    ⟨heq, hstop⟩ | ⟨_, h2, h3, h4, h5, h6, h7⟩
  · left
    exact ⟨fun h0 => hstop ⟨hk, h0⟩, heq⟩
  · right
    exact ⟨h2, h3, h4, h5, h6, h7⟩

/-- When `_vmspace_alloc` reports exhaustion: exactly when the requested bucket and
every bucket above it except the top one are empty.  The top bucket is not consulted
unless it is the requested one. -/
theorem vmspace_alloc_exhausted_iff (find : State → Except Stop (Ref × State)) (cfg : Config)
    (s : State) (k : Nat) (size : Nat) (hk : k < cfg.MAX_ORDER)
    (hfind : ∀ n o, vmspace_node_select_and_divide_with find cfg s n o size
      ≠ .error .panic_exhausted) :
    _vmspace_alloc_with find cfg s (k : Int) size = .error .panic_exhausted ↔
      ((s.zone_nodes k).node_nr_nodes = 0 ∧
        ∀ j, k ≤ j → j + 1 < cfg.MAX_ORDER → (s.zone_nodes j).node_nr_nodes = 0) := by
  have hrange : ¬ ((k : Int) ≥ cfg.MAX_ORDER ∨ (k : Int) < 0) := by omega
  unfold _vmspace_alloc_with
  rw [if_neg hrange]
  simp only [Int.toNat_ofNat]
  constructor
  · intro h
    by_cases hM : (vmspace_alloc_scan cfg s (cfg.MAX_ORDER + 1) k k).1 = cfg.MAX_ORDER
    · rcases vmspace_alloc_scan_from cfg s k hk with ⟨_, heq⟩ | ⟨h2, h3, h4, h5, h6, h7⟩
      · rw [heq] at hM; simp at hM; omega
      · exact ⟨h2, fun j hj1 hj2 => h6 j hj1 (by omega)⟩
    · rw [if_neg hM] at h
      exact absurd h (hfind _ _)
  · rintro ⟨h0, hall⟩
    rcases vmspace_alloc_scan_from cfg s k hk with ⟨hne, _⟩ | ⟨h2, h3, h4, h5, h6, h7⟩
    · exact absurd h0 hne
    · have hM : (vmspace_alloc_scan cfg s (cfg.MAX_ORDER + 1) k k).1 = cfg.MAX_ORDER := by
        by_contra hne
        have hlt : (vmspace_alloc_scan cfg s (cfg.MAX_ORDER + 1) k k).1 < cfg.MAX_ORDER := by
          omega
        exact h7 hlt (hall _ h4 (by omega))
      rw [if_pos hM]

/-- C5 (code defect): in `zone_top_only` the top bucket (bucket 10 of 11) holds a free
block, yet `_vmspace_alloc` for order 0 reports "kernel resources exhausted": the scan
leaves `present_node` one behind `order`, so it gives up before looking at the top
bucket. -/
theorem C5_exhausted_despite_free_top_bucket :
    (zone_top_only.zone_nodes 10).node_nr_nodes = 1 ∧
    _vmspace_alloc cfg4096 zone_top_only 0 1 = .error .panic_exhausted := by
  refine ⟨rfl, ?_⟩
  rfl

/-! ## The loop of `vmspace_divide` -/

/-- A negative `reserve_pages` never reaches 0: the loop does not end. -/
theorem divide_loop_neg (find : State → Except Stop (Ref × State)) (cfg : Config)
    (src : Ref) (fuel : Nat) (s : State) (r pc : Int) (hr : r < 0) :
    vmspace_divide_loop find cfg src fuel s r pc = .error .hang := by
  induction fuel generalizing r pc with
  | zero => rfl
  | succ f ih =>
    rw [vmspace_divide_loop, if_neg (by omega)]
    have h1 : is_round_base2 (r - 1) = false := is_round_base2_neg _ (by omega)
    simp only [h1, Bool.false_eq_true, if_false]
    rw [if_neg (by omega)]
    exact ih (r - 1) (pc + 1) (by omega)

/-- Iterations that neither peel a chunk nor reach the last page only move one page
from `reserve_pages` to `page_counter`. -/
theorem divide_loop_skip (find : State → Except Stop (Ref × State)) (cfg : Config)
    (src : Ref) (d fuel : Nat) (s : State) (R pc : Nat) (hd : d < R)
    (hskip : ∀ j, 1 ≤ j → j ≤ d → is_round_base2 ((R - j : Nat) : Int) = false) :
    vmspace_divide_loop find cfg src (fuel + d) s (R : Int) (pc : Int) =
      vmspace_divide_loop find cfg src fuel s ((R - d : Nat) : Int) ((pc + d : Nat) : Int) := by
  induction d generalizing R pc with
  | zero => simp
  | succ d ih =>
    have hR0 : ¬ ((R : Int) = 0) := by omega
    have hcast : (R : Int) - 1 = ((R - 1 : Nat) : Int) := by omega
    have h1 : is_round_base2 ((R : Int) - 1) = false := by
      rw [hcast]; exact hskip 1 (le_refl _) (by omega)
    have hne : ¬ ((R : Int) - 1 = 0) := by omega
    rw [show fuel + (d + 1) = (fuel + d) + 1 from by omega, vmspace_divide_loop, if_neg hR0]
    simp only [h1, Bool.false_eq_true, if_false]
    rw [if_neg hne, hcast, show (pc : Int) + 1 = ((pc + 1 : Nat) : Int) from by omega]
    rw [ih (R - 1) (pc + 1) (by omega)]
    · congr 2 <;> omega
    · intro j hj1 hj2
      have := hskip (j + 1) (by omega) (by omega)
      rwa [show R - (j + 1) = R - 1 - j from by omega] at this

/-- Between the largest power of two not above `m` and `m` there is no power of two. -/
theorem not_pow_between (m v : Nat) (h1 : 2 ^ Nat.log 2 m < v) (h2 : v ≤ m) :
    is_round_base2 (v : Int) = false := by
  by_contra hc
  have hc' : is_round_base2 (v : Int) = true := by
    cases h : is_round_base2 (v : Int) <;> simp_all
  obtain ⟨k, hk⟩ := (is_round_base2_natCast v).mp hc'
  subst hk
  have hlt : Nat.log 2 m < k := (Nat.pow_lt_pow_iff_right (by norm_num)).mp h1
  have hm : m < 2 ^ (Nat.log 2 m + 1) := Nat.lt_pow_succ_log_self (by norm_num) m
  have : 2 ^ (Nat.log 2 m + 1) ≤ 2 ^ k := Nat.pow_le_pow_right (by norm_num) hlt
  omega

/-- The iterations of one round of the loop of `vmspace_divide` before line 171 is
reached: from `R ≥ 2` pages with `page_counter` at 0, the loop arrives at the test of
line 170 with `reserve_pages = 2 ^ log2 (R - 1)`. -/
theorem divide_loop_round_start (find : State → Except Stop (Ref × State)) (cfg : Config)
    (src : Ref) (fuel : Nat) (s : State) (R : Nat) (hR : 2 ≤ R) :
    vmspace_divide_loop find cfg src (fuel + (R - 2 ^ Nat.log 2 (R - 1))) s (R : Int) 0 =
      vmspace_divide_loop find cfg src (fuel + 1) s
        (((2 ^ Nat.log 2 (R - 1) : Nat) : Int) + 1)
        (((R - 2 ^ Nat.log 2 (R - 1) : Nat) : Int) - 1) := by
  have hle : 2 ^ Nat.log 2 (R - 1) ≤ R - 1 := Nat.pow_log_le_self 2 (by omega)
  set c := 2 ^ Nat.log 2 (R - 1) with hc
  have hcpos : 0 < c := by positivity
  have hskip := divide_loop_skip find cfg src (R - c - 1) (fuel + 1) s R 0 (by omega)
    (fun j hj1 hj2 => not_pow_between (R - 1) (R - j) (by omega) (by omega))
  rw [show fuel + (R - c) = fuel + 1 + (R - c - 1) from by omega]
  rw [Nat.cast_zero] at hskip
  rw [hskip]
  congr 1 <;> omega

/-- One round of the loop of `vmspace_divide` when the pool yields `new_node`: from
`R ≥ 2` pages with `page_counter` at 0, after `R - 2 ^ log2 (R - 1)` iterations the
chunk of `2 ^ log2 (R - 1)` pages at the high end has been peeled off into `new_node`,
and the loop goes on with the low `R - 2 ^ log2 (R - 1)` pages. -/
theorem divide_loop_round (find : State → Except Stop (Ref × State)) (cfg : Config)
    (src : Ref) (fuel : Nat) (s s1 : State) (new_node : Ref) (R : Nat) (hR : 2 ≤ R)
    (hfind : find s = .ok (new_node, s1)) (hord : Nat.log 2 (R - 1) < cfg.MAX_ORDER) :
    vmspace_divide_loop find cfg src (fuel + (R - 2 ^ Nat.log 2 (R - 1))) s (R : Int) 0 =
      vmspace_divide_loop find cfg src fuel
        (divide_chunk cfg s1 src new_node ((2 ^ Nat.log 2 (R - 1) : Nat) : Int)
          ((R - 2 ^ Nat.log 2 (R - 1) : Nat) : Int))
        ((R - 2 ^ Nat.log 2 (R - 1) : Nat) : Int) 0 := by
  rw [divide_loop_round_start find cfg src fuel s R hR]
  have hpow : is_round_base2 ((2 ^ Nat.log 2 (R - 1) : Nat) : Int) = true :=
    (is_round_base2_natCast _).mpr ⟨_, rfl⟩
  have hlog : round_base2 ((2 ^ Nat.log 2 (R - 1) : Nat) : Int) = Nat.log 2 (R - 1) := by
    rw [round_base2_natCast, Nat.log_pow (by norm_num)]
  have hne : ¬ (((2 ^ Nat.log 2 (R - 1) : Nat) : Int) + 1 = 0) := by
    have := Int.natCast_nonneg (2 ^ Nat.log 2 (R - 1))
    omega
  rw [vmspace_divide_loop, if_neg hne]
  simp only [add_sub_cancel_right, sub_add_cancel, hpow, if_true, hfind, hlog,
    if_neg (Nat.not_le.mpr hord)]

/-- One round of the loop of `vmspace_divide` when the pool yields nothing: the call
stops the way `find` stopped. -/
theorem divide_loop_round_error (find : State → Except Stop (Ref × State)) (cfg : Config)
    (src : Ref) (fuel : Nat) (s : State) (e : Stop) (R : Nat) (hR : 2 ≤ R)
    (hfind : find s = .error e) :
    vmspace_divide_loop find cfg src (fuel + (R - 2 ^ Nat.log 2 (R - 1))) s (R : Int) 0 =
      .error e := by
  rw [divide_loop_round_start find cfg src fuel s R hR]
  have hpow : is_round_base2 ((2 ^ Nat.log 2 (R - 1) : Nat) : Int) = true :=
    (is_round_base2_natCast _).mpr ⟨_, rfl⟩
  have hne : ¬ (((2 ^ Nat.log 2 (R - 1) : Nat) : Int) + 1 = 0) := by
    have := Int.natCast_nonneg (2 ^ Nat.log 2 (R - 1))
    omega
  rw [vmspace_divide_loop, if_neg hne]
  simp only [add_sub_cancel_right, hpow, if_true, hfind]

/-- One round of the loop of `vmspace_divide` when the chunk has no bucket: indexing
`zone_nodes` beyond its end is a fault. -/
theorem divide_loop_round_fault (find : State → Except Stop (Ref × State)) (cfg : Config)
    (src : Ref) (fuel : Nat) (s s1 : State) (new_node : Ref) (R : Nat) (hR : 2 ≤ R)
    (hfind : find s = .ok (new_node, s1)) (hord : cfg.MAX_ORDER ≤ Nat.log 2 (R - 1)) :
    vmspace_divide_loop find cfg src (fuel + (R - 2 ^ Nat.log 2 (R - 1))) s (R : Int) 0 =
      .error .fault := by
  rw [divide_loop_round_start find cfg src fuel s R hR]
  have hpow : is_round_base2 ((2 ^ Nat.log 2 (R - 1) : Nat) : Int) = true :=
    (is_round_base2_natCast _).mpr ⟨_, rfl⟩
  have hlog : round_base2 ((2 ^ Nat.log 2 (R - 1) : Nat) : Int) = Nat.log 2 (R - 1) := by
    rw [round_base2_natCast, Nat.log_pow (by norm_num)]
  have hne : ¬ (((2 ^ Nat.log 2 (R - 1) : Nat) : Int) + 1 = 0) := by
    have := Int.natCast_nonneg (2 ^ Nat.log 2 (R - 1))
    omega
  rw [vmspace_divide_loop, if_neg hne]
  simp only [add_sub_cancel_right, hpow, if_true, hfind, hlog, if_pos hord]

/-- The last page: from one page the source itself goes to bucket 0. -/
theorem divide_loop_one (find : State → Except Stop (Ref × State)) (cfg : Config)
    (src : Ref) (fuel : Nat) (s : State) (pc : Int) (hM : 0 < cfg.MAX_ORDER) :
    vmspace_divide_loop find cfg src (fuel + 2) s 1 pc = .ok (divide_last s src) := by
  rw [vmspace_divide_loop]
  have h0 : is_round_base2 0 = false := by decide
  have hM2 : ¬ cfg.MAX_ORDER ≤ 0 := by omega
  simp only [one_ne_zero, if_false, h0, Bool.false_eq_true, sub_self, if_true, if_neg hM2]
  rw [vmspace_divide_loop]
  simp

/-- Nothing to divide: the loop body is not entered. -/
theorem divide_loop_zero (find : State → Except Stop (Ref × State)) (cfg : Config)
    (src : Ref) (fuel : Nat) (s : State) (pc : Int) :
    vmspace_divide_loop find cfg src (fuel + 1) s 0 pc = .ok s := by
  rw [vmspace_divide_loop]; simp

/-- The fuel `divide_fuel` is enough: with `reserve_pages + 1` units of fuel or more
the loop of `vmspace_divide` always has the same outcome, so a `hang` of
`vmspace_divide_with` is never a lack of fuel. -/
theorem vmspace_divide_loop_fuel (find : State → Except Stop (Ref × State)) (cfg : Config)
    (src : Ref) (n : Nat) :
    ∀ (fuel : Nat) (s : State), n + 1 ≤ fuel →
      vmspace_divide_loop find cfg src fuel s (n : Int) 0 =
        vmspace_divide_loop find cfg src (n + 1) s (n : Int) 0 := by
  induction n using Nat.strong_induction_on with
  | _ n ih =>
    intro fuel s hf
    rcases Nat.lt_or_ge n 2 with hn | hn
    · interval_cases n
      · obtain ⟨f, rfl⟩ : ∃ f, fuel = f + 1 := ⟨fuel - 1, by omega⟩
        simp [divide_loop_zero]
      · obtain ⟨f, rfl⟩ : ∃ f, fuel = f + 2 := ⟨fuel - 2, by omega⟩
        by_cases hM : 0 < cfg.MAX_ORDER
        · simp only [Nat.cast_one]
          rw [divide_loop_one find cfg src f s 0 hM,
            divide_loop_one find cfg src 0 s 0 hM]
        · have h0 : is_round_base2 0 = false := by decide
          simp only [Nat.cast_one]
          rw [vmspace_divide_loop, vmspace_divide_loop]
          simp [h0, Nat.eq_zero_of_not_pos hM]
    · have hle : 2 ^ Nat.log 2 (n - 1) ≤ n - 1 := Nat.pow_log_le_self 2 (by omega)
      have hlt : n - 1 < 2 ^ (Nat.log 2 (n - 1) + 1) := Nat.lt_pow_succ_log_self (by norm_num) _
      have hpos : 0 < 2 ^ Nat.log 2 (n - 1) := by positivity
      rw [pow_succ] at hlt
      set c := 2 ^ Nat.log 2 (n - 1) with hc
      obtain ⟨f, rfl⟩ : ∃ f, fuel = f + (n - c) := ⟨fuel - (n - c), by omega⟩
      have e2 : n + 1 = (c + 1) + (n - c) := by omega
      rw [e2]
      cases hfind : find s with
      | error e =>
        rw [divide_loop_round_error find cfg src f s e n hn hfind,
          divide_loop_round_error find cfg src (c + 1) s e n hn hfind]
      | ok p =>
        obtain ⟨nn, s1⟩ := p
        by_cases hord : Nat.log 2 (n - 1) < cfg.MAX_ORDER
        · rw [divide_loop_round find cfg src f s s1 nn n hn hfind hord,
            divide_loop_round find cfg src (c + 1) s s1 nn n hn hfind hord]
          rw [ih (n - c) (by omega) f _ (by omega), ih (n - c) (by omega) (c + 1) _ (by omega)]
        · rw [divide_loop_round_fault find cfg src f s s1 nn n hn hfind (by omega),
            divide_loop_round_fault find cfg src (c + 1) s s1 nn n hn hfind (by omega)]

/-! ## The effect of one chunk -/

theorem divide_chunk_zone_nodes (cfg : Config) (s : State) (src nn : Ref) (rp pc : Int)
    (j : Nat) :
    (divide_chunk cfg s src nn rp pc).zone_nodes j =
      if j = round_base2 rp then
        ⟨(s.zone_nodes j).node_nr_nodes + 1, nn :: (s.zone_nodes j).node_vmspace⟩
      else s.zone_nodes j := by
  unfold divide_chunk
  simp only [insert_after_zone_nodes, insert_head_zone_nodes, incr_nr_zone_nodes,
    setMem_zone_nodes]
  split_ifs with h <;> simp [h]

theorem divide_chunk_index (cfg : Config) (s : State) (src nn : Ref) (rp pc : Int) :
    (divide_chunk cfg s src nn rp pc).index = s.index := by
  unfold divide_chunk
  simp

theorem divide_chunk_new (cfg : Config) (s : State) (src nn : Ref) (rp pc : Int)
    (hne : nn ≠ src) :
    ((divide_chunk cfg s src nn rp pc).mem nn).vm_start =
        (s.mem src).vm_start + cfg.PAGE_SIZE * pc.toNat ∧
    ((divide_chunk cfg s src nn rp pc).mem nn).vm_present_size = rp.toNat * cfg.PAGE_SIZE ∧
    ((divide_chunk cfg s src nn rp pc).mem nn).vm_initial_size = (s.mem src).vm_initial_size ∧
    ((divide_chunk cfg s src nn rp pc).mem nn).vm_used = (s.mem nn).vm_used := by
  unfold divide_chunk
  simp only [(insert_after_fields _ _ _ _).1, (insert_after_fields _ _ _ _).2.1,
    (insert_after_fields _ _ _ _).2.2.1, (insert_after_fields _ _ _ _).2.2.2.2,
    insert_head_mem, incr_nr_mem, setMem_mem]
  simp [hne, Ne.symm hne]

theorem vm_size_sub_lt (a b : Nat) : vm_size_sub a b < 2 ^ 64 := by
  unfold vm_size_sub; omega

theorem vm_size_sub_of_le (a b : Nat) (hb : b ≤ a) (ha : a < 2 ^ 64) :
    vm_size_sub a b = a - b := by
  unfold vm_size_sub; omega

theorem vm_size_sub_sub (a b c : Nat) :
    vm_size_sub (vm_size_sub a b) c = vm_size_sub a (b + c) := by
  unfold vm_size_sub; omega

theorem divide_chunk_source (cfg : Config) (s : State) (src nn : Ref) (rp pc : Int)
    (hne : nn ≠ src) :
    ((divide_chunk cfg s src nn rp pc).mem src).vm_start = (s.mem src).vm_start ∧
    ((divide_chunk cfg s src nn rp pc).mem src).vm_present_size =
        vm_size_sub (s.mem src).vm_present_size (rp.toNat * cfg.PAGE_SIZE) ∧
    ((divide_chunk cfg s src nn rp pc).mem src).vm_initial_size = (s.mem src).vm_initial_size ∧
    ((divide_chunk cfg s src nn rp pc).mem src).vm_used = (s.mem src).vm_used := by
  unfold divide_chunk
  simp only [(insert_after_fields _ _ _ _).1, (insert_after_fields _ _ _ _).2.1,
    (insert_after_fields _ _ _ _).2.2.1, (insert_after_fields _ _ _ _).2.2.2.2,
    insert_head_mem, incr_nr_mem, setMem_mem]
  simp [hne, Ne.symm hne]

theorem divide_chunk_other (cfg : Config) (s : State) (src nn : Ref) (rp pc : Int)
    (x : Ref) (hx1 : x ≠ src) (hx2 : x ≠ nn) :
    ((divide_chunk cfg s src nn rp pc).mem x).vm_start = (s.mem x).vm_start ∧
    ((divide_chunk cfg s src nn rp pc).mem x).vm_present_size = (s.mem x).vm_present_size ∧
    ((divide_chunk cfg s src nn rp pc).mem x).vm_initial_size = (s.mem x).vm_initial_size ∧
    ((divide_chunk cfg s src nn rp pc).mem x).vm_used = (s.mem x).vm_used := by
  unfold divide_chunk
  simp only [(insert_after_fields _ _ _ _).1, (insert_after_fields _ _ _ _).2.1,
    (insert_after_fields _ _ _ _).2.2.1, (insert_after_fields _ _ _ _).2.2.2.2,
    insert_head_mem, incr_nr_mem, setMem_mem]
  simp [hx1, hx2]

theorem divide_last_zone_nodes (s : State) (src : Ref) (j : Nat) :
    (divide_last s src).zone_nodes j =
      if j = 0 then ⟨(s.zone_nodes j).node_nr_nodes + 1, src :: (s.zone_nodes j).node_vmspace⟩
      else s.zone_nodes j := by
  unfold divide_last
  simp only [insert_head_zone_nodes, incr_nr_zone_nodes]
  split_ifs with h <;> simp [h]

@[simp] theorem divide_last_mem (s : State) (src : Ref) : (divide_last s src).mem = s.mem := rfl

@[simp] theorem divide_last_index (s : State) (src : Ref) :
    (divide_last s src).index = s.index := rfl

/-! ## `vmspace_divide` on a pool that supplies descriptors -/

/-- The loop of `vmspace_divide` run on a supplying pool from `n ≥ 1` pages: it ends,
and the enqueued chunks `cs` (descriptor and order, last enqueued first) partition the
`n` pages. -/
theorem divide_supply_loop (cfg : Config) (slots : Nat → Ref) (src : Ref)
    (hM : 0 < cfg.MAX_ORDER) (hinj : Function.Injective slots) (hsrc : ∀ i, slots i ≠ src)
    (n : Nat) :
    ∀ (fuel : Nat) (s : State), 1 ≤ n → n ≤ 2 ^ cfg.MAX_ORDER → n + 1 ≤ fuel →
      ∃ (s' : State) (cs : List (Ref × Nat)),
        vmspace_divide_loop (pool_supply slots) cfg src fuel s (n : Int) 0 = .ok s' ∧
        (cs.map fun c => 2 ^ c.2).sum = n ∧
        cs.head? = some (src, 0) ∧
        (2 ≤ n → (slots s.index, Nat.log 2 (n - 1)) ∈ cs) ∧
        (∀ c ∈ cs, c.1 ≠ src →
          (s'.mem c.1).vm_present_size = 2 ^ c.2 * cfg.PAGE_SIZE) ∧
        (∀ c ∈ cs, c.1 ≠ src → ∃ i, s.index ≤ i ∧ c.1 = slots i) ∧
        (n = 1 → (s'.mem src).vm_present_size = (s.mem src).vm_present_size) ∧
        (2 ≤ n → (s'.mem src).vm_present_size =
          vm_size_sub (s.mem src).vm_present_size ((n - 1) * cfg.PAGE_SIZE)) ∧
        (∀ j, (s'.zone_nodes j).node_vmspace =
            ((cs.filter fun c => c.2 = j).map Prod.fst) ++ (s.zone_nodes j).node_vmspace ∧
          (s'.zone_nodes j).node_nr_nodes =
            (s.zone_nodes j).node_nr_nodes + ((cs.filter fun c => c.2 = j).length : Int)) ∧
        (∀ x, x ≠ src → (∀ i, s.index ≤ i → slots i ≠ x) →
          (s'.mem x).vm_present_size = (s.mem x).vm_present_size) := by
  induction n using Nat.strong_induction_on with
  | _ n ih =>
    intro fuel s hn1 hnmax hf
    rcases Nat.lt_or_ge n 2 with hn | hn
    · have hn' : n = 1 := by omega
      subst hn'
      obtain ⟨f, rfl⟩ : ∃ f, fuel = f + 2 := ⟨fuel - 2, by omega⟩
      refine ⟨divide_last s src, [(src, 0)], ?_, by simp, by simp, by omega, ?_, ?_,
        fun _ => rfl, by omega, ?_, ?_⟩
      · simpa using divide_loop_one (pool_supply slots) cfg src f s 0 hM
      · intro c hc hne; simp at hc; subst hc; exact absurd rfl hne
      · intro c hc hne; simp at hc; subst hc; exact absurd rfl hne
      · intro j
        rw [divide_last_zone_nodes]
        by_cases hj : j = 0
        · subst hj; simp
        · have hj' : ¬ (0 = j) := fun h => hj h.symm
          simp [hj, hj']
      · intro x _ _; simp
    · have hle : 2 ^ Nat.log 2 (n - 1) ≤ n - 1 := Nat.pow_log_le_self 2 (by omega)
      have hlt : n - 1 < 2 ^ (Nat.log 2 (n - 1) + 1) :=
        Nat.lt_pow_succ_log_self (by norm_num) _
      have hpos : 0 < 2 ^ Nat.log 2 (n - 1) := by positivity
      have hord : Nat.log 2 (n - 1) < cfg.MAX_ORDER :=
        Nat.log_lt_of_lt_pow (by omega) (by omega)
      rw [pow_succ] at hlt
      set L := Nat.log 2 (n - 1) with hL
      set c := 2 ^ L with hc
      obtain ⟨f, rfl⟩ : ∃ f, fuel = f + (n - c) := ⟨fuel - (n - c), by omega⟩
      have hfind : pool_supply slots s = .ok (slots s.index, { s with index := s.index + 1 }) :=
        rfl
      have hround := divide_loop_round (pool_supply slots) cfg src f s _ _ n hn hfind hord
      rw [← hL, ← hc] at hround
      set s2 := divide_chunk cfg { s with index := s.index + 1 } src (slots s.index)
        ((c : Nat) : Int) ((n - c : Nat) : Int) with hs2
      have hss := divide_chunk_source cfg { s with index := s.index + 1 } src (slots s.index)
        ((c : Nat) : Int) ((n - c : Nat) : Int) (hsrc _)
      obtain ⟨s', cs, hrun, hsum, hhead, -, hsize, hfrom, hsrc1, hsrc2, hbuckets, hframe⟩ :=
        ih (n - c) (by omega) f s2 (by omega) (by omega) (by omega)
      have hidx2 : s2.index = s.index + 1 := by rw [hs2, divide_chunk_index]
      have hnn := divide_chunk_new cfg { s with index := s.index + 1 } src (slots s.index)
        ((c : Nat) : Int) ((n - c : Nat) : Int) (hsrc _)
      have hlogc : round_base2 ((c : Nat) : Int) = L := by
        rw [round_base2_natCast, hc, Nat.log_pow (by norm_num)]
      refine ⟨s', cs ++ [(slots s.index, L)], ?_, ?_, ?_, ?_, ?_, ?_, by omega, ?_, ?_, ?_⟩
      · rw [hround, hrun]
      · simp only [List.map_append, List.sum_append, hsum, List.map_cons, List.map_nil,
          List.sum_cons, List.sum_nil]
        omega
      · cases cs with
        | nil => simp at hhead
        | cons a t => simpa using hhead
      · intro _; simp
      · intro x hx hne
        rcases List.mem_append.mp hx with hx | hx
        · exact hsize x hx hne
        · simp at hx
          subst hx
          simp only
          rw [hframe (slots s.index) (hsrc _) ?_]
          · rw [hnn.2.1]; simp only [Int.toNat_ofNat]
          · intro i hi heq
            have := hinj heq
            omega
      · intro x hx hne
        rcases List.mem_append.mp hx with hx | hx
        · obtain ⟨i, hi, hxi⟩ := hfrom x hx hne
          exact ⟨i, by omega, hxi⟩
        · simp at hx
          subst hx
          exact ⟨s.index, le_refl _, rfl⟩
      · intro _
        simp only [Int.toNat_ofNat] at hss
        rcases Nat.lt_or_ge (n - c) 2 with hk | hk
        · rw [hsrc1 (by omega), hss.2.1]
          congr 2
          omega
        · rw [hsrc2 hk, hss.2.1]
          have e : (n - 1) * cfg.PAGE_SIZE =
              c * cfg.PAGE_SIZE + (n - c - 1) * cfg.PAGE_SIZE := by
            rw [← Nat.add_mul]; congr 1; omega
          rw [e, vm_size_sub_sub]
      · intro j
        obtain ⟨hl, hnr⟩ := hbuckets j
        rw [hl, hnr, hs2, divide_chunk_zone_nodes, hlogc]
        by_cases hj : j = L
        · subst hj
          simp [List.filter_append]
          omega
        · have hj' : ¬ (L = j) := fun h => hj h.symm
          simp [List.filter_append, hj, hj']
      · intro x hx1 hx2
        rw [hframe x hx1 (fun i hi => hx2 i (by omega))]
        exact (divide_chunk_other cfg _ src (slots s.index) _ _ x hx1
          (fun h => hx2 s.index (le_refl _) h.symm)).2.1

theorem slots_from_injective (base : Nat) : Function.Injective (slots_from base) := by
  intro a b h
  have h' : base + a = base + b := h
  omega


/-! ## The effect of a grant -/

@[simp] theorem remove_head_mem (s : State) (node : Nat) (rest : List Ref) :
    (s.LIST_REMOVE_HEAD node rest).mem = s.mem := rfl

@[simp] theorem remove_head_index (s : State) (node : Nat) (rest : List Ref) :
    (s.LIST_REMOVE_HEAD node rest).index = s.index := rfl

theorem remove_head_zone_nodes (s : State) (node : Nat) (rest : List Ref) (j : Nat) :
    (s.LIST_REMOVE_HEAD node rest).zone_nodes j =
      if j = node then ⟨(s.zone_nodes node).node_nr_nodes - 1, rest⟩ else s.zone_nodes j := by
  unfold State.LIST_REMOVE_HEAD
  simp only [setNode_zone_nodes]
  split_ifs with h <;> simp

@[simp] theorem grant_block_zone_nodes (cfg : Config) (s : State) (res src : Ref) (size : Nat) :
    (grant_block cfg s res src size).zone_nodes = s.zone_nodes := by
  unfold grant_block; simp

@[simp] theorem grant_block_index (cfg : Config) (s : State) (res src : Ref) (size : Nat) :
    (grant_block cfg s res src size).index = s.index := by
  unfold grant_block; simp

theorem grant_block_res (cfg : Config) (s : State) (res src : Ref) (size : Nat)
    (hne : res ≠ src) :
    ((grant_block cfg s res src size).mem res).vm_start = (s.mem src).vm_start ∧
    ((grant_block cfg s res src size).mem res).vm_present_size =
      (size / cfg.PAGE_SIZE + 1) * cfg.PAGE_SIZE ∧
    ((grant_block cfg s res src size).mem res).vm_initial_size = (s.mem res).vm_initial_size ∧
    ((grant_block cfg s res src size).mem res).vm_used = 1 := by
  unfold grant_block
  simp [hne, Ne.symm hne, (insert_before_fields _ _ _ _).1, (insert_before_fields _ _ _ _).2.1,
    (insert_before_fields _ _ _ _).2.2.1, (insert_before_fields _ _ _ _).2.2.2.2]

theorem grant_block_source (cfg : Config) (s : State) (res src : Ref) (size : Nat)
    (hne : res ≠ src) :
    ((grant_block cfg s res src size).mem src).vm_start =
      (s.mem src).vm_start + (size / cfg.PAGE_SIZE + 1) * cfg.PAGE_SIZE ∧
    ((grant_block cfg s res src size).mem src).vm_present_size = (s.mem src).vm_present_size ∧
    ((grant_block cfg s res src size).mem src).vm_initial_size = (s.mem src).vm_initial_size ∧
    ((grant_block cfg s res src size).mem src).vm_used = (s.mem src).vm_used := by
  unfold grant_block
  simp [hne, Ne.symm hne, (insert_before_fields _ _ _ _).1, (insert_before_fields _ _ _ _).2.1,
    (insert_before_fields _ _ _ _).2.2.1, (insert_before_fields _ _ _ _).2.2.2.2]

theorem grant_block_other (cfg : Config) (s : State) (res src : Ref) (size : Nat) (x : Ref)
    (hx1 : x ≠ res) (hx2 : x ≠ src) :
    ((grant_block cfg s res src size).mem x).vm_start = (s.mem x).vm_start ∧
    ((grant_block cfg s res src size).mem x).vm_present_size = (s.mem x).vm_present_size ∧
    ((grant_block cfg s res src size).mem x).vm_initial_size = (s.mem x).vm_initial_size ∧
    ((grant_block cfg s res src size).mem x).vm_used = (s.mem x).vm_used := by
  unfold grant_block
  simp [hx1, hx2, (insert_before_fields _ _ _ _).1, (insert_before_fields _ _ _ _).2.1,
    (insert_before_fields _ _ _ _).2.2.1, (insert_before_fields _ _ _ _).2.2.2.2]

/-! ## What `vmspace_divide` leaves alone -/

/-- With the pool of `vmspace.c`, the loop of `vmspace_divide` does not touch the start,
size and used flag of a live descriptor other than the source: a new chunk is always
written into a slot that was free. -/
theorem divide_loop_keeps_live (cfg : Config) (src x : Ref) (hx : x ≠ src) (fuel : Nat) :
    ∀ (s s' : State) (r pc : Int),
      vmspace_divide_loop (find_a_vaild_vmspace cfg) cfg src fuel s r pc = .ok s' →
      (s.mem x).vm_present_size ≠ 0 →
      (s'.mem x).vm_start = (s.mem x).vm_start ∧
      (s'.mem x).vm_present_size = (s.mem x).vm_present_size ∧
      (s'.mem x).vm_used = (s.mem x).vm_used := by
  induction fuel with
  | zero => intro s s' r pc h; simp [vmspace_divide_loop] at h
  | succ f ih =>
    intro s s' r pc h hlive
    rw [vmspace_divide_loop] at h
    by_cases hr : r = 0
    · rw [if_pos hr] at h
      injection h with h; subst h
      exact ⟨rfl, rfl, rfl⟩
    · rw [if_neg hr] at h
      simp only at h
      by_cases hp : is_round_base2 (r - 1) = true
      · rw [if_pos hp] at h
        cases hfind : find_a_vaild_vmspace cfg s with
        | error e => rw [hfind] at h; simp at h
        | ok p =>
          obtain ⟨nn, sA⟩ := p
          rw [hfind] at h
          simp only at h
          by_cases hord : cfg.MAX_ORDER ≤ round_base2 (r - 1)
          · rw [if_pos hord] at h; simp at h
          · rw [if_neg hord] at h
            obtain ⟨_, hfree, hmem, _, _, _⟩ := find_ok cfg s sA nn hfind
            have hxnn : x ≠ nn := by
              intro heq; subst heq
              exact hlive hfree.1
            have hoth := divide_chunk_other cfg sA src nn (r - 1) (pc + 1) x hx hxnn
            rw [hmem] at hoth
            obtain ⟨h1, h2, h3⟩ := ih _ s' _ _ h (by rw [hoth.2.1]; exact hlive)
            exact ⟨h1.trans hoth.1, h2.trans hoth.2.1, h3.trans hoth.2.2.2⟩
      · rw [if_neg hp] at h
        by_cases hr1 : r - 1 = 0
        · rw [if_pos hr1] at h
          by_cases hM : cfg.MAX_ORDER ≤ 0
          · rw [if_pos hM] at h; simp at h
          · rw [if_neg hM] at h
            exact ih (divide_last s src) s' _ _ h (by simpa using hlive)
        · rw [if_neg hr1] at h
          exact ih _ s' _ _ h hlive

/-- The scan of `_vmspace_alloc` reads nothing but the bucket counts. -/
theorem vmspace_alloc_scan_congr (cfg : Config) (s t : State)
    (h : s.zone_nodes = t.zone_nodes) (fuel order present_node : Nat) :
    vmspace_alloc_scan cfg s fuel order present_node =
      vmspace_alloc_scan cfg t fuel order present_node := by
  induction fuel generalizing order present_node with
  | zero => rfl
  | succ f ih =>
    rw [vmspace_alloc_scan, vmspace_alloc_scan, h, ih]

/-! ## The ways `vmspace_alloc` returns -/

/-- How `vmspace_node_select_and_divide` returns: a descriptor was claimed, the list of
the node was not empty, and after the grant the remainder either went straight to a
bucket (line 148) or through `vmspace_divide`. -/
theorem select_and_divide_ok (cfg : Config) (s s' : State) (node : Nat) (order : Int)
    (size : Nat) (res : Ref)
    (h : vmspace_node_select_and_divide cfg s node order size = .ok (res, s')) :
    ∃ (src : Ref) (rest : List Ref) (sf : State),
      find_a_vaild_vmspace cfg s = .ok (res, sf) ∧
      (sf.zone_nodes node).node_vmspace = src :: rest ∧
      ((is_round_base2 (reserve_pages_at order ((size / cfg.PAGE_SIZE + 1 : Nat) : Int)) = true ∧
          round_base2 (reserve_pages_at order ((size / cfg.PAGE_SIZE + 1 : Nat) : Int))
            < cfg.MAX_ORDER ∧
          s' = (grant_block cfg (sf.LIST_REMOVE_HEAD node rest) res src size).LIST_INSERT_HEAD
            (round_base2 (reserve_pages_at order ((size / cfg.PAGE_SIZE + 1 : Nat) : Int))) src) ∨
        (is_round_base2 (reserve_pages_at order ((size / cfg.PAGE_SIZE + 1 : Nat) : Int)) = false ∧
          vmspace_divide cfg (grant_block cfg (sf.LIST_REMOVE_HEAD node rest) res src size) src
            (reserve_pages_at order ((size / cfg.PAGE_SIZE + 1 : Nat) : Int)) = .ok s')) := by
  unfold vmspace_node_select_and_divide vmspace_node_select_and_divide_with at h
  cases hfind : find_a_vaild_vmspace cfg s with
  | error e => rw [hfind] at h; simp at h
  | ok p =>
    obtain ⟨r, sf⟩ := p
    rw [hfind] at h
    simp only at h
    cases hl : (sf.zone_nodes node).node_vmspace with
    | nil => rw [hl] at h; simp at h
    | cons src rest =>
      rw [hl] at h
      simp only at h
      by_cases hp : is_round_base2 (reserve_pages_at order ((size / cfg.PAGE_SIZE + 1 : Nat) : Int))
          = true
      · rw [if_pos hp] at h
        by_cases hord : cfg.MAX_ORDER ≤
            round_base2 (reserve_pages_at order ((size / cfg.PAGE_SIZE + 1 : Nat) : Int))
        · rw [if_pos hord] at h; simp at h
        · rw [if_neg hord] at h
          injection h with h
          injection h with h1 h2
          subst h1
          exact ⟨src, rest, sf, rfl, hl, Or.inl ⟨hp, by omega, h2.symm⟩⟩
      · rw [if_neg hp] at h
        cases hdiv : vmspace_divide_with (find_a_vaild_vmspace cfg) cfg
            (grant_block cfg (sf.LIST_REMOVE_HEAD node rest) r src size) src
            (reserve_pages_at order ((size / cfg.PAGE_SIZE + 1 : Nat) : Int)) with
        | error e => rw [hdiv] at h; simp at h
        | ok sd =>
          rw [hdiv] at h
          injection h with h
          injection h with h1 h2
          subst h1 h2
          refine ⟨src, rest, sf, rfl, hl, Or.inr ⟨?_, hdiv⟩⟩
          cases hb : is_round_base2 (reserve_pages_at order ((size / cfg.PAGE_SIZE + 1 : Nat) : Int))
          · rfl
          · exact absurd hb hp

/-- How `vmspace_alloc` returns: the order of the request is in range, the scan
stopped below `MAX_ORDER`, and `vmspace_node_select_and_divide` returned for the node
and order the scan left; the lock is released. -/
theorem vmspace_alloc_ok (cfg : Config) (s s' : State) (size : Nat) (res : Ref)
    (h : vmspace_alloc cfg s size = .ok (res, s')) :
    get_order_base2 cfg size < cfg.MAX_ORDER ∧
    (vmspace_alloc_scan cfg s (cfg.MAX_ORDER + 1) (get_order_base2 cfg size)
      (get_order_base2 cfg size)).1 ≠ cfg.MAX_ORDER ∧
    ∃ s1, vmspace_node_select_and_divide cfg { s with zone_lock := true }
        (vmspace_alloc_scan cfg s (cfg.MAX_ORDER + 1) (get_order_base2 cfg size)
          (get_order_base2 cfg size)).2
        ((vmspace_alloc_scan cfg s (cfg.MAX_ORDER + 1) (get_order_base2 cfg size)
          (get_order_base2 cfg size)).1 : Int) size = .ok (res, s1) ∧
      s' = { s1 with zone_lock := false } := by
  unfold vmspace_alloc at h
  simp only at h
  cases hin : _vmspace_alloc cfg { s with zone_lock := true } (get_order_base2 cfg size : Int) size with
  | error e => rw [hin] at h; simp at h
  | ok p =>
    obtain ⟨r, s1⟩ := p
    rw [hin] at h
    injection h with h
    injection h with h1 h2
    subst h1
    unfold _vmspace_alloc _vmspace_alloc_with at hin
    by_cases hrange : ((get_order_base2 cfg size : Nat) : Int) ≥ cfg.MAX_ORDER ∨
        ((get_order_base2 cfg size : Nat) : Int) < 0
    · rw [if_pos hrange] at hin; simp at hin
    · rw [if_neg hrange] at hin
      simp only [Int.toNat_ofNat] at hin
      rw [vmspace_alloc_scan_congr cfg { s with zone_lock := true } s rfl] at hin
      by_cases hM : (vmspace_alloc_scan cfg s (cfg.MAX_ORDER + 1) (get_order_base2 cfg size)
          (get_order_base2 cfg size)).1 = cfg.MAX_ORDER
      · rw [if_pos hM] at hin; simp at hin
      · rw [if_neg hM] at hin
        exact ⟨by omega, hM, s1, hin, h2.symm⟩

/-- Rounding rule of line 126: `(size / PAGE_SIZE + 1)` pages always hold `size`
bytes, with a full page to spare when `PAGE_SIZE` divides `size`. -/
theorem total_pages_bound (P size : Nat) (hP : 0 < P) :
    size ≤ (size / P + 1) * P ∧ (P ∣ size → (size / P + 1) * P = size + P) := by
  have h1 := Nat.div_add_mod size P
  have h2 := Nat.mod_lt size hP
  have h3 : (size / P + 1) * P = P * (size / P) + P := by ring
  constructor
  · rw [h3]
    generalize size % P = m at h1 h2
    generalize P * (size / P) = A at h1
    omega
  · intro hd
    rw [h3, Nat.mul_div_cancel' hd]


/-! ## Address ranges -/

/-- The relation `overlaps` is "the two ranges share an address". -/
theorem overlaps_iff_common_address (a b : vmspace) :
    a.overlaps b ↔ ∃ addr, (a.vm_start ≤ addr ∧ addr < a.vm_start + a.vm_present_size) ∧
      (b.vm_start ≤ addr ∧ addr < b.vm_start + b.vm_present_size) := by
  unfold vmspace.overlaps
  constructor
  · rintro ⟨h1, h2, h3, h4⟩
    refine ⟨max a.vm_start b.vm_start, ⟨le_max_left _ _, ?_⟩, ⟨le_max_right _ _, ?_⟩⟩
    · rcases le_total a.vm_start b.vm_start with h | h
      · rw [max_eq_right h]; exact h2
      · rw [max_eq_left h]; omega
    · rcases le_total a.vm_start b.vm_start with h | h
      · rw [max_eq_right h]; omega
      · rw [max_eq_left h]; exact h1
  · rintro ⟨addr, ⟨h1, h2⟩, ⟨h3, h4⟩⟩
    omega

/-! ## A blocked pool -/

/-- With slot 0 of the pool not claimable, the loop of `vmspace_divide` cannot peel a
chunk: from two pages or more it does not return. -/
theorem divide_loop_blocked (cfg : Config) (src : Ref) (fuel : Nat) :
    ∀ (s : State) (r pc : Int), s.index = 0 → PoolBlocked cfg s → 2 ≤ r →
      vmspace_divide_loop (find_a_vaild_vmspace cfg) cfg src fuel s r pc = .error .hang := by
  induction fuel with
  | zero => intro s r pc _ _ _; rfl
  | succ f ih =>
    intro s r pc hidx hb hr
    rw [vmspace_divide_loop, if_neg (by omega)]
    simp only
    by_cases hp : is_round_base2 (r - 1) = true
    · rw [if_pos hp, find_blocked cfg s hidx hb]
    · rw [if_neg hp, if_neg (by omega)]
      have h1 : is_round_base2 1 = true := by decide
      have hne : r - 1 ≠ 1 := by
        intro h; rw [h] at hp; exact hp h1
      exact ih s (r - 1) (pc + 1) hidx hb (by omega)

/-- With slot 0 of the pool not claimable, the loop of `vmspace_divide` returns only
from no page at all, or from a single page, which it puts in bucket 0. -/
theorem divide_loop_blocked_ok (cfg : Config) (src : Ref) (fuel : Nat) (s s' : State)
    (r pc : Int) (hidx : s.index = 0) (hb : PoolBlocked cfg s)
    (h : vmspace_divide_loop (find_a_vaild_vmspace cfg) cfg src fuel s r pc = .ok s') :
    (r = 0 ∧ s' = s) ∨ (r = 1 ∧ s' = divide_last s src) := by
  rcases lt_trichotomy r 0 with hr | hr | hr
  · rw [divide_loop_neg _ cfg src fuel s r pc hr] at h; simp at h
  · subst hr
    cases fuel with
    | zero => simp [vmspace_divide_loop] at h
    | succ f =>
      rw [divide_loop_zero] at h
      injection h with h
      exact Or.inl ⟨rfl, h.symm⟩
  · by_cases h2 : 2 ≤ r
    · rw [divide_loop_blocked cfg src fuel s r pc hidx hb h2] at h; simp at h
    · have hr1 : r = 1 := by omega
      subst hr1
      right
      refine ⟨rfl, ?_⟩
      cases fuel with
      | zero => simp [vmspace_divide_loop] at h
      | succ f =>
        rw [vmspace_divide_loop] at h
        have h0 : is_round_base2 0 = false := by decide
        simp only [one_ne_zero, if_false, sub_self, h0, Bool.false_eq_true, if_true] at h
        by_cases hM : cfg.MAX_ORDER ≤ 0
        · rw [if_pos hM] at h; simp at h
        · rw [if_neg hM] at h
          cases f with
          | zero => simp [vmspace_divide_loop] at h
          | succ f' =>
            rw [divide_loop_zero] at h
            injection h with h
            exact h.symm

/-- The walk of lines 243-249 changes nothing. -/
theorem vmspace_free_walk_ok (s s' : State) (b : Ref) (fuel : Nat) :
    ∀ (vm : Ref) (total : Nat), vmspace_free_walk s b fuel vm total = .ok s' → s' = s := by
  induction fuel with
  | zero => intro vm total h; simp [vmspace_free_walk] at h
  | succ f ih =>
    intro vm total h
    rw [vmspace_free_walk] at h
    cases hn : (s.mem vm).vm_buddy_next with
    | none => rw [hn] at h; simp at h; exact h.symm
    | some nxt =>
      rw [hn] at h
      simp only at h
      by_cases hu : (s.mem nxt).vm_used = 0
      · rw [if_pos hu] at h
        simp only [vmspace_merge, if_true] at h
        by_cases hp : is_round_base2 ((total + (s.mem vm).vm_present_size : Nat) : Int) = true
        · rw [if_pos hp] at h
          exact ih _ _ h
        · rw [if_neg hp] at h
          exact ih _ _ h
      · rw [if_neg hu] at h
        injection h with h
        exact h.symm

/-! ## The order of a size -/

/-- The order of `2 ^ e` pages is `e`. -/
theorem get_order_base2_pow (cfg : Config) (hP : 0 < cfg.PAGE_SIZE) (e : Nat) :
    get_order_base2 cfg (2 ^ e * cfg.PAGE_SIZE) = e := by
  unfold get_order_base2
  have hpages : (2 ^ e * cfg.PAGE_SIZE + cfg.PAGE_SIZE - 1) / cfg.PAGE_SIZE = 2 ^ e := by
    have : 2 ^ e * cfg.PAGE_SIZE + cfg.PAGE_SIZE - 1 = (cfg.PAGE_SIZE - 1) + cfg.PAGE_SIZE * 2 ^ e := by
      rw [Nat.mul_comm]
      omega
    rw [this, Nat.add_mul_div_left _ _ hP, Nat.div_eq_of_lt (by omega)]
    simp
  simp only [hpages]
  cases e with
  | zero => simp
  | succ e' =>
    have h2 : ¬ (2 ^ (e' + 1) ≤ 1) := by
      have : 1 ≤ 2 ^ e' := Nat.one_le_two_pow
      rw [pow_succ]; omega
    rw [if_neg h2, round_base2_natCast]
    have hlog : Nat.log 2 (2 ^ (e' + 1) - 1) = e' := by
      apply Nat.log_eq_of_pow_le_of_lt_pow
      · have : 1 ≤ 2 ^ e' := Nat.one_le_two_pow
        rw [pow_succ]; omega
      · have : 1 ≤ 2 ^ (e' + 1) := Nat.one_le_two_pow
        omega
    rw [hlog]

/-- A size of whole pages that is a power of two is `2 ^ order` pages, `order` its
order. -/
theorem pow2_size_eq (cfg : Config) (hP : 0 < cfg.PAGE_SIZE) (size : Nat)
    (hpow : is_round_base2 (size : Int) = true) (hdvd : cfg.PAGE_SIZE ∣ size) :
    size = 2 ^ get_order_base2 cfg size * cfg.PAGE_SIZE := by
  obtain ⟨m, hm⟩ := (is_round_base2_natCast size).mp hpow
  subst hm
  obtain ⟨a, ha, hPa⟩ := (Nat.dvd_prime_pow Nat.prime_two).mp hdvd
  have hsplit : 2 ^ m = 2 ^ (m - a) * cfg.PAGE_SIZE := by
    rw [hPa, ← pow_add]; congr 1; omega
  have := get_order_base2_pow cfg hP (m - a)
  rw [← hsplit] at this
  rw [this]
  exact hsplit

/-- The pages granted for `size` are at most one more than `2 ^ order`. -/
theorem total_le_pow_order (cfg : Config) (hP : 0 < cfg.PAGE_SIZE) (size : Nat) :
    size / cfg.PAGE_SIZE + 1 ≤ 2 ^ get_order_base2 cfg size + 1 := by
  have hfloor : size / cfg.PAGE_SIZE ≤ (size + cfg.PAGE_SIZE - 1) / cfg.PAGE_SIZE :=
    Nat.div_le_div_right (by omega)
  have hceil : (size + cfg.PAGE_SIZE - 1) / cfg.PAGE_SIZE ≤ 2 ^ get_order_base2 cfg size := by
    unfold get_order_base2
    simp only
    split_ifs with h1
    · simpa using h1
    · rw [round_base2_natCast]
      have := Nat.lt_pow_succ_log_self (b := 2) (by norm_num)
        ((size + cfg.PAGE_SIZE - 1) / cfg.PAGE_SIZE - 1)
      omega
  omega

/-! ## The ways `vmspace_free` returns -/

/-- How `vmspace_free` returns: after clearing `vm_used`, the block went straight to
the bucket of its order, or through `vmspace_divide`, or (free buddy successor) nothing
else was done. -/
theorem vmspace_free_ok (cfg : Config) (fuel : Nat) (s s' : State) (b : Ref)
    (h : vmspace_free cfg fuel s b = .ok s') :
    (is_round_base2 ((s.mem b).vm_present_size : Int) = true ∧
        get_order_base2 cfg (s.mem b).vm_present_size < cfg.MAX_ORDER ∧
        s' = ((s.setMem b { s.mem b with vm_used := 0 }).incr_nr
            (get_order_base2 cfg (s.mem b).vm_present_size)).LIST_INSERT_HEAD
          (get_order_base2 cfg (s.mem b).vm_present_size) b) ∨
    (is_round_base2 ((s.mem b).vm_present_size : Int) = false ∧
        vmspace_divide cfg (s.setMem b { s.mem b with vm_used := 0 }) b
          (((s.mem b).vm_present_size / cfg.PAGE_SIZE : Nat) : Int) = .ok s') ∨
    s' = s.setMem b { s.mem b with vm_used := 0 } := by
  unfold vmspace_free vmspace_free_with at h
  simp only at h
  split_ifs at h with hsucc hp hord
  all_goals first
    | (injection h with h; exact Or.inl ⟨hp, by omega, h.symm⟩)
    | (exact Or.inr (Or.inr (vmspace_free_walk_ok _ _ _ _ _ _ h)))
    | (exact Or.inr (Or.inl ⟨by simpa using hp, h⟩))

/-! ## The used descriptors do not overlap: the steps -/

/-- With slot 0 of the pool not claimable, `vmspace_alloc` does not return. -/
theorem alloc_blocked (cfg : Config) (s s' : State) (size : Nat) (res : Ref)
    (hidx : s.index = 0) (hb : PoolBlocked cfg s) :
    vmspace_alloc cfg s size ≠ .ok (res, s') := by
  intro h
  obtain ⟨_, _, s1, hsel, _⟩ := vmspace_alloc_ok cfg s s' size res h
  obtain ⟨_, _, sf, hfind, _⟩ := select_and_divide_ok cfg _ s1 _ _ size res hsel
  rw [find_blocked cfg { s with zone_lock := true } hidx hb] at hfind
  simp at hfind

/-- Clearing a used flag keeps the used descriptors apart. -/
theorem used_disjoint_of_clear (s s' : State) (b : Ref) (h : UsedDisjoint s)
    (hmem : s'.mem = (s.setMem b { s.mem b with vm_used := 0 }).mem) : UsedDisjoint s' := by
  intro x y hxy hx hy hov
  rw [hmem] at hx hy hov
  simp only [setMem_mem] at hx hy hov
  by_cases hxb : x = b
  · simp [hxb] at hx
  · by_cases hyb : y = b
    · simp [hyb] at hy
    · simp only [hxb, hyb, if_false] at hx hy hov
      exact h x y hxy hx hy hov

/-- With slot 0 of the pool not claimable, a `vmspace_free` that returns has changed no
descriptor but for the cleared `vm_used`. -/
theorem free_blocked (cfg : Config) (fuel : Nat) (s s' : State) (b : Ref)
    (hidx : s.index = 0) (hb : PoolBlocked cfg s)
    (h : vmspace_free cfg fuel s b = .ok s') :
    s'.mem = (s.setMem b { s.mem b with vm_used := 0 }).mem ∧ s'.index = 0 ∧
      PoolBlocked cfg s' := by
  have hb1 : PoolBlocked cfg (s.setMem b { s.mem b with vm_used := 0 }) := by
    rcases hb with hb | hb
    · exact Or.inl hb
    · right
      intro hfree
      apply hb
      unfold vmspace.is_free at hfree ⊢
      simp only [setMem_mem] at hfree
      split_ifs at hfree with h0
      · rw [← h0] at hfree; exact hfree
      · exact hfree
  have hkey : s'.mem = (s.setMem b { s.mem b with vm_used := 0 }).mem ∧ s'.index = 0 := by
    rcases vmspace_free_ok cfg fuel s s' b h with ⟨_, _, hs'⟩ | ⟨_, hdiv⟩ | hs'
    · rw [hs']; exact ⟨rfl, hidx⟩
    · unfold vmspace_divide vmspace_divide_with at hdiv
      rcases divide_loop_blocked_ok cfg b _ (s.setMem b { s.mem b with vm_used := 0 }) s' _ _
          hidx hb1 hdiv with ⟨_, hs'⟩ | ⟨_, hs'⟩
      · rw [hs']; exact ⟨rfl, hidx⟩
      · rw [hs']; exact ⟨rfl, hidx⟩
    · rw [hs']; exact ⟨rfl, hidx⟩
  refine ⟨hkey.1, hkey.2, ?_⟩
  unfold PoolBlocked at hb1 ⊢
  rw [hkey.1]
  exact hb1

/-- What a returning `vmspace_alloc` has done to the descriptors of a well-formed zone
whose pool slot 0 is free: slot 0 is the granted block, carved from the low end of a
free block `src` that is large enough; `src` stays free; nothing else has moved. -/
theorem alloc_wellformed_effect (cfg : Config) (s s' : State) (size : Nat) (res : Ref)
    (hP : 0 < cfg.PAGE_SIZE) (hwf : WellFormed cfg s) (hnb : ¬ PoolBlocked cfg s)
    (h : vmspace_alloc cfg s size = .ok (res, s')) :
    ∃ src, src ≠ 0 ∧ (s.mem src).vm_used = 0 ∧
      (size / cfg.PAGE_SIZE + 1) * cfg.PAGE_SIZE ≤ (s.mem src).vm_present_size ∧
      res = 0 ∧ s'.index = 0 ∧
      (s'.mem 0).vm_start = (s.mem src).vm_start ∧
      (s'.mem 0).vm_present_size = (size / cfg.PAGE_SIZE + 1) * cfg.PAGE_SIZE ∧
      (s'.mem src).vm_used = 0 ∧
      (∀ x, x ≠ 0 → x ≠ src → (s'.mem x).vm_start = (s.mem x).vm_start ∧
        (s'.mem x).vm_present_size = (s.mem x).vm_present_size ∧
        (s'.mem x).vm_used = (s.mem x).vm_used) := by
  have hpool : 0 < cfg.MAX_VMSPACE_POOL ∧ (s.mem 0).is_free := by
    unfold PoolBlocked at hnb
    constructor
    · by_contra hc; exact hnb (Or.inl (by omega))
    · by_contra hc; exact hnb (Or.inr hc)
  obtain ⟨hk, hM, s1, hsel, hs'⟩ := vmspace_alloc_ok cfg s s' size res h
  obtain ⟨src, rest, sf, hfind, hl, hcases⟩ := select_and_divide_ok cfg _ s1 _ _ size res hsel
  have hf0 := find_slot0 cfg { s with zone_lock := true } hwf.index_zero hpool.1 hpool.2
  rw [hf0] at hfind
  injection hfind with hfind
  injection hfind with hres hsf
  subst hres hsf
  -- the node the scan stopped at
  have hscan : (vmspace_alloc_scan cfg s (cfg.MAX_ORDER + 1) (get_order_base2 cfg size)
        (get_order_base2 cfg size)).2 < cfg.MAX_ORDER ∧
      ((vmspace_alloc_scan cfg s (cfg.MAX_ORDER + 1) (get_order_base2 cfg size)
        (get_order_base2 cfg size)).1 =
        (vmspace_alloc_scan cfg s (cfg.MAX_ORDER + 1) (get_order_base2 cfg size)
          (get_order_base2 cfg size)).2 ∨
      get_order_base2 cfg size + 1 ≤ (vmspace_alloc_scan cfg s (cfg.MAX_ORDER + 1)
        (get_order_base2 cfg size) (get_order_base2 cfg size)).2) := by
    rcases vmspace_alloc_scan_from cfg s _ hk with ⟨_, heq⟩ | ⟨h0, h3, h4, h5, _, h7⟩
    · rw [heq]; exact ⟨hk, Or.inl rfl⟩
    · have hlt : (vmspace_alloc_scan cfg s (cfg.MAX_ORDER + 1) (get_order_base2 cfg size)
          (get_order_base2 cfg size)).1 < cfg.MAX_ORDER := by omega
      refine ⟨by omega, Or.inr ?_⟩
      have hne := h7 hlt
      by_contra hc
      have : (vmspace_alloc_scan cfg s (cfg.MAX_ORDER + 1) (get_order_base2 cfg size)
          (get_order_base2 cfg size)).2 = get_order_base2 cfg size := by omega
      rw [this] at hne
      exact hne h0
  generalize (vmspace_alloc_scan cfg s (cfg.MAX_ORDER + 1) (get_order_base2 cfg size)
    (get_order_base2 cfg size)) = r at *
  have hmem_src : src ∈ (s.zone_nodes r.2).node_vmspace := by
    have : (s.zone_nodes r.2).node_vmspace = src :: rest := hl
    rw [this]; exact List.mem_cons_self _ _
  have hsrc_used := hwf.bucket_free r.2 hscan.1 src hmem_src
  have hsrc_size := hwf.bucket_size r.2 hscan.1 src hmem_src
  have hpow_pos : 0 < 2 ^ r.2 * cfg.PAGE_SIZE := Nat.mul_pos (by positivity) hP
  have hne : (0 : Ref) ≠ src := by
    intro heq
    rw [← heq] at hsrc_size
    have := hpool.2.1
    omega
  have htpos : 0 < (size / cfg.PAGE_SIZE + 1) * cfg.PAGE_SIZE := Nat.mul_pos (Nat.succ_pos _) hP
  -- the grant
  have hg0 := grant_block_res cfg (State.LIST_REMOVE_HEAD { s with zone_lock := true } r.2 rest)
    0 src size hne
  have hgs := grant_block_source cfg (State.LIST_REMOVE_HEAD { s with zone_lock := true } r.2 rest)
    0 src size hne
  have hgo := fun x hx1 hx2 => grant_block_other cfg
    (State.LIST_REMOVE_HEAD { s with zone_lock := true } r.2 rest) 0 src size x hx1 hx2
  have hgidx : (grant_block cfg (State.LIST_REMOVE_HEAD { s with zone_lock := true } r.2 rest)
      0 src size).index = 0 := by
    rw [grant_block_index]; exact hwf.index_zero
  have hgblocked : PoolBlocked cfg
      (grant_block cfg (State.LIST_REMOVE_HEAD { s with zone_lock := true } r.2 rest)
        0 src size) := by
    right
    intro hfree
    have := hfree.1
    rw [hg0.2.1] at this
    omega
  generalize hsg : grant_block cfg (State.LIST_REMOVE_HEAD { s with zone_lock := true } r.2 rest)
    0 src size = sg at *
  simp only [remove_head_mem] at hg0 hgs hgo
  -- the remainder
  have hrest : s1.mem = sg.mem ∧ s1.index = 0 ∧
      (0 : Int) ≤ reserve_pages_at (r.1 : Int) ((size / cfg.PAGE_SIZE + 1 : Nat) : Int) := by
    rcases hcases with ⟨hp, _, hs1⟩ | ⟨_, hdiv⟩
    · obtain ⟨k', hk'⟩ := (is_round_base2_iff _).mp hp
      refine ⟨by rw [hs1]; rfl, by rw [hs1]; exact hgidx, ?_⟩
      rw [hk']; positivity
    · unfold vmspace_divide vmspace_divide_with at hdiv
      rcases divide_loop_blocked_ok cfg src _ sg s1 _ _ hgidx hgblocked hdiv with
        ⟨hr0, hs1⟩ | ⟨hr1, hs1⟩
      · exact ⟨by rw [hs1], by rw [hs1]; exact hgidx, by omega⟩
      · exact ⟨by rw [hs1]; rfl, by rw [hs1]; exact hgidx, by omega⟩
  have htle1 : size / cfg.PAGE_SIZE + 1 ≤ 2 ^ r.1 := by
    have := hrest.2.2
    unfold reserve_pages_at at this
    simp only [Int.toNat_ofNat] at this
    have h2 : ((size / cfg.PAGE_SIZE + 1 : Nat) : Int) ≤ ((2 ^ r.1 : Nat) : Int) := by
      push_cast
      push_cast at this
      omega
    exact_mod_cast h2
  have htle : size / cfg.PAGE_SIZE + 1 ≤ 2 ^ r.2 := by
    rcases hscan.2 with heq | hadv
    · rw [← heq]; exact htle1
    · have h1 := total_le_pow_order cfg hP size
      have h2 : 2 ^ (get_order_base2 cfg size + 1) ≤ 2 ^ r.2 :=
        Nat.pow_le_pow_right (by norm_num) hadv
      have h3 : 1 ≤ 2 ^ get_order_base2 cfg size := Nat.one_le_two_pow
      rw [pow_succ] at h2
      omega
  subst hs'
  refine ⟨src, fun h => hne h.symm, hsrc_used, ?_, rfl, hrest.2.1, ?_, ?_, ?_, ?_⟩
  · rw [hsrc_size]
    exact Nat.mul_le_mul_right _ htle
  · show (s1.mem 0).vm_start = _
    rw [hrest.1]; exact hg0.1
  · show (s1.mem 0).vm_present_size = _
    rw [hrest.1]; exact hg0.2.1
  · show (s1.mem src).vm_used = 0
    rw [hrest.1, hgs.2.2.2]; exact hsrc_used
  · intro x hx1 hx2
    show (s1.mem x).vm_start = _ ∧ (s1.mem x).vm_present_size = _ ∧ (s1.mem x).vm_used = _
    rw [hrest.1]
    exact ⟨(hgo x hx1 hx2).1, (hgo x hx1 hx2).2.1, (hgo x hx1 hx2).2.2.2⟩

/-- In a well-formed zone whose pool slot 0 is free, a `vmspace_alloc` that returns
leaves the used descriptors apart, and slot 0 taken. -/
theorem alloc_wellformed_step (cfg : Config) (s s' : State) (size : Nat) (res : Ref)
    (hP : 0 < cfg.PAGE_SIZE) (hwf : WellFormed cfg s) (hnb : ¬ PoolBlocked cfg s)
    (h : vmspace_alloc cfg s size = .ok (res, s')) :
    s'.index = 0 ∧ PoolBlocked cfg s' ∧ UsedDisjoint s' := by
  obtain ⟨src, hsrc0, hsrcu, hfit, _, hidx, h0s, h0p, hsu, hoth⟩ :=
    alloc_wellformed_effect cfg s s' size res hP hwf hnb h
  have htpos : 0 < (size / cfg.PAGE_SIZE + 1) * cfg.PAGE_SIZE := Nat.mul_pos (Nat.succ_pos _) hP
  refine ⟨hidx, Or.inr ?_, ?_⟩
  · intro hfree
    have := hfree.1
    omega
  · intro x y hxy hx hy hov
    unfold vmspace.overlaps at hov
    by_cases hxs : x = src
    · subst hxs; exact hx hsu
    by_cases hys : y = src
    · subst hys; exact hy hsu
    by_cases hx0 : x = 0
    · subst hx0
      have hy0 : y ≠ 0 := fun h => hxy h.symm
      obtain ⟨e1, e2, _⟩ := hoth y hy0 hys
      rw [h0s, h0p, e1, e2] at hov
      apply hwf.disjoint src y (fun h => hys h.symm)
      unfold vmspace.overlaps
      omega
    · by_cases hy0 : y = 0
      · subst hy0
        obtain ⟨e1, e2, _⟩ := hoth x hx0 hxs
        rw [h0s, h0p, e1, e2] at hov
        apply hwf.disjoint x src hxs
        unfold vmspace.overlaps
        omega
      · obtain ⟨e1, e2, _⟩ := hoth x hx0 hxs
        obtain ⟨f1, f2, _⟩ := hoth y hy0 hys
        rw [e1, e2, f1, f2] at hov
        exact hwf.disjoint x y hxy hov

/-- Descriptors that are pairwise apart are apart when used. -/
theorem used_disjoint_of_all (s : State) (h : AllDisjoint s) : UsedDisjoint s :=
  fun x y hxy _ _ => h x y hxy

/-- Clearing `vm_used` keeps a zone well-formed. -/
theorem wellformed_clear (cfg : Config) (s : State) (b : Ref) (hwf : WellFormed cfg s) :
    WellFormed cfg (s.setMem b { s.mem b with vm_used := 0 }) := by
  refine ⟨hwf.index_zero, ?_, ?_, ?_, ?_⟩
  · intro x y hxy hov
    apply hwf.disjoint x y hxy
    unfold vmspace.overlaps at hov ⊢
    simp only [setMem_mem] at hov
    split_ifs at hov with h1 h2 h2 <;> simp_all
  · intro k hk x hx
    have := hwf.bucket_size k hk x hx
    simp only [setMem_mem, setMem_zone_nodes] at hx ⊢
    split_ifs with h1 <;> simp_all
  · intro k hk x hx
    have := hwf.bucket_free k hk x hx
    simp only [setMem_mem, setMem_zone_nodes] at hx ⊢
    split_ifs with h1 <;> simp_all
  · intro x
    have := hwf.whole_pages x
    simp only [setMem_mem]
    split_ifs with h1
    · subst h1; exact this
    · exact this

/-- Enqueuing a free block of `2 ^ o` pages in bucket `o` keeps a zone well-formed. -/
theorem wellformed_enqueue (cfg : Config) (s : State) (b : Ref) (o : Nat)
    (hwf : WellFormed cfg s) (hu : (s.mem b).vm_used = 0)
    (hsz : (s.mem b).vm_present_size = 2 ^ o * cfg.PAGE_SIZE) :
    WellFormed cfg ((s.incr_nr o).LIST_INSERT_HEAD o b) := by
  have hlist : ∀ k x, x ∈ (((s.incr_nr o).LIST_INSERT_HEAD o b).zone_nodes k).node_vmspace →
      (k = o ∧ x = b) ∨ x ∈ (s.zone_nodes k).node_vmspace := by
    intro k x hx
    rw [insert_head_zone_nodes] at hx
    by_cases hk : k = o
    · subst hk
      simp only [if_true, incr_nr_zone_nodes, List.mem_cons] at hx
      rcases hx with hx | hx
      · exact Or.inl ⟨rfl, hx⟩
      · exact Or.inr hx
    · simp only [hk, if_false, incr_nr_zone_nodes] at hx
      exact Or.inr hx
  refine ⟨hwf.index_zero, hwf.disjoint, ?_, ?_, hwf.whole_pages⟩
  · intro k hk x hx
    rcases hlist k x hx with ⟨h1, h2⟩ | h
    · subst h1 h2; exact hsz
    · exact hwf.bucket_size k hk x h
  · intro k hk x hx
    rcases hlist k x hx with ⟨h1, h2⟩ | h
    · subst h1 h2; exact hu
    · exact hwf.bucket_free k hk x h

/-- Freeing a block of `n ≥ 2` whole pages, not a power of two in bytes, in a
well-formed zone whose pool slot 0 is free: if `vmspace_divide` returns, slot 0 has
become the one chunk peeled off, inside the range of the freed block, and is now
taken. -/
theorem free_divide_step (cfg : Config) (s s' : State) (b : Ref) (n : Nat)
    (hP : 0 < cfg.PAGE_SIZE) (hwf : WellFormed cfg s) (hnb : ¬ PoolBlocked cfg s)
    (hn : 2 ≤ n) (hsize : (s.mem b).vm_present_size = n * cfg.PAGE_SIZE)
    (hdiv : vmspace_divide cfg (s.setMem b { s.mem b with vm_used := 0 }) b (n : Int)
      = .ok s') :
    s'.index = 0 ∧ UsedDisjoint s' ∧ PoolBlocked cfg s' := by
  have hpool : 0 < cfg.MAX_VMSPACE_POOL ∧ (s.mem 0).is_free := by
    unfold PoolBlocked at hnb
    constructor
    · by_contra hc; exact hnb (Or.inl (by omega))
    · by_contra hc; exact hnb (Or.inr hc)
  have hnpos : 0 < n * cfg.PAGE_SIZE := Nat.mul_pos (by omega) hP
  have hb0 : (0 : Ref) ≠ b := by
    intro heq
    rw [← heq] at hsize
    have := hpool.2.1
    omega
  generalize hs1 : s.setMem b { s.mem b with vm_used := 0 } = s1 at hdiv
  have hmem1 : ∀ x, (s1.mem x).vm_start = (s.mem x).vm_start ∧
      (s1.mem x).vm_present_size = (s.mem x).vm_present_size ∧
      (s1.mem x).vm_initial_size = (s.mem x).vm_initial_size := by
    intro x
    rw [← hs1]
    simp only [setMem_mem]
    split_ifs with h1
    · subst h1; exact ⟨rfl, rfl, rfl⟩
    · exact ⟨rfl, rfl, rfl⟩
  have hused1 : (s1.mem b).vm_used = 0 := by rw [← hs1]; simp
  have hoth1 : ∀ x, x ≠ b → (s1.mem x).vm_used = (s.mem x).vm_used := by
    intro x hx; rw [← hs1]; simp [hx]
  have hidx1 : s1.index = 0 := by rw [← hs1]; exact hwf.index_zero
  have hfree1 : (s1.mem 0).is_free := by
    unfold vmspace.is_free
    rw [(hmem1 0).2.1, (hmem1 0).2.2]
    exact hpool.2
  have hslot := find_slot0 cfg s1 hidx1 hpool.1 hfree1
  have hle : 2 ^ Nat.log 2 (n - 1) ≤ n - 1 := Nat.pow_log_le_self 2 (by omega)
  have hcpos : 0 < 2 ^ Nat.log 2 (n - 1) := by positivity
  unfold vmspace_divide vmspace_divide_with divide_fuel at hdiv
  simp only [Int.toNat_ofNat] at hdiv
  rw [show n + 1 = (2 ^ Nat.log 2 (n - 1) + 1) + (n - 2 ^ Nat.log 2 (n - 1)) from by omega]
    at hdiv
  by_cases hord : Nat.log 2 (n - 1) < cfg.MAX_ORDER
  · rw [divide_loop_round _ cfg b _ s1 s1 0 n hn hslot hord] at hdiv
    generalize hc : 2 ^ Nat.log 2 (n - 1) = c at *
    have hnew := divide_chunk_new cfg s1 b 0 ((c : Nat) : Int) ((n - c : Nat) : Int) hb0
    have hsrc := divide_chunk_source cfg s1 b 0 ((c : Nat) : Int) ((n - c : Nat) : Int) hb0
    have hoth := fun x hx1 hx2 =>
      divide_chunk_other cfg s1 b 0 ((c : Nat) : Int) ((n - c : Nat) : Int) x hx1 hx2
    have hidx2 : (divide_chunk cfg s1 b 0 ((c : Nat) : Int) ((n - c : Nat) : Int)).index = 0 := by
      rw [divide_chunk_index]; exact hidx1
    simp only [Int.toNat_ofNat] at hnew hsrc
    have hcP : 0 < c * cfg.PAGE_SIZE := Nat.mul_pos hcpos hP
    have hblocked2 : PoolBlocked cfg
        (divide_chunk cfg s1 b 0 ((c : Nat) : Int) ((n - c : Nat) : Int)) := by
      right
      intro hfree
      have := hfree.1
      rw [hnew.2.1] at this
      omega
    generalize divide_chunk cfg s1 b 0 ((c : Nat) : Int) ((n - c : Nat) : Int) = s2 at *
    rcases divide_loop_blocked_ok cfg b _ s2 s' _ _ hidx2 hblocked2 hdiv with
      ⟨hr0, _⟩ | ⟨_, hs'⟩
    · omega
    · have hmem' : s'.mem = s2.mem := by rw [hs']; rfl
      have hsplit : n * cfg.PAGE_SIZE = c * cfg.PAGE_SIZE + cfg.PAGE_SIZE * (n - c) := by
        rw [Nat.mul_comm cfg.PAGE_SIZE, ← Nat.add_mul]
        congr 1; omega
      refine ⟨by rw [hs']; exact hidx2, ?_, ?_⟩
      · intro x y hxy hx hy hov
        rw [hmem'] at hx hy hov
        unfold vmspace.overlaps at hov
        by_cases hxb : x = b
        · subst hxb; rw [hsrc.2.2.2] at hx; exact hx hused1
        by_cases hyb : y = b
        · subst hyb; rw [hsrc.2.2.2] at hy; exact hy hused1
        by_cases hx0 : x = 0
        · subst hx0
          have hy0 : y ≠ 0 := fun h => hxy h.symm
          obtain ⟨e1, e2, _, _⟩ := hoth y hyb hy0
          rw [hnew.1, hnew.2.1, e1, e2, (hmem1 b).1, (hmem1 y).1, (hmem1 y).2.1] at hov
          apply hwf.disjoint b y (fun h => hyb h.symm)
          unfold vmspace.overlaps
          rw [hsize, hsplit]
          generalize c * cfg.PAGE_SIZE = A at *
          generalize cfg.PAGE_SIZE * (n - c) = B at *
          omega
        · by_cases hy0 : y = 0
          · subst hy0
            obtain ⟨e1, e2, _, _⟩ := hoth x hxb hx0
            rw [hnew.1, hnew.2.1, e1, e2, (hmem1 b).1, (hmem1 x).1, (hmem1 x).2.1] at hov
            apply hwf.disjoint x b hxb
            unfold vmspace.overlaps
            rw [hsize, hsplit]
            generalize c * cfg.PAGE_SIZE = A at *
            generalize cfg.PAGE_SIZE * (n - c) = B at *
            omega
          · obtain ⟨e1, e2, _, _⟩ := hoth x hxb hx0
            obtain ⟨f1, f2, _, _⟩ := hoth y hyb hy0
            rw [e1, e2, f1, f2, (hmem1 x).1, (hmem1 x).2.1, (hmem1 y).1, (hmem1 y).2.1] at hov
            exact hwf.disjoint x y hxy hov
      · right
        intro hfree
        have := hfree.1
        rw [hmem', hnew.2.1] at this
        omega
  · rw [divide_loop_round_fault _ cfg b _ s1 s1 0 n hn hslot (by omega)] at hdiv
    simp at hdiv

/-- In a well-formed zone whose pool slot 0 is free, a `vmspace_free` that returns
leaves the used descriptors apart; the zone stays well-formed unless slot 0 has been
taken. -/
theorem free_wellformed_step (cfg : Config) (fuel : Nat) (s s' : State) (b : Ref)
    (hP : 0 < cfg.PAGE_SIZE) (hwf : WellFormed cfg s) (hnb : ¬ PoolBlocked cfg s)
    (h : vmspace_free cfg fuel s b = .ok s') :
    s'.index = 0 ∧ UsedDisjoint s' ∧ (PoolBlocked cfg s' ∨ WellFormed cfg s') := by
  have hwf1 := wellformed_clear cfg s b hwf
  have hused1 : ((s.setMem b { s.mem b with vm_used := 0 }).mem b).vm_used = 0 := by simp
  have hsize1 : ((s.setMem b { s.mem b with vm_used := 0 }).mem b).vm_present_size =
      (s.mem b).vm_present_size := by simp
  have hdvd := hwf.whole_pages b
  have hfin : ∀ t, WellFormed cfg t → t.index = 0 ∧ UsedDisjoint t ∧
      (PoolBlocked cfg t ∨ WellFormed cfg t) :=
    fun t ht => ⟨ht.index_zero, used_disjoint_of_all t ht.disjoint, Or.inr ht⟩
  rcases vmspace_free_ok cfg fuel s s' b h with ⟨hp, _, hs'⟩ | ⟨hp, hdiv⟩ | hs'
  · rw [hs']
    apply hfin
    apply wellformed_enqueue cfg _ b _ hwf1 hused1
    rw [hsize1]
    exact pow2_size_eq cfg hP _ hp hdvd
  · have hmul : (s.mem b).vm_present_size =
        (s.mem b).vm_present_size / cfg.PAGE_SIZE * cfg.PAGE_SIZE :=
      (Nat.div_mul_cancel hdvd).symm
    generalize (s.mem b).vm_present_size / cfg.PAGE_SIZE = n at hdiv hmul
    rcases Nat.lt_or_ge n 2 with hn | hn
    · interval_cases n
      · unfold vmspace_divide vmspace_divide_with divide_fuel at hdiv
        simp only [Nat.cast_zero, Int.toNat_zero, zero_add] at hdiv
        rw [divide_loop_zero] at hdiv
        injection hdiv with hdiv
        rw [← hdiv]
        exact hfin _ hwf1
      · unfold vmspace_divide vmspace_divide_with divide_fuel at hdiv
        simp only [Nat.cast_one, Int.toNat_one] at hdiv
        by_cases hM : 0 < cfg.MAX_ORDER
        · rw [divide_loop_one _ cfg b 0 _ 0 hM] at hdiv
          injection hdiv with hdiv
          rw [← hdiv]
          apply hfin
          apply wellformed_enqueue cfg _ b 0 hwf1 hused1
          rw [hsize1, hmul]
          simp
        · have h0 : is_round_base2 0 = false := by decide
          rw [vmspace_divide_loop] at hdiv
          simp [h0, Nat.eq_zero_of_not_pos hM] at hdiv
    · obtain ⟨h1, h2, h3⟩ := free_divide_step cfg s s' b n hP hwf hnb hn hmul hdiv
      exact ⟨h1, h2, Or.inl h3⟩
  · rw [hs']
    exact hfin _ hwf1

/-- The invariant behind C2: the used descriptors never overlap, and either slot 0 of
the pool is not claimable or the zone is still well-formed. -/
theorem reachable_invariant (cfg : Config) (s0 s : State) (hP : 0 < cfg.PAGE_SIZE)
    (hwf : WellFormed cfg s0) (hr : Reachable cfg s0 s) :
    s.index = 0 ∧ UsedDisjoint s ∧ (PoolBlocked cfg s ∨ WellFormed cfg s) := by
  induction hr with
  | init => exact ⟨hwf.index_zero, used_disjoint_of_all s0 hwf.disjoint, Or.inr hwf⟩
  | alloc s s' size res _ hstep ih =>
    obtain ⟨hidx, hud, hphase⟩ := ih
    by_cases hb : PoolBlocked cfg s
    · exact absurd hstep (alloc_blocked cfg s s' size res hidx hb)
    · rcases hphase with hb' | hwf'
      · exact absurd hb' hb
      · obtain ⟨h1, h2, h3⟩ := alloc_wellformed_step cfg s s' size res hP hwf' hb hstep
        exact ⟨h1, h3, Or.inl h2⟩
  | free s s' fuel b _ hstep ih =>
    obtain ⟨hidx, hud, hphase⟩ := ih
    by_cases hb : PoolBlocked cfg s
    · obtain ⟨h1, h2, h3⟩ := free_blocked cfg fuel s s' b hidx hb hstep
      exact ⟨h2, used_disjoint_of_clear s s' b hud h1, Or.inl h3⟩
    · rcases hphase with hb' | hwf'
      · exact absurd hb' hb
      · exact free_wellformed_step cfg fuel s s' b hP hwf' hb hstep

/-- The zone `zone_misfiled` has pairwise disjoint descriptors. -/
theorem zone_misfiled_disjoint : AllDisjoint zone_misfiled := by
  intro x y hxy hov
  unfold vmspace.overlaps at hov
  simp only [zone_misfiled, blk4096, vmspace.zero] at hov
  split_ifs at hov <;> simp_all

/-- The zone `zone_with_neighbour` is well-formed. -/
theorem zone_with_neighbour_wellformed : WellFormed cfg4096 zone_with_neighbour := by
  refine ⟨rfl, ?_, by decide, by decide, ?_⟩
  · intro x y hxy hov
    unfold vmspace.overlaps at hov
    simp only [zone_with_neighbour, blk4096, vmspace.zero] at hov
    split_ifs at hov <;> simp_all
  · intro x
    simp only [zone_with_neighbour, blk4096, vmspace.zero, cfg4096]
    split_ifs <;> norm_num


/-- The branch of lines 232-236: with `PAGE_SIZE` a power of two, freeing a block of
`2 ^ k` pages whose buddy successor is absent or used returns, and the block, its
`vm_used` cleared, goes to the head of bucket `k`, whose count grows by one. -/
theorem vmspace_free_power_of_two (cfg : Config) (fuel : Nat) (s : State) (b : Ref) (k a : Nat)
    (hPa : cfg.PAGE_SIZE = 2 ^ a) (hk : k < cfg.MAX_ORDER)
    (hsize : (s.mem b).vm_present_size = 2 ^ k * cfg.PAGE_SIZE)
    (hsucc : (s.mem b).vm_buddy_next = none ∨
      ∃ nxt, (s.mem b).vm_buddy_next = some nxt ∧ nxt ≠ b ∧ (s.mem nxt).vm_used ≠ 0) :
    vmspace_free cfg fuel s b =
      .ok (((s.setMem b { s.mem b with vm_used := 0 }).incr_nr k).LIST_INSERT_HEAD k b) := by
  have hP : 0 < cfg.PAGE_SIZE := by rw [hPa]; positivity
  have hpow : is_round_base2 ((s.mem b).vm_present_size : Int) = true := by
    rw [is_round_base2_natCast]
    exact ⟨k + a, by rw [hsize, hPa, pow_add]⟩
  have hord : get_order_base2 cfg (s.mem b).vm_present_size = k := by
    rw [hsize]; exact get_order_base2_pow cfg hP k
  unfold vmspace_free vmspace_free_with
  simp only [hpow, hord, if_true, if_neg (Nat.not_le.mpr hk)]
  rcases hsucc with hnone | ⟨nxt, hnxt, hne, hused⟩
  · simp [hnone]
  · simp [hnxt, hne, hused]

/-! ## The grant against the order of the request -/

/-- The pages needed to hold `size` bytes, as `get_order_base2` counts them. -/
theorem pages_needed_eq (P size : Nat) (hP : 0 < P) :
    (size + P - 1) / P = size / P + (if size % P = 0 then 0 else 1) := by
  have h1 := Nat.div_add_mod size P
  have h2 := Nat.mod_lt size hP
  split_ifs with h0
  · have hs : size + P - 1 = (P - 1) + P * (size / P) := by
      rw [h0] at h1; omega
    rw [hs, Nat.add_mul_div_left _ _ hP, Nat.div_eq_of_lt (by omega)]
    omega
  · have hs : size + P - 1 = (size % P + P - 1) + P * (size / P) := by omega
    rw [hs, Nat.add_mul_div_left _ _ hP]
    have : (size % P + P - 1) / P = 1 := by
      apply Nat.div_eq_of_lt_le
      · omega
      · omega
    omega

/-- The order covers the pages needed: `pages ≤ 2 ^ order`. -/
theorem pages_needed_le_pow_order (cfg : Config) (size : Nat) :
    (size + cfg.PAGE_SIZE - 1) / cfg.PAGE_SIZE ≤ 2 ^ get_order_base2 cfg size := by
  unfold get_order_base2
  simp only
  split_ifs with h1
  · simpa using h1
  · rw [round_base2_natCast]
    have := Nat.lt_pow_succ_log_self (b := 2) (by norm_num)
      ((size + cfg.PAGE_SIZE - 1) / cfg.PAGE_SIZE - 1)
    omega

/-- When the grant fits a block of the order of the request: always, except for a
positive whole number of pages that is a power of two. -/
theorem grant_fits_iff (cfg : Config) (size : Nat) (hP : 0 < cfg.PAGE_SIZE) :
    size / cfg.PAGE_SIZE + 1 ≤ 2 ^ get_order_base2 cfg size ↔
      ¬ (cfg.PAGE_SIZE ∣ size ∧ ∃ e : Nat, size / cfg.PAGE_SIZE = 2 ^ e) := by
  have hpages := pages_needed_eq cfg.PAGE_SIZE size hP
  have hle := pages_needed_le_pow_order cfg size
  constructor
  · rintro h ⟨hd, e, he⟩
    have hsz : size = 2 ^ e * cfg.PAGE_SIZE := by
      rw [← he]; exact (Nat.div_mul_cancel hd).symm
    have hk := get_order_base2_pow cfg hP e
    rw [← hsz] at hk
    rw [hk, he] at h
    omega
  · intro hnot
    by_cases h0 : size % cfg.PAGE_SIZE = 0
    · rw [if_pos h0] at hpages
      rw [hpages] at hle
      have hd : cfg.PAGE_SIZE ∣ size := Nat.dvd_of_mod_eq_zero h0
      have hne : size / cfg.PAGE_SIZE ≠ 2 ^ get_order_base2 cfg size :=
        fun heq => hnot ⟨hd, _, heq⟩
      omega
    · rw [if_neg h0] at hpages
      rw [hpages] at hle
      exact hle

/-- The grant of `grant_block` moves the start of the source as lines 134-138 do in the
build without flags. -/
theorem grant_block_source_start (cfg : Config) (s : State) (res src : Ref) (size : Nat)
    (hne : res ≠ src) :
    (((grant_block cfg s res src size).mem src).vm_start : Int) =
      source_start_after_grant build_default (s.mem src).vm_start
        ((size / cfg.PAGE_SIZE + 1 : Nat) : Int) cfg.PAGE_SIZE := by
  rw [(grant_block_source cfg s res src size hne).1]
  simp [source_start_after_grant, build_default]

/-- A chunk of `divide_chunk` starts where lines 172-176 put it in the build without
flags. -/
theorem divide_chunk_new_start (cfg : Config) (s : State) (src nn : Ref) (rp : Int) (pc : Nat)
    (hne : nn ≠ src) :
    (((divide_chunk cfg s src nn rp (pc : Int)).mem nn).vm_start : Int) =
      chunk_start build_default (s.mem src).vm_start cfg.PAGE_SIZE pc := by
  rw [(divide_chunk_new cfg s src nn rp pc hne).1]
  simp [chunk_start, build_default]


/-! ## How the calls stop -/

/-- The only way `find_a_vaild_vmspace` stops is by never returning. -/
theorem find_loop_error (cfg : Config) (mem : Ref → vmspace) (fuel index : Nat) (e : Stop)
    (h : find_a_vaild_vmspace_loop cfg mem fuel index = .error e) : e = .hang := by
  induction fuel generalizing index with
  | zero =>
    simp only [find_a_vaild_vmspace_loop] at h
    injection h with h
    exact h.symm
  | succ f ih =>
    rw [find_a_vaild_vmspace_loop] at h
    split_ifs at h with h1 h2
    · exact ih 0 h
    · exact ih index h

theorem find_error (cfg : Config) (s : State) (e : Stop)
    (h : find_a_vaild_vmspace cfg s = .error e) : e = .hang := by
  unfold find_a_vaild_vmspace at h
  cases hl : find_a_vaild_vmspace_loop cfg s.mem 2 s.index with
  | error e' =>
    rw [hl] at h
    injection h with h
    subst h
    exact find_loop_error cfg s.mem 2 s.index e' hl
  | ok p =>
    rw [hl] at h
    simp at h

/-- The loop of `vmspace_divide` stops by never returning or by a fault: it calls no
`panic`. -/
theorem divide_loop_error (cfg : Config) (src : Ref) (fuel : Nat) :
    ∀ (s : State) (r pc : Int) (e : Stop),
      vmspace_divide_loop (find_a_vaild_vmspace cfg) cfg src fuel s r pc = .error e →
      e = .hang ∨ e = .fault := by
  induction fuel with
  | zero =>
    intro s r pc e h
    simp only [vmspace_divide_loop] at h
    injection h with h
    exact Or.inl h.symm
  | succ f ih =>
    intro s r pc e h
    rw [vmspace_divide_loop] at h
    by_cases hr : r = 0
    · rw [if_pos hr] at h; simp at h
    · rw [if_neg hr] at h
      simp only at h
      by_cases hp : is_round_base2 (r - 1) = true
      · rw [if_pos hp] at h
        cases hfind : find_a_vaild_vmspace cfg s with
        | error e' =>
          rw [hfind] at h
          injection h with h
          subst h
          exact Or.inl (find_error cfg s e' hfind)
        | ok p =>
          obtain ⟨nn, sA⟩ := p
          rw [hfind] at h
          simp only at h
          by_cases hord : cfg.MAX_ORDER ≤ round_base2 (r - 1)
          · rw [if_pos hord] at h
            injection h with h
            exact Or.inr h.symm
          · rw [if_neg hord] at h
            exact ih _ _ _ e h
      · rw [if_neg hp] at h
        by_cases hr1 : r - 1 = 0
        · rw [if_pos hr1] at h
          by_cases hM : cfg.MAX_ORDER ≤ 0
          · rw [if_pos hM] at h
            injection h with h
            exact Or.inr h.symm
          · rw [if_neg hM] at h
            exact ih _ _ _ e h
        · rw [if_neg hr1] at h
          exact ih _ _ _ e h

/-- Function `vmspace_node_select_and_divide` stops by never returning or by a fault:
it calls no `panic`. -/
theorem select_and_divide_error (cfg : Config) (s : State) (node : Nat) (order : Int)
    (size : Nat) (e : Stop)
    (h : vmspace_node_select_and_divide cfg s node order size = .error e) :
    e = .hang ∨ e = .fault := by
  unfold vmspace_node_select_and_divide vmspace_node_select_and_divide_with at h
  cases hfind : find_a_vaild_vmspace cfg s with
  | error e' =>
    rw [hfind] at h
    injection h with h
    subst h
    exact Or.inl (find_error cfg s e' hfind)
  | ok p =>
    obtain ⟨r, sf⟩ := p
    rw [hfind] at h
    simp only at h
    cases hl : (sf.zone_nodes node).node_vmspace with
    | nil =>
      rw [hl] at h
      injection h with h
      exact Or.inr h.symm
    | cons src rest =>
      rw [hl] at h
      simp only at h
      split_ifs at h with hp hord
      · injection h with h
        exact Or.inr h.symm
      · cases hdiv : vmspace_divide_with (find_a_vaild_vmspace cfg) cfg
            (grant_block cfg (sf.LIST_REMOVE_HEAD node rest) r src size) src
            (reserve_pages_at order ((size / cfg.PAGE_SIZE + 1 : Nat) : Int)) with
        | error e' =>
          rw [hdiv] at h
          injection h with h
          subst h
          exact divide_loop_error cfg src _ _ _ _ e' hdiv
        | ok sd =>
          rw [hdiv] at h
          simp at h

/-- The `while(1)` loop of `_vmspace_alloc_wait` stops only by never ending. -/
theorem wait_loop_error (cfg : Config) (env : State → State) (old_order fuel : Nat) :
    ∀ (s : State) (order present_node : Nat) (e : Stop),
      vmspace_alloc_wait_loop cfg env old_order fuel s order present_node = .error e →
      e = .hang := by
  induction fuel with
  | zero =>
    intro s order pn e h
    simp only [vmspace_alloc_wait_loop] at h
    injection h with h
    exact h.symm
  | succ f ih =>
    intro s order pn e h
    rw [vmspace_alloc_wait_loop] at h
    split_ifs at h with h1
    exact ih _ _ _ e h

/-- Forgetting the zone of its panics, `_vmspace_alloc_abort` is `_vmspace_alloc`. -/
theorem _vmspace_alloc_abort_erase (cfg : Config) (s : State) (order : Int) (size : Nat) :
    (match _vmspace_alloc_abort cfg s order size with
      | .error a => .error a.erase
      | .ok p => .ok p) = _vmspace_alloc cfg s order size := by
  unfold _vmspace_alloc_abort _vmspace_alloc _vmspace_alloc_with
  by_cases h1 : order ≥ cfg.MAX_ORDER ∨ order < 0
  · simp only [if_pos h1]; rfl
  · simp only [if_neg h1]
    by_cases h2 : (vmspace_alloc_scan cfg s (cfg.MAX_ORDER + 1) order.toNat order.toNat).1
        = cfg.MAX_ORDER
    · simp only [if_pos h2]; rfl
    · simp only [if_neg h2]
      unfold vmspace_node_select_and_divide
      cases vmspace_node_select_and_divide_with (find_a_vaild_vmspace cfg) cfg s
          (vmspace_alloc_scan cfg s (cfg.MAX_ORDER + 1) order.toNat order.toNat).2
          ((vmspace_alloc_scan cfg s (cfg.MAX_ORDER + 1) order.toNat order.toNat).1 : Int)
          size with
      | error e => rfl
      | ok p => rfl

/-! ## The zone lock -/

@[simp] theorem incr_nr_zone_lock (s : State) (k : Nat) :
    (s.incr_nr k).zone_lock = s.zone_lock := rfl

@[simp] theorem insert_head_zone_lock (s : State) (k : Nat) (x : Ref) :
    (s.LIST_INSERT_HEAD k x).zone_lock = s.zone_lock := rfl

@[simp] theorem insert_after_zone_lock (s : State) (a b : Ref) :
    (s.LIST_INSERT_AFTER a b).zone_lock = s.zone_lock := by
  unfold State.LIST_INSERT_AFTER
  cases (s.mem a).vm_buddy_next <;> rfl

@[simp] theorem insert_before_zone_lock (s : State) (a b : Ref) :
    (s.LIST_INSERT_BEFORE a b).zone_lock = s.zone_lock := by
  unfold State.LIST_INSERT_BEFORE
  cases (s.mem a).vm_buddy_prev <;> rfl

@[simp] theorem divide_chunk_zone_lock (cfg : Config) (s : State) (src nn : Ref) (rp pc : Int) :
    (divide_chunk cfg s src nn rp pc).zone_lock = s.zone_lock := by
  unfold divide_chunk
  simp

@[simp] theorem divide_last_zone_lock (s : State) (src : Ref) :
    (divide_last s src).zone_lock = s.zone_lock := rfl

/-- The loop of `vmspace_divide` never touches the zone lock. -/
theorem divide_loop_zone_lock (cfg : Config) (src : Ref) (fuel : Nat) :
    ∀ (s s' : State) (r pc : Int),
      vmspace_divide_loop (find_a_vaild_vmspace cfg) cfg src fuel s r pc = .ok s' →
      s'.zone_lock = s.zone_lock := by
  induction fuel with
  | zero => intro s s' r pc h; simp [vmspace_divide_loop] at h
  | succ f ih =>
    intro s s' r pc h
    rw [vmspace_divide_loop] at h
    by_cases hr : r = 0
    · rw [if_pos hr] at h
      injection h with h; subst h; rfl
    · rw [if_neg hr] at h
      simp only at h
      by_cases hp : is_round_base2 (r - 1) = true
      · rw [if_pos hp] at h
        cases hfind : find_a_vaild_vmspace cfg s with
        | error e => rw [hfind] at h; simp at h
        | ok p =>
          obtain ⟨nn, sA⟩ := p
          rw [hfind] at h
          simp only at h
          by_cases hord : cfg.MAX_ORDER ≤ round_base2 (r - 1)
          · rw [if_pos hord] at h; simp at h
          · rw [if_neg hord] at h
            obtain ⟨_, _, _, _, hlock, _⟩ := find_ok cfg s sA nn hfind
            rw [ih _ s' _ _ h, divide_chunk_zone_lock, hlock]
      · rw [if_neg hp] at h
        by_cases hr1 : r - 1 = 0
        · rw [if_pos hr1] at h
          by_cases hM : cfg.MAX_ORDER ≤ 0
          · rw [if_pos hM] at h; simp at h
          · rw [if_neg hM] at h
            rw [ih (divide_last s src) s' _ _ h, divide_last_zone_lock]
        · rw [if_neg hr1] at h
          exact ih s s' _ _ h

/-- Function `vmspace_free` never touches the zone lock: it returns with the lock as it
found it, and every state it passes through has that same lock value. -/
theorem vmspace_free_keeps_zone_lock (cfg : Config) (fuel : Nat) (s s' : State) (b : Ref)
    (h : vmspace_free cfg fuel s b = .ok s') : s'.zone_lock = s.zone_lock := by
  rcases vmspace_free_ok cfg fuel s s' b h with ⟨_, _, hs'⟩ | ⟨_, hdiv⟩ | hs'
  · rw [hs']; rfl
  · unfold vmspace_divide vmspace_divide_with at hdiv
    rw [divide_loop_zone_lock cfg b _ _ s' _ _ hdiv]
    rfl
  · rw [hs']; rfl

/-! ## The zone invariant under grants and releases, on any supply of free descriptors -/

/-- A descriptor whose `vm_present_size` is 0 is neither used nor enqueued. -/
theorem fresh_not_held (cfg : Config) (s : State) (hP : 0 < cfg.PAGE_SIZE) (hz : ZoneInv cfg s)
    (r : Ref) (hfresh : (s.mem r).vm_present_size = 0) :
    (s.mem r).vm_used = 0 ∧ ∀ k, k < cfg.MAX_ORDER → r ∉ (s.zone_nodes k).node_vmspace := by
  constructor
  · by_contra h
    exact (hz.used_size r h).2.1 hfresh
  · intro k hk hmem
    have h1 := (hz.enq_size k r hk hmem).1
    have h2 : 0 < 2 ^ k * cfg.PAGE_SIZE := Nat.mul_pos (by positivity) hP
    omega

/-- Peeling a chunk keeps the block in transit: the new descriptor stands for the last
`c` pages of the run, the source for the `k` pages before them. -/
theorem in_transit_chunk (cfg : Config) (s s2 : State) (src nn : Ref) (n c k L : Nat)
    (hP : 0 < cfg.PAGE_SIZE) (hlim : InTransit cfg s src n)
    (hfresh : (s.mem nn).vm_present_size = 0) (hc : c = 2 ^ L) (hn : c + k = n)
    (hl : ∀ j, (s2.zone_nodes j).node_vmspace =
      if j = L then nn :: (s.zone_nodes j).node_vmspace else (s.zone_nodes j).node_vmspace)
    (hnn : (s2.mem nn).vm_start = (s.mem src).vm_start + cfg.PAGE_SIZE * k ∧
      (s2.mem nn).vm_present_size = c * cfg.PAGE_SIZE ∧
      (s2.mem nn).vm_used = (s.mem nn).vm_used)
    (hsrc : (s2.mem src).vm_start = (s.mem src).vm_start ∧
      (s2.mem src).vm_present_size = (s.mem src).vm_present_size - c * cfg.PAGE_SIZE ∧
      (s2.mem src).vm_used = (s.mem src).vm_used)
    (hoth : ∀ x, x ≠ src → x ≠ nn → (s2.mem x).vm_start = (s.mem x).vm_start ∧
      (s2.mem x).vm_present_size = (s.mem x).vm_present_size ∧
      (s2.mem x).vm_used = (s.mem x).vm_used) :
    InTransit cfg s2 src k := by
  have hcpos : 0 < c := by rw [hc]; positivity
  obtain ⟨hnn_unused, hnn_notenq⟩ := fresh_not_held cfg s hP hlim.zone nn hfresh
  have hsz := hlim.size
  have e1 : n * cfg.PAGE_SIZE = c * cfg.PAGE_SIZE + k * cfg.PAGE_SIZE := by
    rw [← hn, Nat.add_mul]
  have e2 : cfg.PAGE_SIZE * k = k * cfg.PAGE_SIZE := Nat.mul_comm _ _
  have hcP : 0 < c * cfg.PAGE_SIZE := Nat.mul_pos hcpos hP
  have hnn_ne : nn ≠ src := by
    intro h; subst h; omega
  have hmem2 : ∀ j x, x ∈ (s2.zone_nodes j).node_vmspace ↔
      (j = L ∧ x = nn) ∨ x ∈ (s.zone_nodes j).node_vmspace := by
    intro j x
    rw [hl]
    split_ifs with h <;> simp [h]
  have hold : ∀ j x, j < cfg.MAX_ORDER → x ∈ (s.zone_nodes j).node_vmspace →
      x ≠ src ∧ x ≠ nn := by
    intro j x hj hx
    exact ⟨fun h => hlim.not_enq j hj (h ▸ hx), fun h => hnn_notenq j hj (h ▸ hx)⟩
  have hholds : ∀ y m, Holds cfg s2 y m →
      (y = nn ∧ m = c * cfg.PAGE_SIZE) ∨ (y ≠ nn ∧ y ≠ src ∧ Holds cfg s y m) := by
    intro y m h
    by_cases hy : y = nn
    · subst hy
      left
      refine ⟨rfl, ?_⟩
      rcases h with ⟨hu, _⟩ | ⟨j, hj, hmem, hm⟩
      · rw [hnn.2.2] at hu; exact absurd hnn_unused hu
      · rcases (hmem2 j y).mp hmem with ⟨hjL, _⟩ | hmem'
        · rw [hm, hjL, hc]
        · exact absurd hmem' (hnn_notenq j hj)
    · by_cases hy2 : y = src
      · subst hy2
        rcases h with ⟨hu, _⟩ | ⟨j, hj, hmem, hm⟩
        · rw [hsrc.2.2] at hu; exact absurd hlim.not_used hu
        · rcases (hmem2 j y).mp hmem with ⟨_, h'⟩ | hmem'
          · exact absurd h' hy
          · exact absurd hmem' (hlim.not_enq j hj)
      · right
        refine ⟨hy, hy2, ?_⟩
        obtain ⟨h1, h2, h3⟩ := hoth y hy2 hy
        rcases h with ⟨hu, hm⟩ | ⟨j, hj, hmem, hm⟩
        · left; rw [h3] at hu; rw [h2] at hm; exact ⟨hu, hm⟩
        · right
          rcases (hmem2 j y).mp hmem with ⟨_, h'⟩ | hmem'
          · exact absurd h' hy
          · exact ⟨j, hj, hmem', hm⟩
  have hzone : ZoneInv cfg s2 := by
    constructor
    · intro j hj
      rw [hl]
      split_ifs with h
      · exact List.nodup_cons.mpr ⟨hnn_notenq j hj, hlim.zone.nodup j hj⟩
      · exact hlim.zone.nodup j hj
    · intro i j x hi hj hxi hxj
      rcases (hmem2 i x).mp hxi with ⟨hiL, hx⟩ | hxi'
      · rcases (hmem2 j x).mp hxj with ⟨hjL, _⟩ | hxj'
        · rw [hiL, hjL]
        · exact absurd (hx ▸ hxj') (hnn_notenq j hj)
      · rcases (hmem2 j x).mp hxj with ⟨hjL, hx⟩ | hxj'
        · exact absurd (hx ▸ hxi') (hnn_notenq i hi)
        · exact hlim.zone.one_bucket i j x hi hj hxi' hxj'
    · intro j x hj hx
      rcases (hmem2 j x).mp hx with ⟨_, hx'⟩ | hx'
      · rw [hx', hnn.2.2]; exact hnn_unused
      · obtain ⟨h1, h2⟩ := hold j x hj hx'
        rw [(hoth x h1 h2).2.2]
        exact hlim.zone.enq_free j x hj hx'
    · intro j x hj hx
      rcases (hmem2 j x).mp hx with ⟨hjL, hx'⟩ | hx'
      · rw [hx', hnn.2.1, hjL, ← hc]
        omega
      · obtain ⟨h1, h2⟩ := hold j x hj hx'
        rw [(hoth x h1 h2).2.1]
        exact hlim.zone.enq_size j x hj hx'
    · intro x hu
      have hx1 : x ≠ nn := by
        intro h; rw [h, hnn.2.2] at hu; exact hu hnn_unused
      have hx2 : x ≠ src := by
        intro h; rw [h, hsrc.2.2] at hu; exact hu hlim.not_used
      rw [(hoth x hx2 hx1).2.2] at hu
      rw [(hoth x hx2 hx1).2.1]
      exact hlim.zone.used_size x hu
    · intro x y m m' hxy hx hy
      rcases hholds x m hx with ⟨hx1, hxm⟩ | ⟨hx1, hx2, hx3⟩
      · rcases hholds y m' hy with ⟨hy1, _⟩ | ⟨hy1, hy2, hy3⟩
        · exact absurd (hx1.trans hy1.symm) hxy
        · have := hlim.apart y m' hy3
          rw [hx1, hnn.1, hxm, (hoth y hy2 hy1).1]
          unfold ranges_apart at this ⊢
          omega
      · rcases hholds y m' hy with ⟨hy1, hym⟩ | ⟨hy1, hy2, hy3⟩
        · have := hlim.apart x m hx3
          rw [hy1, hnn.1, hym, (hoth x hx2 hx1).1]
          unfold ranges_apart at this ⊢
          omega
        · rw [(hoth x hx2 hx1).1, (hoth y hy2 hy1).1]
          exact hlim.zone.apart x y m m' hxy hx3 hy3
  refine ⟨hzone, ?_, ?_, ?_, ?_⟩
  · intro j hj hmem
    rcases (hmem2 j src).mp hmem with ⟨_, h⟩ | h
    · exact hnn_ne h.symm
    · exact hlim.not_enq j hj h
  · rw [hsrc.2.2]; exact hlim.not_used
  · rw [hsrc.2.1]; omega
  · intro y m hy
    rw [hsrc.1]
    rcases hholds y m hy with ⟨hy1, hym⟩ | ⟨hy1, hy2, hy3⟩
    · rw [hy1, hnn.1, hym]
      unfold ranges_apart
      omega
    · have := hlim.apart y m hy3
      rw [(hoth y hy2 hy1).1]
      unfold ranges_apart at this ⊢
      omega

/-- Enqueuing a block in transit in a bucket whose `2 ^ m` pages it covers restores the
zone invariant. -/
theorem in_transit_enqueue (cfg : Config) (s s2 : State) (src : Ref) (n m : Nat)
    (hlim : InTransit cfg s src n) (hm : 2 ^ m ≤ n)
    (hl : ∀ j, (s2.zone_nodes j).node_vmspace =
      if j = m then src :: (s.zone_nodes j).node_vmspace else (s.zone_nodes j).node_vmspace)
    (hgeom : ∀ x, (s2.mem x).vm_start = (s.mem x).vm_start ∧
      (s2.mem x).vm_present_size = (s.mem x).vm_present_size ∧
      (s2.mem x).vm_used = (s.mem x).vm_used) :
    ZoneInv cfg s2 := by
  have hsz := hlim.size
  have hmP : 2 ^ m * cfg.PAGE_SIZE ≤ n * cfg.PAGE_SIZE := Nat.mul_le_mul_right _ hm
  have hmem2 : ∀ j x, x ∈ (s2.zone_nodes j).node_vmspace ↔
      (j = m ∧ x = src) ∨ x ∈ (s.zone_nodes j).node_vmspace := by
    intro j x
    rw [hl]
    split_ifs with h <;> simp [h]
  have hholds : ∀ y b, Holds cfg s2 y b →
      (y = src ∧ b = 2 ^ m * cfg.PAGE_SIZE) ∨ (y ≠ src ∧ Holds cfg s y b) := by
    intro y b h
    by_cases hy : y = src
    · subst hy
      left
      refine ⟨rfl, ?_⟩
      rcases h with ⟨hu, _⟩ | ⟨j, hj, hmem, hb⟩
      · rw [(hgeom y).2.2] at hu; exact absurd hlim.not_used hu
      · rcases (hmem2 j y).mp hmem with ⟨hjm, _⟩ | hmem'
        · rw [hb, hjm]
        · exact absurd hmem' (hlim.not_enq j hj)
    · right
      refine ⟨hy, ?_⟩
      rcases h with ⟨hu, hb⟩ | ⟨j, hj, hmem, hb⟩
      · left; rw [(hgeom y).2.2] at hu; rw [(hgeom y).2.1] at hb; exact ⟨hu, hb⟩
      · right
        rcases (hmem2 j y).mp hmem with ⟨_, h'⟩ | hmem'
        · exact absurd h' hy
        · exact ⟨j, hj, hmem', hb⟩
  constructor
  · intro j hj
    rw [hl]
    split_ifs with h
    · exact List.nodup_cons.mpr ⟨hlim.not_enq j hj, hlim.zone.nodup j hj⟩
    · exact hlim.zone.nodup j hj
  · intro i j x hi hj hxi hxj
    rcases (hmem2 i x).mp hxi with ⟨hiL, hx⟩ | hxi'
    · rcases (hmem2 j x).mp hxj with ⟨hjL, _⟩ | hxj'
      · rw [hiL, hjL]
      · exact absurd (hx ▸ hxj') (hlim.not_enq j hj)
    · rcases (hmem2 j x).mp hxj with ⟨hjL, hx⟩ | hxj'
      · exact absurd (hx ▸ hxi') (hlim.not_enq i hi)
      · exact hlim.zone.one_bucket i j x hi hj hxi' hxj'
  · intro j x hj hx
    rw [(hgeom x).2.2]
    rcases (hmem2 j x).mp hx with ⟨_, hx'⟩ | hx'
    · rw [hx']; exact hlim.not_used
    · exact hlim.zone.enq_free j x hj hx'
  · intro j x hj hx
    rw [(hgeom x).2.1]
    rcases (hmem2 j x).mp hx with ⟨hjm, hx'⟩ | hx'
    · rw [hx', hjm]; omega
    · exact hlim.zone.enq_size j x hj hx'
  · intro x hu
    rw [(hgeom x).2.2] at hu
    rw [(hgeom x).2.1]
    exact hlim.zone.used_size x hu
  · intro x y b b' hxy hx hy
    rw [(hgeom x).1, (hgeom y).1]
    rcases hholds x b hx with ⟨hx1, hxb⟩ | ⟨hx1, hx3⟩
    · rcases hholds y b' hy with ⟨hy1, _⟩ | ⟨hy1, hy3⟩
      · exact absurd (hx1.trans hy1.symm) hxy
      · have := hlim.apart y b' hy3
        rw [hx1, hxb]
        unfold ranges_apart at this ⊢
        omega
    · rcases hholds y b' hy with ⟨hy1, hyb⟩ | ⟨hy1, hy3⟩
      · have := hlim.apart x b hx3
        rw [hy1, hyb]
        unfold ranges_apart at this ⊢
        omega
      · exact hlim.zone.apart x y b b' hxy hx3 hy3

/-- Taking the head of bucket `k` for a grant of `t` pages leaves the rest of its
`2 ^ k` pages in transit: the granted descriptor stands for the first `t` pages, the
source for the `n` pages after them. -/
theorem in_transit_grant (cfg : Config) (s s2 : State) (src res : Ref) (rest : List Ref)
    (k t n : Nat) (hP : 0 < cfg.PAGE_SIZE) (hz : ZoneInv cfg s) (hk : k < cfg.MAX_ORDER)
    (hhead : (s.zone_nodes k).node_vmspace = src :: rest)
    (hfresh : (s.mem res).vm_present_size = 0) (ht : 1 ≤ t) (hn : t + n = 2 ^ k)
    (hl : ∀ j, (s2.zone_nodes j).node_vmspace =
      if j = k then rest else (s.zone_nodes j).node_vmspace)
    (hres : (s2.mem res).vm_start = (s.mem src).vm_start ∧
      (s2.mem res).vm_present_size = t * cfg.PAGE_SIZE ∧ (s2.mem res).vm_used = 1)
    (hsrc : (s2.mem src).vm_start = (s.mem src).vm_start + t * cfg.PAGE_SIZE ∧
      (s2.mem src).vm_present_size = (s.mem src).vm_present_size ∧
      (s2.mem src).vm_used = (s.mem src).vm_used)
    (hoth : ∀ x, x ≠ res → x ≠ src → (s2.mem x).vm_start = (s.mem x).vm_start ∧
      (s2.mem x).vm_present_size = (s.mem x).vm_present_size ∧
      (s2.mem x).vm_used = (s.mem x).vm_used) :
    InTransit cfg s2 src n := by
  obtain ⟨hres_unused, hres_notenq⟩ := fresh_not_held cfg s hP hz res hfresh
  have hsrc_mem : src ∈ (s.zone_nodes k).node_vmspace := by rw [hhead]; simp
  have hsrc_free := hz.enq_free k src hk hsrc_mem
  have hsrc_size := hz.enq_size k src hk hsrc_mem
  have hres_ne : res ≠ src := fun h => hres_notenq k hk (h ▸ hsrc_mem)
  have hnd := hz.nodup k hk
  rw [hhead, List.nodup_cons] at hnd
  have e1 : 2 ^ k * cfg.PAGE_SIZE = t * cfg.PAGE_SIZE + n * cfg.PAGE_SIZE := by
    rw [← hn, Nat.add_mul]
  have htP : 0 < t * cfg.PAGE_SIZE := Nat.mul_pos (by omega) hP
  have hsrc_holds : Holds cfg s src (2 ^ k * cfg.PAGE_SIZE) := Or.inr ⟨k, hk, hsrc_mem, rfl⟩
  have hmem2 : ∀ j x, j < cfg.MAX_ORDER → (x ∈ (s2.zone_nodes j).node_vmspace ↔
      x ≠ src ∧ x ∈ (s.zone_nodes j).node_vmspace) := by
    intro j x hj
    rw [hl]
    split_ifs with h
    · subst h
      rw [hhead]
      constructor
      · intro hx
        exact ⟨fun h => hnd.1 (h ▸ hx), List.mem_cons_of_mem _ hx⟩
      · rintro ⟨hx1, hx2⟩
        rcases List.mem_cons.mp hx2 with h | h
        · exact absurd h hx1
        · exact h
    · constructor
      · intro hx
        refine ⟨fun hxs => h ?_, hx⟩
        exact hz.one_bucket j k src hj hk (hxs ▸ hx) hsrc_mem
      · exact fun hx => hx.2
  have hholds : ∀ y b, Holds cfg s2 y b →
      (y = res ∧ b = t * cfg.PAGE_SIZE) ∨ (y ≠ res ∧ y ≠ src ∧ Holds cfg s y b) := by
    intro y b h
    by_cases hy : y = res
    · subst hy
      left
      refine ⟨rfl, ?_⟩
      rcases h with ⟨_, hb⟩ | ⟨j, hj, hmem, _⟩
      · rw [hb, hres.2.1]
      · exact absurd ((hmem2 j y hj).mp hmem).2 (hres_notenq j hj)
    · by_cases hy2 : y = src
      · subst hy2
        rcases h with ⟨hu, _⟩ | ⟨j, hj, hmem, _⟩
        · rw [hsrc.2.2] at hu; exact absurd hsrc_free hu
        · exact absurd rfl ((hmem2 j y hj).mp hmem).1
      · right
        refine ⟨hy, hy2, ?_⟩
        obtain ⟨h1, h2, h3⟩ := hoth y hy hy2
        rcases h with ⟨hu, hb⟩ | ⟨j, hj, hmem, hb⟩
        · left; rw [h3] at hu; rw [h2] at hb; exact ⟨hu, hb⟩
        · right
          exact ⟨j, hj, ((hmem2 j y hj).mp hmem).2, hb⟩
  have hzone : ZoneInv cfg s2 := by
    constructor
    · intro j hj
      rw [hl]
      split_ifs with h
      · exact hnd.2
      · exact hz.nodup j hj
    · intro i j x hi hj hxi hxj
      exact hz.one_bucket i j x hi hj ((hmem2 i x hi).mp hxi).2 ((hmem2 j x hj).mp hxj).2
    · intro j x hj hx
      obtain ⟨hx1, hx2⟩ := (hmem2 j x hj).mp hx
      have hx3 : x ≠ res := fun h => hres_notenq j hj (h ▸ hx2)
      rw [(hoth x hx3 hx1).2.2]
      exact hz.enq_free j x hj hx2
    · intro j x hj hx
      obtain ⟨hx1, hx2⟩ := (hmem2 j x hj).mp hx
      have hx3 : x ≠ res := fun h => hres_notenq j hj (h ▸ hx2)
      rw [(hoth x hx3 hx1).2.1]
      exact hz.enq_size j x hj hx2
    · intro x hu
      by_cases hx : x = res
      · rw [hx, hres.2.1]
        exact ⟨Dvd.intro_left _ rfl, by omega, by omega⟩
      · have hx2 : x ≠ src := by
          intro h; rw [h, hsrc.2.2] at hu; exact hu hsrc_free
        rw [(hoth x hx hx2).2.2] at hu
        rw [(hoth x hx hx2).2.1]
        exact hz.used_size x hu
    · intro x y b b' hxy hx hy
      rcases hholds x b hx with ⟨hx1, hxb⟩ | ⟨hx1, hx2, hx3⟩
      · rcases hholds y b' hy with ⟨hy1, _⟩ | ⟨hy1, hy2, hy3⟩
        · exact absurd (hx1.trans hy1.symm) hxy
        · have := hz.apart src y _ b' (Ne.symm hy2) hsrc_holds hy3
          rw [hx1, hres.1, hxb, (hoth y hy1 hy2).1]
          unfold ranges_apart at this ⊢
          omega
      · rcases hholds y b' hy with ⟨hy1, hyb⟩ | ⟨hy1, hy2, hy3⟩
        · have := hz.apart src x _ b (Ne.symm hx2) hsrc_holds hx3
          rw [hy1, hres.1, hyb, (hoth x hx1 hx2).1]
          unfold ranges_apart at this ⊢
          omega
        · rw [(hoth x hx1 hx2).1, (hoth y hy1 hy2).1]
          exact hz.apart x y b b' hxy hx3 hy3
  refine ⟨hzone, ?_, ?_, ?_, ?_⟩
  · intro j hj hmem
    exact ((hmem2 j src hj).mp hmem).1 rfl
  · rw [hsrc.2.2]; exact hsrc_free
  · rw [hsrc.2.1]; omega
  · intro y b hy
    rw [hsrc.1]
    rcases hholds y b hy with ⟨hy1, hyb⟩ | ⟨hy1, hy2, hy3⟩
    · rw [hy1, hres.1, hyb]
      unfold ranges_apart
      omega
    · have := hz.apart src y _ b (Ne.symm hy2) hsrc_holds hy3
      rw [(hoth y hy1 hy2).1]
      unfold ranges_apart at this ⊢
      omega

/-- Clearing the used flag of a used block of `n` pages puts it in transit. -/
theorem in_transit_release (cfg : Config) (s s2 : State) (b : Ref) (n : Nat)
    (hz : ZoneInv cfg s) (hb : (s.mem b).vm_used ≠ 0)
    (hn : (s.mem b).vm_present_size = n * cfg.PAGE_SIZE)
    (hl : ∀ j, (s2.zone_nodes j).node_vmspace = (s.zone_nodes j).node_vmspace)
    (hbgeom : (s2.mem b).vm_start = (s.mem b).vm_start ∧
      (s2.mem b).vm_present_size = (s.mem b).vm_present_size ∧ (s2.mem b).vm_used = 0)
    (hoth : ∀ x, x ≠ b → (s2.mem x).vm_start = (s.mem x).vm_start ∧
      (s2.mem x).vm_present_size = (s.mem x).vm_present_size ∧
      (s2.mem x).vm_used = (s.mem x).vm_used) :
    InTransit cfg s2 b n := by
  have hb_notenq : ∀ j, j < cfg.MAX_ORDER → b ∉ (s.zone_nodes j).node_vmspace :=
    fun j hj hmem => hb (hz.enq_free j b hj hmem)
  have hb_holds : Holds cfg s b (s.mem b).vm_present_size := Or.inl ⟨hb, rfl⟩
  have hholds : ∀ y m, Holds cfg s2 y m → y ≠ b ∧ Holds cfg s y m := by
    intro y m h
    by_cases hy : y = b
    · subst hy
      rcases h with ⟨hu, _⟩ | ⟨j, hj, hmem, _⟩
      · exact absurd hbgeom.2.2 hu
      · rw [hl] at hmem; exact absurd hmem (hb_notenq j hj)
    · refine ⟨hy, ?_⟩
      obtain ⟨h1, h2, h3⟩ := hoth y hy
      rcases h with ⟨hu, hm⟩ | ⟨j, hj, hmem, hm⟩
      · left; rw [h3] at hu; rw [h2] at hm; exact ⟨hu, hm⟩
      · right; rw [hl] at hmem; exact ⟨j, hj, hmem, hm⟩
  have hzone : ZoneInv cfg s2 := by
    constructor
    · intro j hj; rw [hl]; exact hz.nodup j hj
    · intro i j x hi hj hxi hxj
      rw [hl] at hxi hxj
      exact hz.one_bucket i j x hi hj hxi hxj
    · intro j x hj hx
      rw [hl] at hx
      have hxb : x ≠ b := fun h => hb_notenq j hj (h ▸ hx)
      rw [(hoth x hxb).2.2]
      exact hz.enq_free j x hj hx
    · intro j x hj hx
      rw [hl] at hx
      have hxb : x ≠ b := fun h => hb_notenq j hj (h ▸ hx)
      rw [(hoth x hxb).2.1]
      exact hz.enq_size j x hj hx
    · intro x hu
      have hxb : x ≠ b := by
        intro h; rw [h] at hu; exact hu hbgeom.2.2
      rw [(hoth x hxb).2.2] at hu
      rw [(hoth x hxb).2.1]
      exact hz.used_size x hu
    · intro x y m m' hxy hx hy
      obtain ⟨hx1, hx2⟩ := hholds x m hx
      obtain ⟨hy1, hy2⟩ := hholds y m' hy
      rw [(hoth x hx1).1, (hoth y hy1).1]
      exact hz.apart x y m m' hxy hx2 hy2
  refine ⟨hzone, ?_, hbgeom.2.2, ?_, ?_⟩
  · intro j hj hmem
    rw [hl] at hmem
    exact hb_notenq j hj hmem
  · rw [hbgeom.2.1, hn]
    exact ⟨le_refl _, hn ▸ (hz.used_size b hb).2.2⟩
  · intro y m hy
    obtain ⟨hy1, hy2⟩ := hholds y m hy
    rw [hbgeom.1, (hoth y hy1).1, ← hn]
    exact hz.apart b y _ m (Ne.symm hy1) hb_holds hy2

/-- No double allocation follows from the zone invariant. -/
theorem zone_inv_used_disjoint (cfg : Config) (s : State) (hz : ZoneInv cfg s) :
    UsedDisjoint s := by
  intro x y hxy hx hy hov
  have := hz.apart x y _ _ hxy (Or.inl ⟨hx, rfl⟩) (Or.inl ⟨hy, rfl⟩)
  unfold vmspace.overlaps at hov
  unfold ranges_apart at this
  omega


/-- The compiled `vmspace_alloc` is `vmspace_alloc_with` on the pool of `vmspace.c`. -/
theorem vmspace_alloc_eq_with (cfg : Config) (s : State) (size : Nat) :
    vmspace_alloc cfg s size = vmspace_alloc_with (find_a_vaild_vmspace cfg) cfg s size := rfl

/-- The loop of `vmspace_divide`, run on a block in transit with a supply of free
descriptors, restores the zone invariant when it returns. -/
theorem divide_keeps_zone (find : State → Except Stop (Ref × State)) (cfg : Config)
    (src : Ref) (hP : 0 < cfg.PAGE_SIZE) (hfind : FreshSupply find) (n : Nat) :
    ∀ (fuel : Nat) (s s' : State), n + 1 ≤ fuel → InTransit cfg s src n →
      vmspace_divide_loop find cfg src fuel s (n : Int) 0 = .ok s' → ZoneInv cfg s' := by
  induction n using Nat.strong_induction_on with
  | _ n ih =>
    intro fuel s s' hf hlim h
    rcases Nat.lt_or_ge n 2 with hn | hn
    · interval_cases n
      · obtain ⟨f, rfl⟩ : ∃ f, fuel = f + 1 := ⟨fuel - 1, by omega⟩
        rw [Nat.cast_zero, divide_loop_zero] at h
        injection h with h
        subst h
        exact hlim.zone
      · obtain ⟨f, rfl⟩ : ∃ f, fuel = f + 2 := ⟨fuel - 2, by omega⟩
        by_cases hM : 0 < cfg.MAX_ORDER
        · rw [Nat.cast_one, divide_loop_one find cfg src f s 0 hM] at h
          injection h with h
          subst h
          refine in_transit_enqueue cfg s _ src 1 0 hlim (by simp) (fun j => ?_)
            (fun x => ⟨rfl, rfl, rfl⟩)
          rw [divide_last_zone_nodes]
          split_ifs <;> rfl
        · exfalso
          rw [vmspace_divide_loop] at h
          have h0 : is_round_base2 0 = false := by decide
          have hM2 : cfg.MAX_ORDER ≤ 0 := by omega
          simp [h0, hM2] at h
    · have hle : 2 ^ Nat.log 2 (n - 1) ≤ n - 1 := Nat.pow_log_le_self 2 (by omega)
      have hlt : n - 1 < 2 ^ (Nat.log 2 (n - 1) + 1) :=
        Nat.lt_pow_succ_log_self (by norm_num) _
      have hpos : 0 < 2 ^ Nat.log 2 (n - 1) := by positivity
      rw [pow_succ] at hlt
      obtain ⟨f, rfl⟩ : ∃ f, fuel = f + (n - 2 ^ Nat.log 2 (n - 1)) :=
        ⟨fuel - (n - 2 ^ Nat.log 2 (n - 1)), by omega⟩
      cases hfd : find s with
      | error e =>
        rw [divide_loop_round_error find cfg src f s e n hn hfd] at h
        cases h
      | ok p =>
        obtain ⟨nn, s1⟩ := p
        by_cases hord : Nat.log 2 (n - 1) < cfg.MAX_ORDER
        · rw [divide_loop_round find cfg src f s s1 nn n hn hfd hord] at h
          obtain ⟨hfree, hm, hzn⟩ := hfind s nn s1 hfd
          have hfresh : (s.mem nn).vm_present_size = 0 := hfree.1
          have hsz := hlim.size
          have hnP : 0 < n * cfg.PAGE_SIZE := Nat.mul_pos (by omega) hP
          have hne : nn ≠ src := by
            intro heq; rw [heq] at hfresh; omega
          have hnn := divide_chunk_new cfg s1 src nn ((2 ^ Nat.log 2 (n - 1) : Nat) : Int)
            ((n - 2 ^ Nat.log 2 (n - 1) : Nat) : Int) hne
          have hss := divide_chunk_source cfg s1 src nn ((2 ^ Nat.log 2 (n - 1) : Nat) : Int)
            ((n - 2 ^ Nat.log 2 (n - 1) : Nat) : Int) hne
          have hoth := fun x hx1 hx2 => divide_chunk_other cfg s1 src nn
            ((2 ^ Nat.log 2 (n - 1) : Nat) : Int) ((n - 2 ^ Nat.log 2 (n - 1) : Nat) : Int)
            x hx1 hx2
          rw [hm] at hnn hss hoth
          simp only [Int.toNat_ofNat] at hnn hss
          have hcle : 2 ^ Nat.log 2 (n - 1) * cfg.PAGE_SIZE ≤ n * cfg.PAGE_SIZE :=
            Nat.mul_le_mul_right _ (by omega)
          have hlim2 := in_transit_chunk cfg s
            (divide_chunk cfg s1 src nn ((2 ^ Nat.log 2 (n - 1) : Nat) : Int)
              ((n - 2 ^ Nat.log 2 (n - 1) : Nat) : Int)) src nn n
            (2 ^ Nat.log 2 (n - 1)) (n - 2 ^ Nat.log 2 (n - 1)) (Nat.log 2 (n - 1)) hP hlim
            hfresh rfl (by omega)
            (fun j => by
              rw [divide_chunk_zone_nodes, hzn, round_base2_natCast, Nat.log_pow (by norm_num)]
              split_ifs <;> rfl)
            ⟨hnn.1, hnn.2.1, hnn.2.2.2⟩
            ⟨hss.1, by rw [hss.2.1, vm_size_sub_of_le _ _ (by omega) hsz.2], hss.2.2.2⟩
            (fun x hx1 hx2 => ⟨(hoth x hx1 hx2).1, (hoth x hx1 hx2).2.1, (hoth x hx1 hx2).2.2.2⟩)
          exact ih (n - 2 ^ Nat.log 2 (n - 1)) (by omega) f _ s' (by omega) hlim2 h
        · rw [divide_loop_round_fault find cfg src f s s1 nn n hn hfd (by omega)] at h
          cases h

/-- The function `vmspace_divide`, called on a block in transit with `n ≥ 0` pages,
restores the zone invariant when it returns. -/
theorem vmspace_divide_keeps_zone (find : State → Except Stop (Ref × State)) (cfg : Config)
    (src : Ref) (hP : 0 < cfg.PAGE_SIZE) (hfind : FreshSupply find) (n : Nat) (s s' : State)
    (hlim : InTransit cfg s src n)
    (h : vmspace_divide_with find cfg s src (n : Int) = .ok s') : ZoneInv cfg s' := by
  unfold vmspace_divide_with divide_fuel at h
  rw [Int.toNat_ofNat] at h
  exact divide_keeps_zone find cfg src hP hfind n (n + 1) s s' (le_refl _) hlim h


/-- A `vmspace_alloc` that finds the bucket of its order non-empty keeps the zone
invariant, whatever free descriptors the pool hands out. -/
theorem alloc_keeps_zone (find : State → Except Stop (Ref × State)) (cfg : Config)
    (s s' : State) (size : Nat) (res : Ref) (hP : 0 < cfg.PAGE_SIZE)
    (hfind : FreshSupply find) (hz : ZoneInv cfg s)
    (hnr : (s.zone_nodes (get_order_base2 cfg size)).node_nr_nodes ≠ 0)
    (h : vmspace_alloc_with find cfg s size = .ok (res, s')) : ZoneInv cfg s' := by
  unfold vmspace_alloc_with at h
  simp only at h
  cases hin : _vmspace_alloc_with find cfg { s with zone_lock := true }
      (get_order_base2 cfg size : Int) size with
  | error e => rw [hin] at h; simp at h
  | ok p =>
    obtain ⟨r, s1⟩ := p
    rw [hin] at h
    injection h with h
    injection h with h1 h2
    subst h1
    subst h2
    suffices hs1 : ZoneInv cfg s1 from
      ⟨hs1.nodup, hs1.one_bucket, hs1.enq_free, hs1.enq_size, hs1.used_size, hs1.apart⟩
    unfold _vmspace_alloc_with at hin
    by_cases hrange : ((get_order_base2 cfg size : Nat) : Int) ≥ cfg.MAX_ORDER ∨
        ((get_order_base2 cfg size : Nat) : Int) < 0
    · rw [if_pos hrange] at hin; cases hin
    · rw [if_neg hrange] at hin
      have hk : get_order_base2 cfg size < cfg.MAX_ORDER := by omega
      simp only [Int.toNat_ofNat] at hin
      have hscan : vmspace_alloc_scan cfg { s with zone_lock := true } (cfg.MAX_ORDER + 1)
          (get_order_base2 cfg size) (get_order_base2 cfg size) =
          (get_order_base2 cfg size, get_order_base2 cfg size) := by
        rw [vmspace_alloc_scan, if_neg]
        rintro ⟨_, h0⟩
        exact hnr h0
      rw [hscan] at hin
      simp only at hin
      rw [if_neg (by omega)] at hin
      unfold vmspace_node_select_and_divide_with at hin
      cases hfd : find { s with zone_lock := true } with
      | error e => rw [hfd] at hin; cases hin
      | ok q =>
        obtain ⟨r', sf⟩ := q
        rw [hfd] at hin
        simp only at hin
        obtain ⟨hfree, hm, hzn⟩ := hfind _ _ _ hfd
        have hm' : sf.mem = s.mem := hm
        have hzn' : sf.zone_nodes = s.zone_nodes := hzn
        have hfresh : (s.mem r').vm_present_size = 0 := hfree.1
        cases hl : (sf.zone_nodes (get_order_base2 cfg size)).node_vmspace with
        | nil => rw [hl] at hin; cases hin
        | cons src rest =>
          rw [hl] at hin
          simp only at hin
          rw [hzn'] at hl
          have hsrc_mem : src ∈ (s.zone_nodes (get_order_base2 cfg size)).node_vmspace := by
            rw [hl]; simp
          have hne : r' ≠ src := by
            intro heq
            exact (fresh_not_held cfg s hP hz r' hfresh).2 _ hk (heq ▸ hsrc_mem)
          by_cases hneg : reserve_pages_at ((get_order_base2 cfg size : Nat) : Int)
              ((size / cfg.PAGE_SIZE + 1 : Nat) : Int) < 0
          · exfalso
            rw [is_round_base2_neg _ (le_of_lt hneg)] at hin
            simp only [Bool.false_eq_true, if_false] at hin
            unfold vmspace_divide_with at hin
            rw [divide_loop_neg _ _ _ _ _ _ _ hneg] at hin
            cases hin
          · obtain ⟨n, hn⟩ : ∃ n : Nat, reserve_pages_at ((get_order_base2 cfg size : Nat) : Int)
                ((size / cfg.PAGE_SIZE + 1 : Nat) : Int) = (n : Int) :=
              ⟨_, (Int.toNat_of_nonneg (by omega)).symm⟩
            have hsum : (size / cfg.PAGE_SIZE + 1) + n = 2 ^ get_order_base2 cfg size := by
              unfold reserve_pages_at at hn
              rw [Int.toNat_ofNat] at hn
              have : ((size / cfg.PAGE_SIZE + 1 : Nat) : Int) + (n : Int) =
                  ((2 ^ get_order_base2 cfg size : Nat) : Int) := by
                push_cast
                push_cast at hn
                omega
              exact_mod_cast this
            rw [hn] at hin
            have hg1 := grant_block_res cfg (sf.LIST_REMOVE_HEAD (get_order_base2 cfg size) rest)
              r' src size hne
            have hg2 := grant_block_source cfg
              (sf.LIST_REMOVE_HEAD (get_order_base2 cfg size) rest) r' src size hne
            have hg3 := fun x hx1 hx2 => grant_block_other cfg
              (sf.LIST_REMOVE_HEAD (get_order_base2 cfg size) rest) r' src size x hx1 hx2
            simp only [remove_head_mem, hm'] at hg1 hg2 hg3
            have htransit : InTransit cfg
                (grant_block cfg (sf.LIST_REMOVE_HEAD (get_order_base2 cfg size) rest) r' src size)
                src n :=
              in_transit_grant cfg s _ src r' rest (get_order_base2 cfg size)
                (size / cfg.PAGE_SIZE + 1) n hP hz hk hl hfresh (Nat.le_add_left 1 _) hsum
                (fun j => by
                  rw [grant_block_zone_nodes, remove_head_zone_nodes, hzn']
                  split_ifs <;> rfl)
                ⟨hg1.1, hg1.2.1, hg1.2.2.2⟩ ⟨hg2.1, hg2.2.1, hg2.2.2.2⟩
                (fun x hx1 hx2 => ⟨(hg3 x hx1 hx2).1, (hg3 x hx1 hx2).2.1, (hg3 x hx1 hx2).2.2.2⟩)
            by_cases hp : is_round_base2 (n : Int) = true
            · rw [if_pos hp] at hin
              obtain ⟨m, hm2⟩ := (is_round_base2_natCast n).mp hp
              have hlog : round_base2 (n : Int) = m := by
                rw [round_base2_natCast, hm2, Nat.log_pow (by norm_num)]
              rw [hlog] at hin
              by_cases hord : cfg.MAX_ORDER ≤ m
              · rw [if_pos hord] at hin; cases hin
              · rw [if_neg hord] at hin
                injection hin with hin
                injection hin with _ hs1
                subst hs1
                refine in_transit_enqueue cfg _ _ src n m htransit (by omega) (fun j => ?_)
                  (fun x => ⟨rfl, rfl, rfl⟩)
                rw [insert_head_zone_nodes]
                split_ifs with hj
                · subst hj; rfl
                · rfl
            · rw [if_neg hp] at hin
              cases hdiv : vmspace_divide_with find cfg
                  (grant_block cfg (sf.LIST_REMOVE_HEAD (get_order_base2 cfg size) rest)
                    r' src size) src (n : Int) with
              | error e => rw [hdiv] at hin; cases hin
              | ok s2 =>
                rw [hdiv] at hin
                injection hin with hin
                injection hin with _ hs1
                subst hs1
                exact vmspace_divide_keeps_zone find cfg src hP hfind n _ _ htransit hdiv

/-- A `vmspace_free` of a used block keeps the zone invariant, whatever free
descriptors the pool hands out. -/
theorem free_keeps_zone (find : State → Except Stop (Ref × State)) (cfg : Config)
    (fuel : Nat) (s s' : State) (b : Ref) (hP : 0 < cfg.PAGE_SIZE)
    (hfind : FreshSupply find) (hz : ZoneInv cfg s) (hb : (s.mem b).vm_used ≠ 0)
    (h : vmspace_free_with find cfg fuel s b = .ok s') : ZoneInv cfg s' := by
  obtain ⟨hdvd, hnz, hrep⟩ := hz.used_size b hb
  obtain ⟨n, hn⟩ := hdvd
  have hn' : (s.mem b).vm_present_size = n * cfg.PAGE_SIZE := by rw [hn, Nat.mul_comm]
  have hdiv : (s.mem b).vm_present_size / cfg.PAGE_SIZE = n := by
    rw [hn, Nat.mul_div_cancel_left _ hP]
  have htransit : InTransit cfg (s.setMem b { s.mem b with vm_used := 0 }) b n := by
    refine in_transit_release cfg s _ b n hz hb hn' (fun j => rfl) ?_ ?_
    · simp [setMem_mem]
    · intro x hx
      simp [setMem_mem, hx]
  unfold vmspace_free_with at h
  simp only at h
  split_ifs at h with h1 h2 h3
  · injection h with h
    subst h
    have hsize := pow2_size_eq cfg hP _ h2 ⟨n, hn⟩
    have hpow : 2 ^ get_order_base2 cfg (s.mem b).vm_present_size = n := by
      have : 2 ^ get_order_base2 cfg (s.mem b).vm_present_size * cfg.PAGE_SIZE =
          n * cfg.PAGE_SIZE := by rw [← hsize, hn']
      exact Nat.eq_of_mul_eq_mul_right hP this
    refine in_transit_enqueue cfg _ _ b n _ htransit (le_of_eq hpow) (fun j => ?_)
      (fun x => ⟨rfl, rfl, rfl⟩)
    simp only [insert_head_zone_nodes, incr_nr_zone_nodes]
    split_ifs with hj
    · subst hj; rfl
    · rfl
  · rw [hdiv] at h
    exact vmspace_divide_keeps_zone find cfg b hP hfind n _ _ htransit h
  · rw [vmspace_free_walk_ok _ _ _ _ _ _ h]
    exact htransit.zone


/-- The pool of `vmspace.c` hands out free descriptors only. -/
theorem find_a_vaild_vmspace_fresh (cfg : Config) : FreshSupply (find_a_vaild_vmspace cfg) := by
  intro s r s' h
  obtain ⟨_, hfree, hmem, hzn, _⟩ := find_ok cfg s s' r h
  exact ⟨hfree, hmem, hzn⟩

/-- The scan of `claim_free_slot` stops at a free slot. -/
theorem claim_free_slot_loop_ok (mem : Ref → vmspace) (fuel : Nat) :
    ∀ (index : Nat) (r : Ref), claim_free_slot_loop mem fuel index = .ok r → (mem r).is_free := by
  induction fuel with
  | zero => intro index r h; simp [claim_free_slot_loop] at h
  | succ f ih =>
    intro index r h
    rw [claim_free_slot_loop] at h
    split_ifs at h with hf
    · injection h with h
      subst h
      exact hf
    · exact ih _ _ h

/-- The pool of the spec hands out free descriptors only. -/
theorem claim_free_slot_fresh (cfg : Config) : FreshSupply (claim_free_slot cfg) := by
  intro s r s' h
  unfold claim_free_slot at h
  cases hl : claim_free_slot_loop s.mem cfg.MAX_VMSPACE_POOL 0 with
  | error e => rw [hl] at h; cases h
  | ok r0 =>
    rw [hl] at h
    injection h with h
    injection h with h1 h2
    subst h1
    subst h2
    exact ⟨claim_free_slot_loop_ok _ _ _ _ hl, rfl, rfl⟩

/-- The zone invariant holds in every state reached by calls that return, on any supply
of free descriptors. -/
theorem reachable_with_zone_inv (find : State → Except Stop (Ref × State)) (cfg : Config)
    (s0 s : State) (hP : 0 < cfg.PAGE_SIZE) (hfind : FreshSupply find)
    (hz : ZoneInv cfg s0) (hr : ReachableWith find cfg s0 s) : ZoneInv cfg s := by
  induction hr with
  | init => exact hz
  | alloc s s' size res _ hnr h ih => exact alloc_keeps_zone find cfg s s' size res hP hfind ih hnr h
  | free s s' fuel b _ hb h ih => exact free_keeps_zone find cfg fuel s s' b hP hfind ih hb h

/-- The zone `zone_eight_pages` meets the zone invariant. -/
theorem zone_eight_pages_inv : ZoneInv cfg4096 zone_eight_pages := by
  have hmem : ∀ k x, x ∈ (zone_eight_pages.zone_nodes k).node_vmspace → k = 3 ∧ x = 100 := by
    intro k x hx
    simp only [zone_eight_pages] at hx
    split_ifs at hx with hk
    · simp at hx; exact ⟨hk, hx⟩
    · simp at hx
  have hused : ∀ x, (zone_eight_pages.mem x).vm_used ≠ 0 → x = 101 := by
    intro x hx
    simp only [zone_eight_pages, blk4096, vmspace.zero] at hx
    split_ifs at hx with h1 h2
    · simp at hx
    · exact h2
    · simp at hx
  have hholds : ∀ x m, Holds cfg4096 zone_eight_pages x m →
      (x = 101 ∧ m = 4096) ∨ (x = 100 ∧ m = 32768) := by
    intro x m h
    rcases h with ⟨hu, hm⟩ | ⟨k, _, hx, hm⟩
    · left
      have := hused x hu
      subst this
      exact ⟨rfl, hm⟩
    · right
      obtain ⟨hk, hx100⟩ := hmem k x hx
      subst hk
      exact ⟨hx100, hm⟩
  constructor
  · intro k _
    simp only [zone_eight_pages]
    split_ifs <;> simp
  · intro k j x _ _ hk hj
    rw [(hmem k x hk).1, (hmem j x hj).1]
  · intro k x _ hx
    rw [(hmem k x hx).2]
    rfl
  · intro k x _ hx
    obtain ⟨hk, hx100⟩ := hmem k x hx
    subst hk
    subst hx100
    decide
  · intro x hx
    rw [hused x hx]
    decide
  · intro x y m n hxy hx hy
    rcases hholds x m hx with ⟨h1, h2⟩ | ⟨h1, h2⟩ <;>
      rcases hholds y n hy with ⟨h3, h4⟩ | ⟨h3, h4⟩ <;> subst h1 h2 h3 h4
    · exact absurd rfl hxy
    · decide
    · decide
    · exact absurd rfl hxy

/-- The zone `zone_with_neighbour` meets the zone invariant. -/
theorem zone_with_neighbour_inv : ZoneInv cfg4096 zone_with_neighbour := by
  have hmem : ∀ k x, x ∈ (zone_with_neighbour.zone_nodes k).node_vmspace → k = 2 ∧ x = 100 := by
    intro k x hx
    simp only [zone_with_neighbour] at hx
    split_ifs at hx with hk
    · simp at hx; exact ⟨hk, hx⟩
    · simp at hx
  have hused : ∀ x, (zone_with_neighbour.mem x).vm_used ≠ 0 → x = 101 := by
    intro x hx
    simp only [zone_with_neighbour, blk4096, vmspace.zero] at hx
    split_ifs at hx with h1 h2
    · simp at hx
    · exact h2
    · simp at hx
  have hholds : ∀ x m, Holds cfg4096 zone_with_neighbour x m →
      (x = 101 ∧ m = 4096) ∨ (x = 100 ∧ m = 16384) := by
    intro x m h
    rcases h with ⟨hu, hm⟩ | ⟨k, _, hx, hm⟩
    · left
      have := hused x hu
      subst this
      exact ⟨rfl, hm⟩
    · right
      obtain ⟨hk, hx100⟩ := hmem k x hx
      subst hk
      exact ⟨hx100, hm⟩
  constructor
  · intro k _
    simp only [zone_with_neighbour]
    split_ifs <;> simp
  · intro k j x _ _ hk hj
    rw [(hmem k x hk).1, (hmem j x hj).1]
  · intro k x _ hx
    rw [(hmem k x hx).2]
    rfl
  · intro k x _ hx
    obtain ⟨hk, hx100⟩ := hmem k x hx
    subst hk
    subst hx100
    decide
  · intro x hx
    rw [hused x hx]
    decide
  · intro x y m n hxy hx hy
    rcases hholds x m hx with ⟨h1, h2⟩ | ⟨h1, h2⟩ <;>
      rcases hholds y n hy with ⟨h3, h4⟩ | ⟨h3, h4⟩ <;> subst h1 h2 h3 h4
    · exact absurd rfl hxy
    · decide
    · decide
    · exact absurd rfl hxy

/-- C1 (code defect): `zone_single 2` satisfies the bucket invariant; allocating
8193 bytes (3 pages) from it returns, and afterwards bucket 0 holds the remainder
block 100 whose `vm_present_size` is still 4 pages: line 148 re-inserts the source
without ever shrinking its size, so the invariant is broken. -/
theorem C1_remainder_keeps_old_size :
    BucketInv cfg4096 (zone_single 2) ∧
    ∃ res s', vmspace_alloc cfg4096 (zone_single 2) 8193 = .ok (res, s') ∧
      (s'.zone_nodes 0).node_vmspace = [100] ∧
      (s'.mem 100).vm_present_size = 4 * 4096 ∧
      ¬ BucketInv cfg4096 s' := by
  refine ⟨by decide, _, _, rfl, rfl, rfl, ?_⟩
  decide

/-- C3 (code defect): from `zone_single 0` (one free page in bucket 0), allocating one
byte and freeing the granted block at once does not restore the zone: bucket 0 ends
empty with count 0 and no byte is free.  The granted block has a free buddy successor,
so `vmspace_free` takes the walk of lines 243-249, and `vmspace_merge` is a stub that
enqueues nothing. -/
theorem C3_alloc_free_loses_block :
    occupancy cfg4096 (zone_single 0) =
      [(1, 1), (0, 0), (0, 0), (0, 0), (0, 0), (0, 0), (0, 0), (0, 0), (0, 0), (0, 0), (0, 0)] ∧
    total_free_bytes cfg4096 (zone_single 0) = 4096 ∧
    ∃ res s1 s2, vmspace_alloc cfg4096 (zone_single 0) 1 = .ok (res, s1) ∧
      vmspace_free cfg4096 2 s1 res = .ok s2 ∧
      occupancy cfg4096 s2 =
        [(0, 0), (0, 0), (0, 0), (0, 0), (0, 0), (0, 0), (0, 0), (0, 0), (0, 0), (0, 0), (0, 0)] ∧
      total_free_bytes cfg4096 s2 = 0 := by
  refine ⟨by decide, by decide, _, _, _, rfl, rfl, by decide, by decide⟩

/-- C6 (code defect): the scenario of the spec.  From `zone_single 4` (one free block
of 16 pages in bucket 4), `vmspace_alloc(zone, 20000)` does not return.  The request
has order 3; the scan stops with `order = 5` at the node of bucket 4, so 27 pages
instead of 11 are left to divide, and the second claim of a descriptor never ends
because slot 0 of the pool is taken by the granted block.  In a build with
`MAX_ORDER = 5` the same call reports exhaustion instead. -/
theorem C6_scenario_does_not_return :
    get_order_base2 cfg4096 20000 = 3 ∧
    vmspace_alloc_scan cfg4096 (zone_single 4) 12 3 3 = (5, 4) ∧
    reserve_pages_at 5 5 = 27 ∧
    vmspace_alloc cfg4096 (zone_single 4) 20000 = .error .hang ∧
    vmspace_alloc ⟨4096, 5, 64⟩ (zone_single 4) 20000 = .error .panic_exhausted := by
  refine ⟨by decide, by decide, by decide, rfl, rfl⟩

/-- C10 (code defect): freeing the used block of `zone_used_block 6` (6 pages, no buddy
successor, pool free) does not return: `vmspace_divide` needs two descriptors, and the
second claim never ends because `find_a_vaild_vmspace` only ever looks at slot 0, which
the first chunk has taken.  Same defect as C9. -/
theorem C10_free_of_six_pages_does_not_return :
    ((zone_used_block 6).mem 100).vm_buddy_next = none ∧
    ∀ fuel, vmspace_free cfg4096 fuel (zone_used_block 6) 100 = .error .hang := by
  refine ⟨rfl, fun fuel => ?_⟩
  rfl

/-- Beyond the last bucket: with 11 buckets, `vmspace_divide` called with 2049 pages
indexes `zone_nodes[11]` for its first chunk of 2048 pages.  No caller passes such a
value: `vmspace_node_select_and_divide` passes at most `2 ^ order` pages with
`order < MAX_ORDER` (`reserve_pages_within_buckets`), `vmspace_free` the pages of one
block. -/
theorem divide_chunk_beyond_last_bucket :
    vmspace_divide_with (pool_supply (slots_from 1000)) cfg4096 (zone_used_block 2049) 100 2049
      = .error .fault := by
  rfl

/-- The pages `vmspace_node_select_and_divide` hands to `vmspace_divide` (line 132) for
an order below `MAX_ORDER` are at most `2 ^ MAX_ORDER`. -/
theorem reserve_pages_within_buckets (cfg : Config) (order total : Nat)
    (h : order < cfg.MAX_ORDER) :
    reserve_pages_at (order : Int) (total : Int) ≤ ((2 ^ cfg.MAX_ORDER : Nat) : Int) := by
  unfold reserve_pages_at
  rw [Int.toNat_ofNat]
  have h1 : 2 ^ order ≤ 2 ^ cfg.MAX_ORDER := Nat.pow_le_pow_right (by norm_num) (le_of_lt h)
  have h2 : ((2 : Int) ^ order) = ((2 ^ order : Nat) : Int) := by push_cast; rfl
  rw [h2]
  have h3 : ((2 ^ order : Nat) : Int) ≤ ((2 ^ cfg.MAX_ORDER : Nat) : Int) := by
    exact_mod_cast h1
  have h4 : (0 : Int) ≤ (total : Int) := Int.natCast_nonneg _
  omega

/-- C7: for `n ≥ 1` pages, all of whose chunks have a bucket (`n ≤ 2 ^ MAX_ORDER`, at
least one bucket), on a pool that supplies a fresh descriptor on each claim,
`vmspace_divide(zone, source, n)` terminates; the chunks it has enqueued, `cs`
(descriptor and order, last enqueued first), have page counts `2 ^ order` that sum to
`n`; the last one is the source, in bucket 0 as a single page; every new descriptor has
`vm_present_size = 2 ^ order * PAGE_SIZE`; every bucket `j` has received exactly the
chunks of order `j`, at the head of its list, with `node_nr_nodes` incremented once per
chunk; the source has been shrunk (line 180, wrapping) by the `n - 1` pages given away,
so a source of exactly `n` pages ends as one page. -/
theorem C7_divide_partitions_remainder (cfg : Config) (slots : Nat → Ref) (s : State)
    (src : Ref) (n : Nat) (hM : 0 < cfg.MAX_ORDER) (hinj : Function.Injective slots)
    (hsrc : ∀ i, slots i ≠ src) (hn : 1 ≤ n) (hmax : n ≤ 2 ^ cfg.MAX_ORDER) :
    ∃ (s' : State) (cs : List (Ref × Nat)),
      vmspace_divide_with (pool_supply slots) cfg s src (n : Int) = .ok s' ∧
      (cs.map fun c => 2 ^ c.2).sum = n ∧
      cs.head? = some (src, 0) ∧
      (∀ c ∈ cs, c.1 ≠ src → (s'.mem c.1).vm_present_size = 2 ^ c.2 * cfg.PAGE_SIZE) ∧
      (∀ j, (s'.zone_nodes j).node_vmspace =
          ((cs.filter fun c => c.2 = j).map Prod.fst) ++ (s.zone_nodes j).node_vmspace ∧
        (s'.zone_nodes j).node_nr_nodes =
          (s.zone_nodes j).node_nr_nodes + ((cs.filter fun c => c.2 = j).length : Int)) ∧
      (n = 1 → (s'.mem src).vm_present_size = (s.mem src).vm_present_size) ∧
      (2 ≤ n → (s'.mem src).vm_present_size =
        vm_size_sub (s.mem src).vm_present_size ((n - 1) * cfg.PAGE_SIZE)) ∧
      ((s.mem src).vm_present_size = n * cfg.PAGE_SIZE → n * cfg.PAGE_SIZE < 2 ^ 64 →
        (s'.mem src).vm_present_size = cfg.PAGE_SIZE) := by
  obtain ⟨s', cs, h1, h2, h3, _, h4, _, h5, h6, h7, _⟩ :=
    divide_supply_loop cfg slots src hM hinj hsrc n (n + 1) s hn hmax (le_refl _)
  refine ⟨s', cs, ?_, h2, h3, h4, h7, h5, h6, ?_⟩
  · unfold vmspace_divide_with divide_fuel
    simpa using h1
  · intro hsize hrep
    rcases Nat.lt_or_ge n 2 with hlt | hge
    · have h1n : n = 1 := by omega
      rw [h5 h1n, hsize, h1n, Nat.one_mul]
    · rw [h6 hge, vm_size_sub_of_le _ _ ?_ (hsize ▸ hrep), hsize, ← Nat.sub_mul]
      · have : n - (n - 1) = 1 := by omega
        rw [this, Nat.one_mul]
      · rw [hsize]; exact Nat.mul_le_mul_right _ (Nat.sub_le _ _)

/-- C7, at a concrete input: 11 pages of a block of 11 pages. -/
theorem C7_divide_partitions_remainder_witness :
    ∃ (s' : State) (cs : List (Ref × Nat)),
      vmspace_divide_with (pool_supply (slots_from 1000)) cfg4096 (zone_used_block 11) 100
        ((11 : Nat) : Int) = .ok s' ∧
      (cs.map fun c => 2 ^ c.2).sum = 11 ∧
      cs.head? = some (100, 0) ∧
      (∀ c ∈ cs, c.1 ≠ 100 → (s'.mem c.1).vm_present_size = 2 ^ c.2 * cfg4096.PAGE_SIZE) ∧
      (∀ j, (s'.zone_nodes j).node_vmspace =
          ((cs.filter fun c => c.2 = j).map Prod.fst) ++
            ((zone_used_block 11).zone_nodes j).node_vmspace ∧
        (s'.zone_nodes j).node_nr_nodes =
          ((zone_used_block 11).zone_nodes j).node_nr_nodes +
            ((cs.filter fun c => c.2 = j).length : Int)) ∧
      (11 = 1 → (s'.mem 100).vm_present_size =
        ((zone_used_block 11).mem 100).vm_present_size) ∧
      (2 ≤ 11 → (s'.mem 100).vm_present_size =
        vm_size_sub ((zone_used_block 11).mem 100).vm_present_size
          ((11 - 1) * cfg4096.PAGE_SIZE)) ∧
      (((zone_used_block 11).mem 100).vm_present_size = 11 * cfg4096.PAGE_SIZE →
        11 * cfg4096.PAGE_SIZE < 2 ^ 64 →
        (s'.mem 100).vm_present_size = cfg4096.PAGE_SIZE) :=
  C7_divide_partitions_remainder cfg4096 (slots_from 1000) (zone_used_block 11) 100 11
    (by decide) (slots_from_injective 1000)
    (fun i => by show 1000 + i ≠ 100; omega) (by decide) (by decide)

/-- C8 (as stated, refuted): with 2 pages still to partition, `vmspace_divide` peels a
chunk of one page, not of 2 pages (the largest power of two that is at most 2): the new
descriptor (slot 0) is one page long and goes to bucket 0, bucket 1 stays empty, and the
source keeps the other page.  The same step occurs inside the run on 6 pages, the pages
of a 6-page block handed to `vmspace_free`: on a supplying pool the chunks are 4, 1 and
1 pages (buckets 2, 0, 0), not 4 and 2. -/
theorem C8_counterexample_two_pages :
    (∃ s', vmspace_divide cfg4096 (zone_used_block 2) 100 2 = .ok s' ∧
      (s'.zone_nodes 1).node_vmspace = [] ∧
      (s'.zone_nodes 0).node_vmspace = [100, 0] ∧
      (s'.mem 0).vm_present_size = 1 * 4096 ∧
      (s'.mem 0).vm_present_size ≠ 2 ^ Nat.log 2 2 * 4096) ∧
    (∃ s', vmspace_divide_with (pool_supply (slots_from 1000)) cfg4096 (zone_used_block 6) 100 6
        = .ok s' ∧
      (s'.zone_nodes 2).node_vmspace = [1000] ∧
      (s'.zone_nodes 1).node_vmspace = [] ∧
      (s'.zone_nodes 0).node_vmspace = [100, 1001] ∧
      (s'.mem 1000).vm_present_size = 4 * 4096 ∧
      (s'.mem 1001).vm_present_size = 1 * 4096) := by
  refine ⟨⟨_, rfl, rfl, rfl, rfl, ?_⟩, ⟨_, rfl, rfl, rfl, rfl, rfl, rfl⟩⟩
  simp [Nat.log]
  decide

/-- C8 (amended): at every step of the loop of `vmspace_divide` with `r ≥ 1` pages
still to partition (`page_counter` at 0, any zone state `s`, a pool that supplies fresh
descriptors, `r ≤ 2 ^ MAX_ORDER`), the loop runs to its end, and
* with `r = 1` no chunk is peeled: the source itself is enqueued as the last page;
* with `r ≥ 2` the chunk peeled off at that step, the descriptor `slots s.index`
  claimed there, has `2 ^ k` pages with `2 ^ k` the largest power of two that is at most
  `r - 1`, so strictly below `r`: at the end of the run it has
  `vm_present_size = 2 ^ k * PAGE_SIZE` and sits in bucket `k`, and the run is the run on
  the remaining `r - 2 ^ k ≥ 1` pages from the state `divide_chunk` leaves, `r - 2 ^ k`
  iterations later. -/
theorem C8_divide_peels_largest_power_below (cfg : Config) (slots : Nat → Ref) (src : Ref)
    (fuel : Nat) (s : State) (r : Nat) (hM : 0 < cfg.MAX_ORDER)
    (hinj : Function.Injective slots) (hsrc : ∀ i, slots i ≠ src) (hr : 1 ≤ r)
    (hmax : r ≤ 2 ^ cfg.MAX_ORDER) (hf : r + 1 ≤ fuel) :
    ∃ s', vmspace_divide_loop (pool_supply slots) cfg src fuel s (r : Int) 0 = .ok s' ∧
      (r = 1 → s' = divide_last s src) ∧
      (2 ≤ r → ∃ k : Nat, 2 ^ k ≤ r - 1 ∧ r - 1 < 2 ^ (k + 1) ∧ 1 ≤ r - 2 ^ k ∧
        (s'.mem (slots s.index)).vm_present_size = 2 ^ k * cfg.PAGE_SIZE ∧
        slots s.index ∈ (s'.zone_nodes k).node_vmspace ∧
        vmspace_divide_loop (pool_supply slots) cfg src (fuel - (r - 2 ^ k))
          (divide_chunk cfg { s with index := s.index + 1 } src (slots s.index)
            ((2 ^ k : Nat) : Int) ((r - 2 ^ k : Nat) : Int))
          ((r - 2 ^ k : Nat) : Int) 0 = .ok s') := by
  obtain ⟨s', cs, hrun, _, _, hfirst, hsize, _, _, _, hbuckets, _⟩ :=
    divide_supply_loop cfg slots src hM hinj hsrc r fuel s hr hmax hf
  refine ⟨s', hrun, ?_, ?_⟩
  · intro h1
    subst h1
    obtain ⟨f, rfl⟩ : ∃ f, fuel = f + 2 := ⟨fuel - 2, by omega⟩
    have h := divide_loop_one (pool_supply slots) cfg src f s 0 hM
    simp only [Nat.cast_one] at hrun
    rw [h] at hrun
    injection hrun with e
    exact e.symm
  · intro h2
    have hle : 2 ^ Nat.log 2 (r - 1) ≤ r - 1 := Nat.pow_log_le_self 2 (by omega)
    have hlt : r - 1 < 2 ^ (Nat.log 2 (r - 1) + 1) :=
      Nat.lt_pow_succ_log_self (by norm_num) _
    have hord : Nat.log 2 (r - 1) < cfg.MAX_ORDER :=
      Nat.log_lt_of_lt_pow (by omega) (by omega)
    have hmem := hfirst h2
    refine ⟨Nat.log 2 (r - 1), hle, hlt, by omega, hsize _ hmem (hsrc _), ?_, ?_⟩
    · rw [(hbuckets _).1]
      apply List.mem_append_left
      rw [List.mem_map]
      exact ⟨_, List.mem_filter.mpr ⟨hmem, by simp⟩, rfl⟩
    · obtain ⟨f, rfl⟩ : ∃ f, fuel = f + (r - 2 ^ Nat.log 2 (r - 1)) :=
        ⟨fuel - (r - 2 ^ Nat.log 2 (r - 1)), by omega⟩
      have hround := divide_loop_round (pool_supply slots) cfg src f s
        { s with index := s.index + 1 } (slots s.index) r h2 rfl hord
      rw [hround] at hrun
      rw [Nat.add_sub_cancel]
      exact hrun

/-- C8 (amended), at a concrete input: 11 pages left of a block of 11 pages; the chunk
peeled first is 8 pages. -/
theorem C8_divide_peels_largest_power_below_witness :
    ∃ s', vmspace_divide_loop (pool_supply (slots_from 1000)) cfg4096 100 12
        (zone_used_block 11) ((11 : Nat) : Int) 0 = .ok s' ∧
      (11 = 1 → s' = divide_last (zone_used_block 11) 100) ∧
      (2 ≤ 11 → ∃ k : Nat, 2 ^ k ≤ 11 - 1 ∧ 11 - 1 < 2 ^ (k + 1) ∧ 1 ≤ 11 - 2 ^ k ∧
        (s'.mem (slots_from 1000 (zone_used_block 11).index)).vm_present_size =
          2 ^ k * cfg4096.PAGE_SIZE ∧
        slots_from 1000 (zone_used_block 11).index ∈ (s'.zone_nodes k).node_vmspace ∧
        vmspace_divide_loop (pool_supply (slots_from 1000)) cfg4096 100 (12 - (11 - 2 ^ k))
          (divide_chunk cfg4096
            { zone_used_block 11 with index := (zone_used_block 11).index + 1 } 100
            (slots_from 1000 (zone_used_block 11).index)
            ((2 ^ k : Nat) : Int) ((11 - 2 ^ k : Nat) : Int))
          ((11 - 2 ^ k : Nat) : Int) 0 = .ok s') :=
  C8_divide_peels_largest_power_below cfg4096 (slots_from 1000) 100 12 (zone_used_block 11) 11
    (by decide) (slots_from_injective 1000)
    (fun i => by show 1000 + i ≠ 100; omega) (by decide) (by decide) (by decide)

/-- The rounding rule of a grant, for a chosen free block that is a live descriptor
(its `vm_present_size` is not 0): the granted block is marked used, starts where the
chosen block started, and has `vm_present_size = (size / PAGE_SIZE + 1) * PAGE_SIZE`. -/
theorem granted_block_rounding_of_live (cfg : Config) (s s' : State) (size : Nat) (res : Ref)
    (hP : 0 < cfg.PAGE_SIZE)
    (hlive : ∀ src, chosen_block cfg s size = some src → (s.mem src).vm_present_size ≠ 0)
    (h : vmspace_alloc cfg s size = .ok (res, s')) :
    ∃ src, chosen_block cfg s size = some src ∧
      (s'.mem res).vm_used = 1 ∧
      (s'.mem res).vm_start = (s.mem src).vm_start ∧
      (s'.mem res).vm_present_size = (size / cfg.PAGE_SIZE + 1) * cfg.PAGE_SIZE ∧
      size ≤ (s'.mem res).vm_present_size ∧
      (cfg.PAGE_SIZE ∣ size → (s'.mem res).vm_present_size = size + cfg.PAGE_SIZE) := by
  obtain ⟨_, _, s1, hsel, hs'⟩ := vmspace_alloc_ok cfg s s' size res h
  obtain ⟨src, rest, sf, hfind, hl, hcases⟩ := select_and_divide_ok cfg _ s1 _ _ size res hsel
  obtain ⟨_, hfree, hmem, hzn, _, _⟩ := find_ok cfg _ sf res hfind
  have hmem' : sf.mem = s.mem := hmem
  have hzn' : sf.zone_nodes = s.zone_nodes := hzn
  have hfree' : (s.mem res).vm_present_size = 0 := hfree.1
  have hchosen : chosen_block cfg s size = some src := by
    unfold chosen_block
    simp only
    rw [← hzn', hl]
    rfl
  have hne : res ≠ src := by
    intro heq
    subst heq
    exact hlive _ hchosen hfree'
  have hg := grant_block_res cfg (sf.LIST_REMOVE_HEAD
    (vmspace_alloc_scan cfg s (cfg.MAX_ORDER + 1) (get_order_base2 cfg size)
      (get_order_base2 cfg size)).2 rest) res src size hne
  simp only [remove_head_mem, hmem'] at hg
  have hfields : (s1.mem res).vm_start = (s.mem src).vm_start ∧
      (s1.mem res).vm_present_size = (size / cfg.PAGE_SIZE + 1) * cfg.PAGE_SIZE ∧
      (s1.mem res).vm_used = 1 := by
    rcases hcases with ⟨_, _, hs1⟩ | ⟨_, hdiv⟩
    · rw [hs1]
      simp only [insert_head_mem]
      exact ⟨hg.1, hg.2.1, hg.2.2.2⟩
    · unfold vmspace_divide vmspace_divide_with at hdiv
      have hpos : 0 < (size / cfg.PAGE_SIZE + 1) * cfg.PAGE_SIZE :=
        Nat.mul_pos (Nat.succ_pos _) hP
      obtain ⟨k1, k2, k3⟩ := divide_loop_keeps_live cfg src res hne _ _ s1 _ _ hdiv
        (by rw [hg.2.1]; exact Nat.pos_iff_ne_zero.mp hpos)
      exact ⟨k1.trans hg.1, k2.trans hg.2.1, k3.trans hg.2.2.2⟩
  have hb := total_pages_bound cfg.PAGE_SIZE size hP
  subst hs'
  refine ⟨src, hchosen, hfields.2.2, hfields.1, hfields.2.1, ?_, ?_⟩
  · show size ≤ (s1.mem res).vm_present_size
    rw [hfields.2.1]; exact hb.1
  · intro hd
    show (s1.mem res).vm_present_size = size + cfg.PAGE_SIZE
    rw [hfields.2.1]; exact hb.2 hd

/-- The free block chosen by a `vmspace_alloc` that returns is a live descriptor in a
zone that meets the bucket invariant: the scan stops at a node below `MAX_ORDER`, and a
block enqueued there has `2 ^ k` pages. -/
theorem chosen_block_live (cfg : Config) (s s' : State) (size : Nat) (res src : Ref)
    (hP : 0 < cfg.PAGE_SIZE) (hinv : BucketInv cfg s)
    (h : vmspace_alloc cfg s size = .ok (res, s'))
    (hsrc : chosen_block cfg s size = some src) :
    (s.mem src).vm_present_size ≠ 0 := by
  obtain ⟨hk, hne, _⟩ := vmspace_alloc_ok cfg s s' size res h
  have hnode : (vmspace_alloc_scan cfg s (cfg.MAX_ORDER + 1) (get_order_base2 cfg size)
      (get_order_base2 cfg size)).2 < cfg.MAX_ORDER := by
    rcases vmspace_alloc_scan_from cfg s _ hk with ⟨_, heq⟩ | ⟨_, h1, _, h2, _⟩
    · rw [heq]; exact hk
    · omega
  unfold chosen_block at hsrc
  simp only at hsrc
  have hmem : src ∈ (s.zone_nodes (vmspace_alloc_scan cfg s (cfg.MAX_ORDER + 1)
      (get_order_base2 cfg size) (get_order_base2 cfg size)).2).node_vmspace :=
    List.mem_of_mem_head? hsrc
  rw [hinv _ hnode src hmem]
  exact Nat.pos_iff_ne_zero.mp (Nat.mul_pos (by positivity) hP)

/-- C4: for every byte size and every zone state that meets the bucket invariant (every
block enqueued in bucket `k` has `2 ^ k` pages; `PAGE_SIZE` is not 0), whenever
`vmspace_alloc(zone, size)` returns, the granted block is marked used, starts where the
chosen free block started before its start was advanced, and has
`vm_present_size = (size / PAGE_SIZE + 1) * PAGE_SIZE`, which is at least `size` and is
`size + PAGE_SIZE` when `PAGE_SIZE` divides `size`. -/
theorem C4_granted_block_rounding (cfg : Config) (s s' : State) (size : Nat) (res : Ref)
    (hP : 0 < cfg.PAGE_SIZE) (hinv : BucketInv cfg s)
    (h : vmspace_alloc cfg s size = .ok (res, s')) :
    ∃ src, chosen_block cfg s size = some src ∧
      (s'.mem res).vm_used = 1 ∧
      (s'.mem res).vm_start = (s.mem src).vm_start ∧
      (s'.mem res).vm_present_size = (size / cfg.PAGE_SIZE + 1) * cfg.PAGE_SIZE ∧
      size ≤ (s'.mem res).vm_present_size ∧
      (cfg.PAGE_SIZE ∣ size → (s'.mem res).vm_present_size = size + cfg.PAGE_SIZE) :=
  granted_block_rounding_of_live cfg s s' size res hP
    (fun src hsrc => chosen_block_live cfg s s' size res src hP hinv h hsrc) h

/-- C4, at a concrete input: 8193 bytes from `zone_single 2`. -/
theorem C4_granted_block_rounding_witness :
    ∃ src, chosen_block cfg4096 (zone_single 2) 8193 = some src ∧
      ((alloc_result cfg4096 (zone_single 2) 8193).2.mem 0).vm_used = 1 ∧
      ((alloc_result cfg4096 (zone_single 2) 8193).2.mem 0).vm_start =
        ((zone_single 2).mem src).vm_start ∧
      ((alloc_result cfg4096 (zone_single 2) 8193).2.mem 0).vm_present_size =
        (8193 / cfg4096.PAGE_SIZE + 1) * cfg4096.PAGE_SIZE ∧
      8193 ≤ ((alloc_result cfg4096 (zone_single 2) 8193).2.mem 0).vm_present_size ∧
      (cfg4096.PAGE_SIZE ∣ 8193 →
        ((alloc_result cfg4096 (zone_single 2) 8193).2.mem 0).vm_present_size =
          8193 + cfg4096.PAGE_SIZE) :=
  C4_granted_block_rounding cfg4096 (zone_single 2) (alloc_result cfg4096 (zone_single 2) 8193).2
    8193 0 (by decide) (by decide) rfl

/-- With a pool that supplies descriptors, the off-by-one of the scan (lines 59-62, the
defect of C5 and C18) ends in a double allocation from a zone that meets the zone
invariant: `vmspace_alloc(zone, 4097)` finds bucket 1 empty, takes the 4-page block of
bucket 2 for a block of order 3 and enqueues a 4-page chunk at address 16384, beyond the
block's end; `vmspace_alloc(zone, 8193)` then grants 3 pages there, on top of the used
page of descriptor 101. -/
theorem double_allocation_after_advanced_scan :
    ZoneInv cfg4096 zone_with_neighbour ∧
    ∃ r1 s1 r2 s2,
      vmspace_alloc_with (claim_free_slot cfg4096) cfg4096 zone_with_neighbour 4097 = .ok (r1, s1) ∧
      vmspace_alloc_with (claim_free_slot cfg4096) cfg4096 s1 8193 = .ok (r2, s2) ∧
      (s2.mem r2).vm_used ≠ 0 ∧ (s2.mem 101).vm_used ≠ 0 ∧ r2 ≠ 101 ∧
      (s2.mem r2).overlaps (s2.mem 101) ∧ ¬ UsedDisjoint s2 := by
  refine ⟨zone_with_neighbour_inv, _, _, _, _, rfl, rfl, by decide, by decide, by decide,
    by decide, ?_⟩
  intro h
  exact h 3 101 (by decide) (by decide) (by decide) (by decide)

/-- C16 (code defect): in `zone_single 2` every bucket count equals the length of its
list; after `vmspace_alloc(zone, 8193)` returns, bucket 0 holds the remainder block
while its count is still 0: line 148 inserts the source without `node_nr_nodes++`
(the insertions of `vmspace_divide` and `vmspace_free` do increment). -/
theorem C16_direct_reinsert_skips_count :
    CountInv cfg4096 (zone_single 2) ∧
    ∃ res s', vmspace_alloc cfg4096 (zone_single 2) 8193 = .ok (res, s') ∧
      (s'.zone_nodes 0).node_vmspace = [100] ∧
      (s'.zone_nodes 0).node_nr_nodes = 0 ∧
      ¬ CountInv cfg4096 s' := by
  refine ⟨by decide, _, _, rfl, rfl, rfl, ?_⟩
  decide

/-- C17 (code defect): `vmspace_node_select_and_divide` on the block of `zone_single 2`
(4 pages at address 0, region `[0, 16384)`) for 8193 bytes returns; the buddy chain is
then the granted block (slot 0, `[0, 12288)`) followed by the remainder block 100, which
starts at 12288 but still has `vm_present_size` 16384, so the run ends at 28672 instead
of 16384: the size of the source is never reduced by the grant (same defect as C1). -/
theorem C17_run_exceeds_original_region :
    ((zone_single 2).mem 100).vm_start + ((zone_single 2).mem 100).vm_present_size = 16384 ∧
    ∃ res s', vmspace_node_select_and_divide cfg4096 (zone_single 2) 2 2 8193 = .ok (res, s') ∧
      (s'.mem res).vm_buddy_next = some 100 ∧ (s'.mem 100).vm_buddy_next = none ∧
      (s'.mem res).vm_start = 0 ∧
      (s'.mem res).vm_start + (s'.mem res).vm_present_size = (s'.mem 100).vm_start ∧
      (s'.mem 100).vm_start + (s'.mem 100).vm_present_size = 28672 := by
  refine ⟨rfl, _, _, rfl, rfl, rfl, rfl, rfl, rfl⟩

/-- C18 (code defect): in `zone_single 1` bucket 0 is empty and bucket 1 holds a block.
For order 0 the scan of `_vmspace_alloc` stops with `present_node` at bucket 1, the
lowest non-empty bucket, but with `order = 2`: `present_node` is assigned before
`++order`, so `order` is one ahead, and `vmspace_node_select_and_divide` is called with
the node of bucket 1 and order 2 (same defect as C5). -/
theorem C18_order_one_ahead_of_bucket :
    ((zone_single 1).zone_nodes 0).node_nr_nodes = 0 ∧
    ((zone_single 1).zone_nodes 1).node_nr_nodes ≠ 0 ∧
    vmspace_alloc_scan cfg4096 (zone_single 1) (cfg4096.MAX_ORDER + 1) 0 0 = (2, 1) ∧
    _vmspace_alloc cfg4096 (zone_single 1) 0 1 =
      vmspace_node_select_and_divide cfg4096 (zone_single 1) 1 2 1 := by
  refine ⟨rfl, by decide, by decide, rfl⟩

/-- C11 (code defect): from the well-formed `zone_with_neighbour`, allocate 8193 bytes
and free the granted block, whose buddy successor (the source block 100) is free.  Both
calls return; the freed block (slot 0) has `vm_used` clear and 3 pages, yet it is in no
bucket list: the walk of lines 243-249 only calls the stub `vmspace_merge` and never
enqueues anything (same defect as C3). -/
theorem C11_freed_block_in_no_bucket :
    WellFormed cfg4096 zone_with_neighbour ∧
    ∃ res s1 s2, vmspace_alloc cfg4096 zone_with_neighbour 8193 = .ok (res, s1) ∧
      (s1.mem res).vm_buddy_next = some 100 ∧ (s1.mem 100).vm_used = 0 ∧
      vmspace_free cfg4096 2 s1 res = .ok s2 ∧
      (s2.mem res).vm_used = 0 ∧ (s2.mem res).vm_present_size = 3 * 4096 ∧
      ¬ enqueued cfg4096 s2 res := by
  refine ⟨zone_with_neighbour_wellformed, _, _, _, rfl, rfl, rfl, rfl, rfl, rfl, ?_⟩
  decide

/-- C15 (code defect): in a build that defines `MEM_GROW_DOWN`, `vmspace_divide` places
a chunk below the start of the source (here 36864 below 40960), while
`vmspace_node_select_and_divide` still advances the start of the source upwards (here
to 53248): its `#ifdef` tests the misspelt `MEM_GROUW_DOWN`, which that build does not
define.  Only in the build without flags do both move upwards. -/
theorem C15_directions_disagree_when_grow_down_defined :
    build_grow_down.MEM_GROW_DOWN = true ∧
    chunk_start build_grow_down 40960 4096 1 = 36864 ∧
    source_start_after_grant build_grow_down 40960 3 4096 = 53248 ∧
    (∀ start total P : Int, source_start_after_grant build_grow_down start total P
      = start + total * P) ∧
    (∀ start P pc : Int, chunk_start build_grow_down start P pc = start - P * pc) ∧
    (∀ start total P : Int, source_start_after_grant build_default start total P
      = start + total * P) ∧
    (∀ start P pc : Int, chunk_start build_default start P pc = start + P * pc) := by
  refine ⟨rfl, by decide, by decide, ?_, ?_, ?_, ?_⟩ <;> intros <;> rfl

/-- C19 (as stated, refuted): a request of 4096 bytes has order 0, yet 2 pages are
granted: more than the `2 ^ 0` pages of a block of order 0.  The remainder count is
-1, the granted block carved from the one-page block of `zone_single 0` would end at
8192, beyond the end 4096 of that block, and `vmspace_alloc` does not return. -/
theorem C19_counterexample_one_full_page :
    get_order_base2 cfg4096 4096 = 0 ∧
    4096 / cfg4096.PAGE_SIZE + 1 = 2 ∧
    ¬ (4096 / cfg4096.PAGE_SIZE + 1 ≤ 2 ^ get_order_base2 cfg4096 4096) ∧
    reserve_pages_at 0 2 = -1 ∧
    ((grant_block cfg4096 (zone_single 0) 0 100 4096).mem 0).vm_start +
      ((grant_block cfg4096 (zone_single 0) 0 100 4096).mem 0).vm_present_size = 8192 ∧
    ((zone_single 0).mem 100).vm_start + ((zone_single 0).mem 100).vm_present_size = 4096 ∧
    vmspace_alloc cfg4096 (zone_single 0) 4096 = .error .hang := by
  refine ⟨by decide, by decide, by decide, by decide, rfl, rfl, rfl⟩

/-- C19 (amended): for every byte size `s` (with `PAGE_SIZE > 0`), `k` the order of `s`:
the granted page count `s / PAGE_SIZE + 1` is at most `2 ^ k + 1`; it is at most `2 ^ k`
exactly when `s` is not a whole number of pages that is a power of two; and exactly then
the remainder count computed for a block of order `k` is not negative and the granted
block carved by `grant_block` from a block of `2 ^ k` pages ends inside that block. -/
theorem C19_grant_fits_unless_power_of_two_pages (cfg : Config) (s : State) (res src : Ref)
    (size : Nat) (hP : 0 < cfg.PAGE_SIZE) (hne : res ≠ src)
    (hblock : (s.mem src).vm_present_size = 2 ^ get_order_base2 cfg size * cfg.PAGE_SIZE) :
    size / cfg.PAGE_SIZE + 1 ≤ 2 ^ get_order_base2 cfg size + 1 ∧
    (size / cfg.PAGE_SIZE + 1 ≤ 2 ^ get_order_base2 cfg size ↔
      ¬ (cfg.PAGE_SIZE ∣ size ∧ ∃ e : Nat, size / cfg.PAGE_SIZE = 2 ^ e)) ∧
    (0 ≤ reserve_pages_at (get_order_base2 cfg size) ((size / cfg.PAGE_SIZE + 1 : Nat) : Int) ↔
      size / cfg.PAGE_SIZE + 1 ≤ 2 ^ get_order_base2 cfg size) ∧
    (((grant_block cfg s res src size).mem res).vm_start +
        ((grant_block cfg s res src size).mem res).vm_present_size ≤
        (s.mem src).vm_start + (s.mem src).vm_present_size ↔
      size / cfg.PAGE_SIZE + 1 ≤ 2 ^ get_order_base2 cfg size) := by
  refine ⟨total_le_pow_order cfg hP size, grant_fits_iff cfg size hP, ?_, ?_⟩
  · unfold reserve_pages_at
    simp only [Int.toNat_ofNat]
    constructor
    · intro h
      have h2 : ((size / cfg.PAGE_SIZE + 1 : Nat) : Int) ≤
          ((2 ^ get_order_base2 cfg size : Nat) : Int) := by
        push_cast
        push_cast at h
        omega
      exact_mod_cast h2
    · intro h
      have h2 : ((size / cfg.PAGE_SIZE + 1 : Nat) : Int) ≤
          ((2 ^ get_order_base2 cfg size : Nat) : Int) := by exact_mod_cast h
      push_cast at h2
      push_cast
      omega
  · rw [(grant_block_res cfg s res src size hne).1, (grant_block_res cfg s res src size hne).2.1,
      hblock]
    constructor
    · intro h
      have h' : (size / cfg.PAGE_SIZE + 1) * cfg.PAGE_SIZE ≤
          2 ^ get_order_base2 cfg size * cfg.PAGE_SIZE := by omega
      exact Nat.le_of_mul_le_mul_right h' hP
    · intro h
      have := Nat.mul_le_mul_right cfg.PAGE_SIZE h
      omega

/-- C19 (amended), at a concrete input: 8193 bytes against the 4-page block of
`zone_single 2`. -/
theorem C19_grant_fits_unless_power_of_two_pages_witness :
    8193 / cfg4096.PAGE_SIZE + 1 ≤ 2 ^ get_order_base2 cfg4096 8193 + 1 ∧
    (8193 / cfg4096.PAGE_SIZE + 1 ≤ 2 ^ get_order_base2 cfg4096 8193 ↔
      ¬ (cfg4096.PAGE_SIZE ∣ 8193 ∧ ∃ e : Nat, 8193 / cfg4096.PAGE_SIZE = 2 ^ e)) ∧
    (0 ≤ reserve_pages_at (get_order_base2 cfg4096 8193)
        ((8193 / cfg4096.PAGE_SIZE + 1 : Nat) : Int) ↔
      8193 / cfg4096.PAGE_SIZE + 1 ≤ 2 ^ get_order_base2 cfg4096 8193) ∧
    (((grant_block cfg4096 (zone_single 2) 0 100 8193).mem 0).vm_start +
        ((grant_block cfg4096 (zone_single 2) 0 100 8193).mem 0).vm_present_size ≤
        ((zone_single 2).mem 100).vm_start + ((zone_single 2).mem 100).vm_present_size ↔
      8193 / cfg4096.PAGE_SIZE + 1 ≤ 2 ^ get_order_base2 cfg4096 8193) :=
  C19_grant_fits_unless_power_of_two_pages cfg4096 (zone_single 2) 0 100 8193 (by decide)
    (by decide) (by decide)

/-- C12: `_vmspace_alloc` and `_vmspace_alloc_wait` stop with the order-range panic if
and only if `order < 0` or `order >= MAX_ORDER`; and the zone `z` in which that `panic`
is called is the zone `s` the call was entered with: nothing has been modified. -/
theorem C12_order_range_panic (cfg : Config) (env : State → State) (fuel : Nat) (s z : State)
    (order : Int) (size : Nat) :
    (_vmspace_alloc cfg s order size = .error .panic_order ↔
      (order < 0 ∨ order ≥ cfg.MAX_ORDER)) ∧
    (_vmspace_alloc_wait cfg env fuel s order size = .error .panic_order ↔
      (order < 0 ∨ order ≥ cfg.MAX_ORDER)) ∧
    (_vmspace_alloc_abort cfg s order size = .error (.panic .panic_order z) ↔
      ((order < 0 ∨ order ≥ cfg.MAX_ORDER) ∧ z = s)) ∧
    (_vmspace_alloc_wait_abort cfg env fuel s order size = .error (.panic .panic_order z) ↔
      ((order < 0 ∨ order ≥ cfg.MAX_ORDER) ∧ z = s)) := by
  by_cases hr : order ≥ cfg.MAX_ORDER ∨ order < 0
  · have hr' : order < 0 ∨ order ≥ cfg.MAX_ORDER := hr.symm
    refine ⟨?_, ?_, ?_, ?_⟩
    · simp only [_vmspace_alloc, _vmspace_alloc_with, if_pos hr, hr', iff_true]
    · simp only [_vmspace_alloc_wait, _vmspace_alloc_wait_abort, if_pos hr, hr', iff_true,
        Abort.erase]
    · simp only [_vmspace_alloc_abort, if_pos hr, hr', true_and]
      constructor
      · intro h
        injection h with h
        injection h with _ h
        exact h.symm
      · rintro rfl; rfl
    · simp only [_vmspace_alloc_wait_abort, if_pos hr, hr', true_and]
      constructor
      · intro h
        injection h with h
        injection h with _ h
        exact h.symm
      · rintro rfl; rfl
  · have hr' : ¬ (order < 0 ∨ order ≥ cfg.MAX_ORDER) := fun h => hr h.symm
    refine ⟨?_, ?_, ?_, ?_⟩
    · simp only [hr', iff_false]
      intro h
      unfold _vmspace_alloc _vmspace_alloc_with at h
      rw [if_neg hr] at h
      simp only at h
      split_ifs at h with h2
      · injection h with h
        cases h
      · rcases select_and_divide_error cfg s _ _ size _ h with h3 | h3 <;> cases h3
    · simp only [hr', iff_false]
      intro h
      unfold _vmspace_alloc_wait _vmspace_alloc_wait_abort at h
      rw [if_neg hr] at h
      cases hl : vmspace_alloc_wait_loop cfg env order.toNat fuel s order.toNat order.toNat with
      | error e =>
        rw [hl] at h
        simp only [Abort.erase] at h
        injection h with h
        have := wait_loop_error cfg env _ fuel s _ _ e hl
        rw [h] at this
        cases this
      | ok p =>
        obtain ⟨o, pn, s'⟩ := p
        rw [hl] at h
        simp only at h
        cases hsel : vmspace_node_select_and_divide cfg s' pn (o : Int) size with
        | error e =>
          rw [hsel] at h
          simp only [Abort.erase] at h
          injection h with h
          subst h
          rcases select_and_divide_error cfg s' _ _ size _ hsel with h3 | h3 <;> cases h3
        | ok q =>
          rw [hsel] at h
          simp at h
    · simp only [hr', false_and, iff_false]
      intro h
      unfold _vmspace_alloc_abort at h
      rw [if_neg hr] at h
      simp only at h
      split_ifs at h with h2
      · injection h with h
        injection h with h _
        cases h
      · cases hsel : vmspace_node_select_and_divide cfg s
            (vmspace_alloc_scan cfg s (cfg.MAX_ORDER + 1) order.toNat order.toNat).2
            ((vmspace_alloc_scan cfg s (cfg.MAX_ORDER + 1) order.toNat order.toNat).1 : Int)
            size with
        | error e => rw [hsel] at h; simp at h
        | ok q => rw [hsel] at h; simp at h
    · simp only [hr', false_and, iff_false]
      intro h
      unfold _vmspace_alloc_wait_abort at h
      rw [if_neg hr] at h
      cases hl : vmspace_alloc_wait_loop cfg env order.toNat fuel s order.toNat order.toNat with
      | error e => rw [hl] at h; simp at h
      | ok p =>
        obtain ⟨o, pn, s'⟩ := p
        rw [hl] at h
        simp only at h
        cases hsel : vmspace_node_select_and_divide cfg s' pn (o : Int) size with
        | error e => rw [hsel] at h; simp at h
        | ok q => rw [hsel] at h; simp at h

/-- C13 (code defect): `_vmspace_alloc_wait` for order 0 on the empty `zone_empty_locked`.
The first scan ends with `order = 11 = MAX_ORDER` and `present_node` at bucket 10; the
lock is released, and meanwhile `env_two_frees` fills buckets 3 and 10.  On the retry
`order` is reset to 0 but `present_node` is not: the first count tested is that of
bucket 10, not of bucket 0, so the loop ends at once with `order = 0` and
`present_node` at bucket 10, and the block is taken from bucket 10 with order argument
0, although bucket 3 is the lowest non-empty bucket.  Without any retry the order is
one ahead of the bucket, as in `_vmspace_alloc` (C18): `zone_single 1` gives bucket 1
with order 2. -/
theorem C13_retry_keeps_stale_present_node :
    vmspace_alloc_scan cfg4096 zone_empty_locked (cfg4096.MAX_ORDER + 1) 0 0 = (11, 10) ∧
    (∃ s', vmspace_alloc_wait_loop cfg4096 env_two_frees 0 2 zone_empty_locked 0 0
        = .ok (0, 10, s') ∧
      (s'.zone_nodes 0).node_nr_nodes = 0 ∧ (s'.zone_nodes 1).node_nr_nodes = 0 ∧
      (s'.zone_nodes 2).node_nr_nodes = 0 ∧ (s'.zone_nodes 3).node_nr_nodes = 1 ∧
      _vmspace_alloc_wait cfg4096 env_two_frees 2 zone_empty_locked 0 1 =
        vmspace_node_select_and_divide cfg4096 s' 10 0 1) ∧
    (∃ s', vmspace_alloc_wait_loop cfg4096 id 0 1 (zone_single 1) 0 0 = .ok (2, 1, s')) := by
  refine ⟨by decide, ⟨_, rfl, rfl, rfl, rfl, rfl, rfl⟩, ⟨_, rfl⟩⟩

/-- C14 (code defect): two runs in which the zone is changed while the lock is not held.
`vmspace_free` on the used page of `zone_used_block 1`, entered without the lock: the
states after marking the block free, after `node_nr_nodes++` and after the insertion all
have the lock clear, and the call returns the last of them; `vmspace_free` contains no
`ZONE_LOCK`.  `_vmspace_alloc_wait` entered with the lock held on the empty zone: after
the first scan it releases the lock, runs the next scan on a zone whose lock is clear,
detaches a block from bucket 10 and returns with the lock still clear: it never takes
the lock again. -/
theorem C14_zone_changed_without_lock :
    (zone_used_block 1).zone_lock = false ∧
    ((zone_used_block 1).mem 100).vm_used = 1 ∧
    (∃ s1 s2 s3, s1 = (zone_used_block 1).setMem 100
          { (zone_used_block 1).mem 100 with vm_used := 0 } ∧
        s2 = s1.incr_nr 0 ∧ s3 = s2.LIST_INSERT_HEAD 0 100 ∧
        vmspace_free cfg4096 1 (zone_used_block 1) 100 = .ok s3 ∧
        s1.zone_lock = false ∧ s2.zone_lock = false ∧ s3.zone_lock = false ∧
        (s3.mem 100).vm_used = 0 ∧ (s3.zone_nodes 0).node_vmspace = [100]) ∧
    zone_empty_locked.zone_lock = true ∧
    (∃ s1 res s2,
        vmspace_alloc_wait_loop cfg4096 env_two_frees 0 2 zone_empty_locked 0 0
          = .ok (0, 10, s1) ∧
        s1.zone_lock = false ∧ (s1.zone_nodes 10).node_nr_nodes = 1 ∧
        _vmspace_alloc_wait cfg4096 env_two_frees 2 zone_empty_locked 0 1 = .ok (res, s2) ∧
        s2.zone_lock = false ∧ (s2.zone_nodes 10).node_nr_nodes = 0 ∧
        (s2.mem res).vm_used = 1) := by
  refine ⟨rfl, rfl, ⟨_, _, _, rfl, rfl, rfl, rfl, rfl, rfl, rfl, rfl, rfl⟩, rfl,
    ⟨_, _, _, rfl, rfl, rfl, rfl, rfl, rfl, rfl⟩⟩

end MiniOS
